import Mathlib

/-!
# InterDex packing planner (opt/interdex/InterDex.cpp)

A shallow embedding of the InterDex pass: the emit tracker, the two flush
routines, `emit_class`, the cold-start pruner and the driver `run_interdex`,
followed by the properties established about them.

Conventions of the embedding.

* A class handle (`DexClass*`) is a record value; equality of records is
  pointer equality.
* Everything the pass calls but does not define (`estimate_linear_alloc`,
  `gather_methods`, `gather_fields`, `gather_types`, `can_rename`, the global
  type table behind `type_class`, the process-wide `emit_canaries` switch, the
  `GINGER_BREAD` build switch, and the iteration order of a
  `std::unordered_set<DexClass*>`) is a field of `Env`.
* `always_assert_log` failures are `Except.error`.
* `int` quantities are mathematical integers: the additions on `la_size` are
  taken not to overflow (signed overflow is undefined behaviour in C++).
* The `while` loop of the pruner runs on fuel; `none` means the fuel ran out.
-/

namespace InterDex

/-- An instruction, reduced to the operand the pruner looks at: the type name
of the class owning the referenced method or field, or the referenced type. -/
inductive DexInstruction where
  | has_methods (cls : String)
  | has_fields (cls : String)
  | has_types (type : String)
  | plain
deriving DecidableEq, Repr

/-- A method: the type name returned by `get_class()` and its code, if any. -/
structure DexMethod where
  cls : String
  code : Option (List DexInstruction)
deriving DecidableEq, Repr

/-- A class handle: its type name (`get_type()->get_name()`), access flags,
super type and the methods `walk_code` visits. -/
structure DexClass where
  name : String
  access : Nat
  super_class : String
  methods : List DexMethod
deriving DecidableEq, Repr

abbrev DexClasses := List DexClass

abbrev DexClassesVector := List DexClasses

abbrev Scope := List DexClass

/-- The collaborators of the pass that live outside InterDex.cpp. -/
structure Env where
  /-- the file-level switch `emit_canaries`, set by `run_pass` -/
  emit_canaries : Bool
  /-- whether the build defines `GINGER_BREAD` -/
  ginger_bread : Bool
  estimate_linear_alloc : DexClass → Int
  gather_methods : DexClass → List Nat
  gather_fields : DexClass → List Nat
  gather_types : DexClass → List String
  can_rename : DexClass → Bool
  /-- the classes registered in the global type table consulted by `type_class` -/
  classes : List DexClass
  /-- the order in which a range-for visits an `unordered_set<DexClass*>`,
  given its elements in insertion order -/
  iteration_order : List DexClass → List DexClass

/-- The failures that abort the pass. -/
inductive Fatal where
  /-- `always_assert_log(!is_primary, ...)` in `emit_class` -/
  | early_primary_flush
  /-- `always_assert_log(dexnum <= kMaxDexNum, ...)` in `flush_out_secondary` -/
  | max_dex_surpassed
  /-- `dexen[0]` on an empty vector -/
  | no_primary_dex
deriving DecidableEq, Repr

def kMaxLinearAlloc (env : Env) : Int :=
  if env.ginger_bread then 2600 * 1024 else 11600 * 1024

def kMaxMethodRefs : Nat := 64 * 1024 - 1

def kMaxFieldRefs : Nat := 64 * 1024 - 1

def kCanaryPrefix : String := "Lsecondary/dex"

def kMaxDexNum : Nat := 99

/-- The value of `sizeof(kCanaryPrefix)`: `kCanaryPrefix` is declared
`const char*`, so this is the size of a pointer (LP64 target), not the length
of the string. -/
def sizeof_kCanaryPrefix : Nat := 8

/-- Whether `strncmp(a, b, n) == 0` for NUL-terminated strings without inner NUL. -/
def strncmp_eq : List Char → List Char → Nat → Bool
  | _, _, 0 => true
  | [], [], _ + 1 => true
  | x :: a, y :: b, n + 1 => x == y && strncmp_eq a b n
  | _, _, _ + 1 => false

/-- The two decimal digits printed by `%02d` for an index below 100; wider
numbers are printed in full. -/
def fmt02d (n : Nat) : List Char :=
  if n < 10 then ['0', Nat.digitChar n] else Nat.toDigits 10 n

/-- The result of `snprintf(buf, sizeof(buf), kCanaryClassFormat, dexnum)`;
the index is asserted to be at most 99 first, so the text always fits. -/
def canary_name (dexnum : Nat) : String :=
  String.mk ("Lsecondary/dex".data ++ fmt02d dexnum ++ "/Canary;".data)

def ACC_PUBLIC : Nat := 0x1

def ACC_INTERFACE : Nat := 0x200

def ACC_ABSTRACT : Nat := 0x400

def get_object_type : String := "Ljava/lang/Object;"

/-- Modelled from the spec: the class built by `ClassCreator` (Creators.h) in
`flush_out_secondary`, a public abstract interface extending the root Object
type. -/
def create_canary (canaryname : String) : DexClass :=
  { name := canaryname
    access := ACC_PUBLIC ||| ACC_INTERFACE ||| ACC_ABSTRACT
    super_class := get_object_type
    methods := [] }

/-- Modelled from the spec: the name resolution `type_class` (DexClass.h), a
lookup of the type name in the global table; `nullptr` is `none`. -/
def type_class (env : Env) (type : String) : Option DexClass :=
  env.classes.find? (fun c => c.name == type)

/-- The `std::unordered_map<std::string, DexClass*>`: the newest binding of a
key is the first in the list. -/
abbrev CLookup := List (String × DexClass)

def CLookup.find (m : CLookup) (key : String) : Option DexClass :=
  List.lookup key m

/-- The two loops `clookup[clzname] = clazz` of `run_interdex`. -/
def build_clookup (classes : List DexClass) : CLookup :=
  classes.foldl (fun m clazz => (clazz.name, clazz) :: m) []

structure dex_emit_tracker where
  la_size : Int
  mrefs : Finset Nat
  frefs : Finset Nat
  outs : List DexClass
  emitted : Finset DexClass
  clookup : CLookup

def dex_emit_tracker.empty : dex_emit_tracker :=
  { la_size := 0, mrefs := ∅, frefs := ∅, outs := [], emitted := ∅, clookup := [] }

abbrev EmitResult := Except Fatal (dex_emit_tracker × DexClassesVector)

def gather_mrefs (env : Env) (cls : DexClass) (det : dex_emit_tracker) : dex_emit_tracker :=
  { det with
    mrefs := det.mrefs ∪ (env.gather_methods cls).toFinset
    frefs := det.frefs ∪ (env.gather_fields cls).toFinset }

/-- The statistics arguments of the C++ overloads only feed counters and the
trace, so one definition serves both. -/
def flush_out_dex (det : dex_emit_tracker) (outdex : DexClassesVector) :
    dex_emit_tracker × DexClassesVector :=
  ({ det with la_size := 0, mrefs := ∅, frefs := ∅, outs := [] }, outdex ++ [det.outs])

/-- The class pushed by the canary branch of `flush_out_secondary`. -/
def find_canary (env : Env) (det : dex_emit_tracker) (dexnum : Nat) : DexClass :=
  match det.clookup.find (canary_name dexnum) with
  | some clazz => clazz
  | none =>
    match type_class env (canary_name dexnum) with
    | some canary_cls => canary_cls
    | none => create_canary (canary_name dexnum)

def flush_out_secondary (env : Env) (det : dex_emit_tracker) (outdex : DexClassesVector) :
    EmitResult :=
  if det.outs.length = 0 then .ok (det, outdex)
  else if env.emit_canaries then
    if outdex.length ≤ kMaxDexNum then
      .ok (flush_out_dex { det with outs := det.outs ++ [find_canary env det outdex.length] } outdex)
    else .error Fatal.max_dex_surpassed
  else .ok (flush_out_dex det outdex)

def is_canary (clazz : DexClass) : Bool :=
  strncmp_eq clazz.name.data kCanaryPrefix.data (sizeof_kCanaryPrefix - 1)

/-- The value of a 32-bit `int` holding `x`: the representative of `x` modulo
`2^32` between `-2^31` and `2^31 - 1`. -/
def int_wrap (x : Int) : Int :=
  (x + 2147483648) % 4294967296 - 2147483648

/-- The sum `a + b` of two `int` values as the build computes it. -/
def int_add (a b : Int) : Int := int_wrap (a + b)

def emit_class (env : Env) (det : dex_emit_tracker) (outdex : DexClassesVector)
    (clazz : DexClass) (is_primary : Bool) : EmitResult :=
  if clazz ∈ det.emitted then .ok (det, outdex)
  else if is_canary clazz then .ok (det, outdex)
  else
    let laclazz := env.estimate_linear_alloc clazz
    let det1 := gather_mrefs env clazz det
    if int_add det1.la_size laclazz > kMaxLinearAlloc env ∨
        det1.mrefs.card ≥ kMaxMethodRefs ∨ det1.frefs.card ≥ kMaxFieldRefs then
      if is_primary then .error Fatal.early_primary_flush
      else
        match flush_out_secondary env det1 outdex with
        | .error e => .error e
        | .ok (det2, outdex2) =>
          let det3 := gather_mrefs env clazz det2
          .ok ({ det3 with
                 la_size := int_add det3.la_size laclazz
                 outs := det3.outs ++ [clazz]
                 emitted := insert clazz det3.emitted }, outdex2)
    else
      .ok ({ det1 with
             la_size := int_add det1.la_size laclazz
             outs := det1.outs ++ [clazz]
             emitted := insert clazz det1.emitted }, outdex)

/-- The class an instruction refers to, as computed in the walker of
`find_unrefenced_coldstart_classes` (`nullptr` is `none`). -/
def called_cls (env : Env) : DexInstruction → Option DexClass
  | .has_methods cls => type_class env cls
  | .has_fields cls => type_class env cls
  | .has_types type => type_class env type
  | .plain => none

/-- The walker lambda: one pass over the instructions of a method. -/
def scan_code (env : Env) (coldstart_classes : List DexClass) (base_cls : Option DexClass) :
    List DexInstruction → Finset (Option DexClass) → Finset (Option DexClass)
  | [], refs => refs
  | inst :: rest, refs =>
    match called_cls env inst with
    | some called =>
      if base_cls ≠ some called ∧ called ∈ coldstart_classes then
        scan_code env coldstart_classes base_cls rest (insert (some called) refs)
      else scan_code env coldstart_classes base_cls rest refs
    | none => scan_code env coldstart_classes base_cls rest refs

/-- The filter lambda: the class of the method is a cold-start class. -/
def in_coldstart (env : Env) (coldstart_classes : List DexClass) (meth : DexMethod) : Bool :=
  match type_class env meth.cls with
  | some cls => decide (cls ∈ coldstart_classes)
  | none => false

/-- Modelled from the spec: the part of `walk_code` (walkers.h) that visits the
methods of one class, applying the walker to the code of each method the filter
accepts. -/
def walk_methods (env : Env) (coldstart_classes : List DexClass) :
    List DexMethod → Finset (Option DexClass) → Finset (Option DexClass)
  | [], refs => refs
  | meth :: rest, refs =>
    match meth.code with
    | some code =>
      if in_coldstart env coldstart_classes meth then
        walk_methods env coldstart_classes rest
          (scan_code env coldstart_classes (type_class env meth.cls) code refs)
      else walk_methods env coldstart_classes rest refs
    | none => walk_methods env coldstart_classes rest refs

/-- Modelled from the spec: the call `walk_code(input_scope, filter, walker)`
(walkers.h), which visits every method with code of every class of the scope,
in order. -/
def walk_code (env : Env) (coldstart_classes : List DexClass) :
    Scope → Finset (Option DexClass) → Finset (Option DexClass)
  | [], refs => refs
  | cls :: rest, refs =>
    walk_code env coldstart_classes rest (walk_methods env coldstart_classes cls.methods refs)

/-- The loop over `scope` that pins every class that cannot be renamed. -/
def pin_unrenamable (env : Env) :
    Scope → Finset (Option DexClass) → Finset (Option DexClass)
  | [], refs => refs
  | cls :: rest, refs =>
    if !env.can_rename cls then pin_unrenamable env rest (insert (some cls) refs)
    else pin_unrenamable env rest refs

/-- The inner loop `for (type : types) insert(type_class(type))`. -/
def insert_types (env : Env) :
    List String → Finset (Option DexClass) → Finset (Option DexClass)
  | [], refs => refs
  | type :: rest, refs => insert_types env rest (insert (type_class env type) refs)

/-- The loop over `input_scope` that adds the gathered types of every class
already in the reference set when it is visited. -/
def add_gathered_types (env : Env) :
    Scope → Finset (Option DexClass) → Finset (Option DexClass)
  | [], refs => refs
  | cls :: rest, refs =>
    if some cls ∈ refs then
      add_gathered_types env rest (insert_types env (env.gather_types cls) refs)
    else add_gathered_types env rest refs

/-- The state updated by the last loop of an iteration of the pruner. -/
structure prune_state where
  new_no_ref : Int
  unreferenced_classes : Finset DexClass
  output_scope : Scope

/-- The loop over `coldstart_classes` that counts and records the classes
without reference and keeps the others. -/
def partition_coldstart (env : Env) (cold_cold_references : Finset (Option DexClass)) :
    List DexClass → prune_state → prune_state
  | [], st => st
  | cls :: rest, st =>
    if env.can_rename cls ∧ some cls ∉ cold_cold_references then
      partition_coldstart env cold_cold_references rest
        { st with new_no_ref := st.new_no_ref + 1
                  unreferenced_classes := insert cls st.unreferenced_classes }
    else
      partition_coldstart env cold_cold_references rest
        { st with output_scope := st.output_scope ++ [cls] }

/-- The reference set built by one iteration of the `while` loop. -/
def cold_cold_references (env : Env) (scope : Scope) (coldstart_classes : List DexClass)
    (input_scope : Scope) : Finset (Option DexClass) :=
  add_gathered_types env input_scope
    (pin_unrenamable env scope (walk_code env coldstart_classes input_scope ∅))

/-- The `while (old_no_ref != new_no_ref)` loop, on fuel. -/
def prune_loop (env : Env) (scope : Scope) (coldstart_classes : List DexClass) :
    Nat → Int → Int → Scope → Finset DexClass → Option (Finset DexClass)
  | fuel, old_no_ref, new_no_ref, input_scope, unreferenced_classes =>
    if old_no_ref = new_no_ref then some unreferenced_classes
    else
      match fuel with
      | 0 => none
      | fuel + 1 =>
        let st := partition_coldstart env
          (cold_cold_references env scope coldstart_classes input_scope) coldstart_classes
          { new_no_ref := 0, unreferenced_classes := unreferenced_classes, output_scope := [] }
        prune_loop env scope coldstart_classes fuel new_no_ref st.new_no_ref st.output_scope
          st.unreferenced_classes

/-- The elements of `coldstart_classes` in insertion order. -/
def coldstart_insertions (det : dex_emit_tracker) : List String → List DexClass → List DexClass
  | [], acc => acc
  | class_string :: rest, acc =>
    match det.clookup.find class_string with
    | some cls =>
      if cls ∈ acc then coldstart_insertions det rest acc
      else coldstart_insertions det rest (acc ++ [cls])
    | none => coldstart_insertions det rest acc

def find_unrefenced_coldstart_classes (env : Env) (fuel : Nat) (scope : Scope)
    (det : dex_emit_tracker) (interdexorder : List String) (static_prune_classes : Bool) :
    Option (Finset DexClass) :=
  if !static_prune_classes then some ∅
  else
    prune_loop env scope (env.iteration_order (coldstart_insertions det interdexorder []))
      fuel (-1) 0 scope ∅

/-- Whether `s.find(pat) != std::string::npos`. -/
def contains_substr (s pat : List Char) : Bool :=
  s.tails.any (fun t => pat.isPrefixOf t)

/-- Modelled from the spec: `build_class_scope` (DexUtil.h), the concatenation
of all input containers in order. -/
def build_class_scope (dexen : DexClassesVector) : Scope := dexen.flatten

/-- The first loop of the primary branch: the cold-start entries found in the
primary dex and not pruned are emitted into the primary tracker. -/
def emit_primary_coldstart (env : Env) (unreferenced_classes : Finset DexClass) :
    List String → dex_emit_tracker → DexClassesVector → EmitResult
  | [], primary_det, outdex => .ok (primary_det, outdex)
  | entry :: rest, primary_det, outdex =>
    match primary_det.clookup.find entry with
    | none => emit_primary_coldstart env unreferenced_classes rest primary_det outdex
    | some clazz =>
      if clazz ∈ unreferenced_classes then
        emit_primary_coldstart env unreferenced_classes rest primary_det outdex
      else
        match emit_class env primary_det outdex clazz true with
        | .error e => .error e
        | .ok (primary_det1, outdex1) =>
          emit_primary_coldstart env unreferenced_classes rest primary_det1 outdex1

/-- A loop `for (clazz : classes) emit_class(det, outdex, clazz, is_primary)`. -/
def emit_each (env : Env) ( is_primary : Bool) :
    List DexClass → dex_emit_tracker → DexClassesVector → EmitResult
  | [], det, outdex => .ok (det, outdex)
  | clazz :: rest, det, outdex =>
    match emit_class env det outdex clazz is_primary with
    | .error e => .error e
    | .ok (det1, outdex1) => emit_each env is_primary rest det1 outdex1

/-- The loop that records the primary dex classes in the main tracker. -/
def record_emitted (classes : List DexClass) (det : dex_emit_tracker) : dex_emit_tracker :=
  { det with emitted := classes.foldl (fun s clazz => insert clazz s) det.emitted }

/-- The branch `if (!normal_primary_dex)` of `run_interdex`. -/
def primary_phase (env : Env) (dexen : DexClassesVector) (interdexorder : List String)
    (unreferenced_classes : Finset DexClass) (det : dex_emit_tracker)
    (outdex : DexClassesVector) : EmitResult :=
  match dexen with
  | [] => .error Fatal.no_primary_dex
  | primary_dex :: _ =>
    let primary_det : dex_emit_tracker :=
      { dex_emit_tracker.empty with clookup := build_clookup primary_dex, la_size := 0 }
    match emit_primary_coldstart env unreferenced_classes interdexorder primary_det outdex with
    | .error e => .error e
    | .ok (primary_det1, outdex1) =>
      match emit_each env true primary_dex primary_det1 outdex1 with
      | .error e => .error e
      | .ok (primary_det2, outdex2) =>
        .ok (record_emitted primary_dex det, (flush_out_dex primary_det2 outdex2).2)

/-- The first loop over `interdexorder` on the main tracker. -/
def emit_secondary_coldstart (env : Env) (unreferenced_classes : Finset DexClass) :
    List String → dex_emit_tracker → DexClassesVector → EmitResult
  | [], det, outdex => .ok (det, outdex)
  | entry :: rest, det, outdex =>
    match det.clookup.find entry with
    | none =>
      if contains_substr entry.data "DexEndMarker".data then
        match flush_out_secondary env det outdex with
        | .error e => .error e
        | .ok (det1, outdex1) =>
          emit_secondary_coldstart env unreferenced_classes rest det1 outdex1
      else emit_secondary_coldstart env unreferenced_classes rest det outdex
    | some clazz =>
      if clazz ∈ unreferenced_classes then
        emit_secondary_coldstart env unreferenced_classes rest det outdex
      else
        match emit_class env det outdex clazz false with
        | .error e => .error e
        | .ok (det1, outdex1) =>
          emit_secondary_coldstart env unreferenced_classes rest det1 outdex1

/-- The second loop over `interdexorder`: the pruned cold-start classes. -/
def emit_unreferenced (env : Env) (unreferenced_classes : Finset DexClass) :
    List String → dex_emit_tracker → DexClassesVector → EmitResult
  | [], det, outdex => .ok (det, outdex)
  | entry :: rest, det, outdex =>
    match det.clookup.find entry with
    | none => emit_unreferenced env unreferenced_classes rest det outdex
    | some clazz =>
      if clazz ∈ unreferenced_classes then
        match emit_class env det outdex clazz false with
        | .error e => .error e
        | .ok (det1, outdex1) => emit_unreferenced env unreferenced_classes rest det1 outdex1
      else emit_unreferenced env unreferenced_classes rest det outdex

/-- The end of `run_interdex`, after the first loop over `interdexorder`: the
loop over the pruned cold-start classes, the loop over `scope` and the closing
flush. -/
def finish_secondary (env : Env) (scope : Scope) (interdexorder : List String)
    (unreferenced_classes : Finset DexClass) (det1 : dex_emit_tracker)
    (outdex1 : DexClassesVector) : Except Fatal DexClassesVector :=
  match emit_unreferenced env unreferenced_classes interdexorder det1 outdex1 with
  | .error e => .error e
  | .ok (det2, outdex2) =>
    match emit_each env false scope det2 outdex2 with
    | .error e => .error e
    | .ok (det3, outdex3) =>
      if det3.outs.length ≠ 0 then
        match flush_out_secondary env det3 outdex3 with
        | .error e => .error e
        | .ok (_, outdex4) => .ok outdex4
      else .ok outdex3

/-- The part of `run_interdex` from `det.la_size = 0` to the end: the three
emit loops on the main tracker and the closing flush. -/
def secondary_phase (env : Env) (scope : Scope) (interdexorder : List String)
    (unreferenced_classes : Finset DexClass) (det : dex_emit_tracker)
    (outdex : DexClassesVector) : Except Fatal DexClassesVector :=
  match emit_secondary_coldstart env unreferenced_classes interdexorder
      { det with la_size := 0 } outdex with
  | .error e => .error e
  | .ok (det1, outdex1) =>
    finish_secondary env scope interdexorder unreferenced_classes det1 outdex1

/-- The part of `run_interdex` after the pruner has returned
`unreferenced_classes`. -/
def run_interdex_from (env : Env) (dexen : DexClassesVector) (interdexorder : List String)
    (unreferenced_classes : Finset DexClass) (normal_primary_dex : Bool) :
    Except Fatal DexClassesVector :=
  let det : dex_emit_tracker :=
    { dex_emit_tracker.empty with clookup := build_clookup dexen.flatten }
  let scope := build_class_scope dexen
  if !normal_primary_dex then
    match primary_phase env dexen interdexorder unreferenced_classes det [] with
    | .error e => .error e
    | .ok (det0, outdex0) =>
      secondary_phase env scope interdexorder unreferenced_classes det0 outdex0
  else secondary_phase env scope interdexorder unreferenced_classes det []

/-- The function `run_interdex`; `interdexorder` is `cfg.get_coldstart_classes()`.
The result is `none` when the pruner does not finish within `fuel` iterations. -/
def run_interdex (env : Env) (fuel : Nat) (dexen : DexClassesVector)
    (interdexorder : List String) (allow_cutting_off_dex : Bool) (static_prune_classes : Bool)
    (normal_primary_dex : Bool) : Option (Except Fatal DexClassesVector) :=
  let _ := allow_cutting_off_dex
  match find_unrefenced_coldstart_classes env fuel (build_class_scope dexen)
      { dex_emit_tracker.empty with clookup := build_clookup dexen.flatten } interdexorder
      static_prune_classes with
  | none => none
  | some unreferenced_classes =>
    some (run_interdex_from env dexen interdexorder unreferenced_classes normal_primary_dex)


/-- Modelled from the spec: the environment after the class creator
(Creators.h) has made the classes `created`; `type_class` resolves a name in
the table as before and otherwise among the created classes. -/
def registered (env : Env) (created : List DexClass) : Env :=
  { env with classes := env.classes ++ created }

/-- The canary classes that the flushes of a completed `run_interdex` created:
canaries are on, container `dexnum` was written by `flush_out_secondary`, and
neither `det.clookup` nor `type_class` resolves the canary name of `dexnum`. -/
def created_canaries (env : Env) (dexen : DexClassesVector) (normal_primary_dex : Bool)
    (outdex : DexClassesVector) : List DexClass :=
  if env.emit_canaries then
    ((List.range outdex.length).filter (fun dexnum =>
      (normal_primary_dex || decide (dexnum ≠ 0)) &&
        ((build_clookup dexen.flatten).find (canary_name dexnum)).isNone &&
        (type_class env (canary_name dexnum)).isNone)).map
      (fun dexnum => create_canary (canary_name dexnum))
  else []

/-- The function `InterDexPass::run_pass`: the value stored back into `dexen`.
The second call of `run_interdex` runs after the first has created its canary
classes. -/
def run_pass (env : Env) (fuel : Nat) (dexen : DexClassesVector) (interdexorder : List String)
    (static_prune_classes : Bool) (normal_primary_dex : Bool) :
    Option (Except Fatal DexClassesVector) :=
  match run_interdex env fuel dexen interdexorder true static_prune_classes
      normal_primary_dex with
  | none => none
  | some (.error e) => some (.error e)
  | some (.ok first_attempt) =>
    if first_attempt.length > dexen.length then
      run_interdex (registered env (created_canaries env dexen normal_primary_dex first_attempt))
        fuel dexen interdexorder false static_prune_classes normal_primary_dex
    else some (.ok first_attempt)

/-! ## Vocabulary of the properties -/

deriving instance DecidableEq for Except

/-- The summed linear-alloc estimate of a list of classes. -/
def la_sum (env : Env) (l : List DexClass) : Int :=
  (l.map env.estimate_linear_alloc).sum

/-- The distinct method references gathered from a list of classes. -/
def mrefs_of (env : Env) (l : List DexClass) : Finset Nat :=
  (l.flatMap env.gather_methods).toFinset

/-- The distinct field references gathered from a list of classes. -/
def frefs_of (env : Env) (l : List DexClass) : Finset Nat :=
  (l.flatMap env.gather_fields).toFinset

/-- Every linear-alloc estimate lies between `0` and `2^30 - 1`; the sums that
`emit_class` forms then stay below `2^31` and the `int` additions are exact. -/
def estimates_bounded (env : Env) : Prop :=
  ∀ c : DexClass, 0 ≤ env.estimate_linear_alloc c ∧ env.estimate_linear_alloc c ≤ 1073741823

/-- The three capacity bounds, computed over the classes of a list. -/
def within_limits (env : Env) (l : List DexClass) : Prop :=
  la_sum env l ≤ kMaxLinearAlloc env ∧ (mrefs_of env l).card < kMaxMethodRefs ∧
    (frefs_of env l).card < kMaxFieldRefs

instance (env : Env) (l : List DexClass) : Decidable (within_limits env l) := by
  unfold within_limits
  infer_instance

/-- The overflow test of `emit_class` for class `c` against tracker `det`. -/
def overflows (env : Env) (det : dex_emit_tracker) (c : DexClass) : Prop :=
  int_add (gather_mrefs env c det).la_size (env.estimate_linear_alloc c)
      > kMaxLinearAlloc env ∨
    (gather_mrefs env c det).mrefs.card ≥ kMaxMethodRefs ∨
    (gather_mrefs env c det).frefs.card ≥ kMaxFieldRefs

instance (env : Env) (det : dex_emit_tracker) (c : DexClass) : Decidable (overflows env det c) := by
  unfold overflows
  infer_instance

/-- The tracker after the closing statements of `emit_class` have added `c`. -/
def pushed (env : Env) (c : DexClass) (det : dex_emit_tracker) : dex_emit_tracker :=
  { gather_mrefs env c det with
    la_size := int_add (gather_mrefs env c det).la_size (env.estimate_linear_alloc c)
    outs := (gather_mrefs env c det).outs ++ [c]
    emitted := insert c (gather_mrefs env c det).emitted }

/-- The tracker after `flush_out_dex` has reset it. -/
def cleared (det : dex_emit_tracker) : dex_emit_tracker :=
  { det with la_size := 0, mrefs := ∅, frefs := ∅, outs := [] }

/-- A property of every container of a vector, told its index (counted from `n`). -/
def IdxAll (P : Nat → DexClasses → Prop) : Nat → DexClassesVector → Prop
  | _, [] => True
  | n, x :: xs => P n x ∧ IdxAll P (n + 1) xs

/-- The form of a container written by `flush_out_secondary` at index `i`: a
non-empty body of classes that `is_canary` rejects, which is a single class or
within the limits when the estimates are bounded, followed by the canary of
index `i` when canaries are on. -/
def Sealed (env : Env) (i : Nat) (x : DexClasses) : Prop :=
  ∃ body : DexClasses, body ≠ [] ∧ (∀ b ∈ body, is_canary b = false) ∧
    (estimates_bounded env → body.length = 1 ∨ within_limits env body) ∧
    ((env.emit_canaries = false ∧ x = body) ∨
      (env.emit_canaries = true ∧ i ≤ kMaxDexNum ∧
        ∃ c : DexClass, c.name = canary_name i ∧ x = body ++ [c]))

/-- The invariant tying a tracker to the containers written so far. -/
structure Inv (env : Env) (det : dex_emit_tracker) (out : DexClassesVector) : Prop where
  lookup_wf : ∀ p ∈ det.clookup, p.2.name = p.1
  nodup : (out.flatten ++ det.outs).Nodup
  outs_ok : ∀ c ∈ det.outs, c ∈ det.emitted ∧ is_canary c = false
  out_ok : ∀ c ∈ out.flatten, (is_canary c = false ∧ c ∈ det.emitted) ∨
    (is_canary c = true ∧ ∃ i, i < out.length ∧ c.name = canary_name i)
  count : env.emit_canaries = true → out.length ≤ kMaxDexNum + 1
  la_eq : estimates_bounded env → det.la_size = la_sum env det.outs
  mrefs_eq : det.mrefs = mrefs_of env det.outs
  frefs_eq : det.frefs = frefs_of env det.outs
  fit : estimates_bounded env → det.outs.length = 1 ∨ within_limits env det.outs

/-- How a sequence of emits and flushes carries one state to a later one. -/
structure Adv (env : Env) (det : dex_emit_tracker) (out : DexClassesVector)
    (det' : dex_emit_tracker) (out' : DexClassesVector) : Prop where
  inv : Inv env det' out'
  lookup_eq : det'.clookup = det.clookup
  emitted_mono : det.emitted ⊆ det'.emitted
  ext : ∃ tail : DexClassesVector, out' = out ++ tail ∧ IdxAll (Sealed env) out.length tail ∧
    (∀ c ∈ det.outs, c ∈ det'.outs ∨ c ∈ tail.flatten) ∧
    (tail = [] → ∃ more, det'.outs = det.outs ++ more) ∧
    (∀ c ∈ det'.emitted, c ∈ det.emitted ∨ c ∈ det'.outs ∨ c ∈ tail.flatten)

/-- What holds of the primary tracker while it is filled from the classes `S`:
every class it has emitted is still in `outs`, `outs` is within the limits
(when the estimates are bounded) and
holds only classes of `S`, and its lookup resolves to classes of `S`. -/
structure PrimaryInv (env : Env) (S : List DexClass) (det : dex_emit_tracker) : Prop where
  emitted_outs : ∀ c ∈ det.emitted, c ∈ det.outs
  within : estimates_bounded env → within_limits env det.outs
  from_dex : ∀ c ∈ det.outs, c ∈ S
  lookup_dex : ∀ k c, det.clookup.find k = some c → c ∈ S

/-- The canary test the specification describes: the name begins with the
whole of `kCanaryPrefix`. -/
def has_canary_prefix (clazz : DexClass) : Bool :=
  kCanaryPrefix.data.isPrefixOf clazz.name.data

/-- A name of the form `Lsecondary/dexNN/Canary;` with two decimal digits. -/
def canary_pattern (name : String) : Prop :=
  ∃ d1 d2 : Char, name.data = "Lsecondary/dex".data ++ [d1, d2] ++ "/Canary;".data

/-- A container written by `flush_out_secondary`, without the canary that the
flush appended when canaries are on. -/
def without_flush_canary (env : Env) (x : DexClasses) : DexClasses :=
  if env.emit_canaries then x.dropLast else x

/-! ## Sample inputs -/

/-- A class without methods. -/
def plain_class (name : String) : DexClass :=
  { name := name, access := ACC_PUBLIC, super_class := get_object_type, methods := [] }

/-- An environment in which every class has the linear-alloc estimate `la`,
gathers nothing and can be renamed. -/
def sample_env (canaries : Bool) (la : Int) : Env where
  emit_canaries := canaries
  ginger_bread := false
  estimate_linear_alloc := fun _ => la
  gather_methods := fun _ => []
  gather_fields := fun _ => []
  gather_types := fun _ => []
  can_rename := fun _ => true
  classes := []
  iteration_order := id

/-- A class named by the character of code `256 + i`, to build long inputs. -/
def numbered_class (i : Nat) : DexClass :=
  plain_class (String.mk ['L', Char.ofNat (256 + i), ';'])

/-- Keep the first occurrence of each class of a list. -/
def keep_first : List DexClass → List DexClass
  | [] => []
  | c :: cs => c :: (keep_first cs).filter (fun d => decide (d ≠ c))

/-- The classes resolved from the cold-start names, in cold-start order. -/
def resolved_coldstart (m : CLookup) (interdexorder : List String) : List DexClass :=
  interdexorder.filterMap m.find

/-- The sequence the ordering property describes for the secondary containers:
the resolved cold-start classes outside `U`, then those inside `U`, then all
input classes in container order; of these, the first occurrence of each class
that the canary test `canary` rejects and that, when the primary is fixed, is
not in input container 0. -/
def secondary_sequence (canary : DexClass → Bool) (U : Finset DexClass)
    (dexen : DexClassesVector) (interdexorder : List String) (normal_primary_dex : Bool) :
    List DexClass :=
  let cold := resolved_coldstart (build_clookup dexen.flatten) interdexorder
  keep_first
    ((cold.filter (fun c => decide (c ∉ U)) ++ cold.filter (fun c => decide (c ∈ U)) ++
        dexen.flatten).filter
      (fun c => !canary c && (normal_primary_dex || decide (c ∉ dexen.headD []))))

/-- An environment for the pruner: `LP;` cannot be renamed, `LP;` gathers the
type `LQ;` and `LQ;` gathers the type `LR;`; the type table holds the four
classes `LP;`, `LQ;`, `LR;`, `LZ;`. The visiting order of the cold-start set
is the parameter. -/
def prune_env (iteration_order : List DexClass → List DexClass) : Env where
  emit_canaries := false
  ginger_bread := false
  estimate_linear_alloc := fun _ => 1
  gather_methods := fun _ => []
  gather_fields := fun _ => []
  gather_types := fun c =>
    if c.name = "LP;" then ["LQ;"] else if c.name = "LQ;" then ["LR;"] else []
  can_rename := fun c => decide (c.name ≠ "LP;")
  classes := [plain_class "LP;", plain_class "LQ;", plain_class "LR;", plain_class "LZ;"]
  iteration_order := iteration_order

/-- The classes that `emit_class` adds, in order, when the classes of a list
are offered to it one after the other and `E` is the emitted set at the start. -/
def fresh_of (E : Finset DexClass) : List DexClass → List DexClass
  | [] => []
  | c :: cs =>
    if c ∈ E ∨ is_canary c = true then fresh_of E cs else c :: fresh_of (insert c E) cs

/-- The classes the first loop over the cold-start list offers to `emit_class`. -/
def offered_first (m : CLookup) (U : Finset DexClass) (interdexorder : List String) :
    List DexClass :=
  (resolved_coldstart m interdexorder).filter (fun c => decide (c ∉ U))

/-- The classes the second loop over the cold-start list offers to `emit_class`. -/
def offered_second (m : CLookup) (U : Finset DexClass) (interdexorder : List String) :
    List DexClass :=
  (resolved_coldstart m interdexorder).filter (fun c => decide (c ∈ U))

/-- How a sequence of secondary emits and flushes places classes: the
containers written, without their flush canaries, followed by the classes in
progress, are the classes in progress before followed by `added`. -/
structure Placed (env : Env) (det : dex_emit_tracker) (out : DexClassesVector)
    (det' : dex_emit_tracker) (out' : DexClassesVector) (added : List DexClass) : Prop where
  ext : ∃ tail : DexClassesVector, out' = out ++ tail ∧
    (tail.map (without_flush_canary env)).flatten ++ det'.outs = det.outs ++ added
  emitted_eq : det'.emitted = det.emitted ∪ added.toFinset
  lookup_eq : det'.clookup = det.clookup

/-- A class with one method whose code refers to a method of each class of
`targets`. -/
def calling_class (name : String) (targets : List String) : DexClass :=
  { name := name
    access := ACC_PUBLIC
    super_class := get_object_type
    methods := [{ cls := name, code := some (targets.map DexInstruction.has_methods) }] }

/-- Seven classes `L0;` .. `L5;`, `L7;` for the pruner: `L0;` calls `L1;`,
`L1;` calls `L3;`, `L5;` calls `L7;`, `L7;` calls `L2;`. -/
def loop_classes : List DexClass :=
  [calling_class "L4;" [], calling_class "L5;" ["L7;"], calling_class "L3;" [],
    calling_class "L1;" ["L3;"], calling_class "L7;" ["L2;"], calling_class "L2;" [],
    calling_class "L0;" ["L1;"]]

/-- The cold-start list naming the seven classes of `loop_classes`. -/
def loop_order : List String := ["L7;", "L4;", "L3;", "L5;", "L2;", "L1;", "L0;"]

/-- An environment for `loop_classes`: every class can be renamed, `L2;`
gathers the types `L3;` and `L5;`, `L3;` gathers `L5;`, `L5;` gathers `L0;` and
`L4;`; the type table holds the seven classes and the cold-start set is visited
in insertion order. -/
def loop_env : Env where
  emit_canaries := false
  ginger_bread := false
  estimate_linear_alloc := fun _ => 1
  gather_methods := fun _ => []
  gather_fields := fun _ => []
  gather_types := fun c =>
    if c.name = "L2;" then ["L3;", "L5;"]
    else if c.name = "L3;" then ["L5;"]
    else if c.name = "L5;" then ["L0;", "L4;"]
    else []
  can_rename := fun _ => true
  classes := loop_classes
  iteration_order := id

/-- The cold-start set of `loop_classes` under `loop_order`, as the pruner
builds and visits it. -/
def loop_cold : List DexClass :=
  loop_env.iteration_order (coldstart_insertions
    { dex_emit_tracker.empty with clookup := build_clookup loop_classes } loop_order [])

/-- The scope the pruner on `loop_classes` works on after an odd iteration. -/
def loop_scope_a : Scope :=
  [calling_class "L7;" ["L2;"], calling_class "L3;" [], calling_class "L5;" ["L7;"],
    calling_class "L2;" [], calling_class "L1;" ["L3;"]]

/-- The scope the pruner on `loop_classes` works on after an even iteration. -/
def loop_scope_b : Scope :=
  [calling_class "L7;" ["L2;"], calling_class "L4;" [], calling_class "L3;" [],
    calling_class "L5;" ["L7;"], calling_class "L2;" [], calling_class "L0;" ["L1;"]]

/-- One iteration of the `while` loop of the pruner on `loop_classes`. -/
def loop_iteration (input_scope : Scope) (unreferenced_classes : Finset DexClass) :
    prune_state :=
  partition_coldstart loop_env (cold_cold_references loop_env loop_classes loop_cold input_scope)
    loop_cold
    { new_no_ref := 0, unreferenced_classes := unreferenced_classes, output_scope := [] }

/-- The sequence the ordering property describes for the container written by
the primary branch: the cold-start classes resolved in input container 0 and
outside `U`, in cold-start order, then the classes of input container 0; of
these, the first occurrence of each class that the canary test `canary`
rejects. -/
def primary_sequence (canary : DexClass → Bool) (U : Finset DexClass)
    (primary_dex : DexClasses) (interdexorder : List String) : List DexClass :=
  keep_first
    ((offered_first (build_clookup primary_dex) U interdexorder ++ primary_dex).filter
      (fun c => !canary c))

/-- An environment with canaries on in which every class fills a container by
itself; the type table holds the classes `LA;` and `LB;`. -/
def retry_env : Env where
  emit_canaries := true
  ginger_bread := false
  estimate_linear_alloc := fun _ => 11878400
  gather_methods := fun _ => []
  gather_fields := fun _ => []
  gather_types := fun _ => []
  can_rename := fun _ => true
  classes := [plain_class "LA;", plain_class "LB;"]
  iteration_order := id

end InterDex

/-! # The source-string shortening pass (src/opt/shorten-srcstrings/Shorten.cpp) -/

namespace Shorten

/-- A `DexString*`: strings are interned, so the handle is the text. -/
abbrev DexString := String

/-- What `strip_src_strings` reads and writes of a class: the class is visited
once, `source_file` is what `get_source_file` returns at the visit (`nullptr`
is `none`). -/
structure DexClass where
  name : String
  source_file : Option DexString
deriving DecidableEq, Repr

abbrev DexClasses := List DexClass

abbrev DexClassesVector := List DexClasses

/-- The collaborators of the pass that live outside Shorten.cpp. -/
structure Env where
  /-- the strings that `clazz->gather_strings` appends to its argument -/
  gather_strings : DexClass → List DexString
  /-- the content of a vector after `sort_unique(v, compare_dexstrings)` -/
  sort_unique : List DexString → List DexString

/-- The function `maybe_file_name`; `len` is the length of `str`. -/
def maybe_file_name (str : DexString) : Bool :=
  if str.data.length < 5 then false
  else str.data.drop (str.data.length - 5) == ".java".data

/-- The function `is_reasonable_string`; `len` is the length of `str`. -/
def is_reasonable_string (str : DexString) : Bool :=
  if str.data.length = 0 then false
  else !(str.data.any (fun ch => ['\n', '\t', ':', ','].contains ch))

/-- The `while` loop of `get_suitable_string` on the vector read from its back:
the argument is `dex_strings` in reverse, the result is the value returned
(`nullptr` is `none`) and what is left of the vector, in reverse. -/
def pop_suitable (set : Finset DexString) : List DexString → Option DexString × List DexString
  | [] => (none, [])
  | val :: rest =>
    let not_file_name := !maybe_file_name val
    let no_bad_char := is_reasonable_string val
    let not_seen_yet := decide (val ∉ set)
    if not_seen_yet && not_file_name && no_bad_char then (some val, rest)
    else pop_suitable set rest

/-- The function `get_suitable_string`: the value returned and the vector
`dex_strings` after the call. -/
def get_suitable_string (set : Finset DexString) (dex_strings : List DexString) :
    Option DexString × List DexString :=
  ((pop_suitable set dex_strings.reverse).1, (pop_suitable set dex_strings.reverse).2.reverse)

/-- The `unordered_map<DexString*, std::vector<DexString*>>`. -/
abbrev SrcStrings := List (DexString × List DexString)

/-- The statement `global_src_strings[src_string].push_back(shortened_src_string)`. -/
def push_back_at : SrcStrings → DexString → DexString → SrcStrings
  | [], src_string, shortened_src_string => [(src_string, [shortened_src_string])]
  | (key, values) :: rest, src_string, shortened_src_string =>
    if key = src_string then (key, values ++ [shortened_src_string]) :: rest
    else (key, values) :: push_back_at rest src_string shortened_src_string

/-- The variables of `strip_src_strings` while the classes of one container are
visited; `classes` collects the classes visited, with the source file set by
`set_source_file`. The counters `shortened` and `string_savings` feed the
trace only and are left out. -/
structure dex_state where
  src_to_shortened : List (DexString × DexString)
  current_dex_strings : List DexString
  global_src_strings : SrcStrings
  shortened_used : Finset DexString
  classes : DexClasses

/-- The second loop over the classes of a container. -/
def shorten_classes : DexClasses → dex_state → dex_state
  | [], st => st
  | clazz :: rest, st =>
    match clazz.source_file with
    | none => shorten_classes rest { st with classes := st.classes ++ [clazz] }
    | some src_string =>
      match st.src_to_shortened.lookup src_string with
      | none =>
        let found := get_suitable_string st.shortened_used st.current_dex_strings
        let shortened_src_string :=
          match found.1 with
          | none => src_string
          | some val => val
        shorten_classes rest
          { src_to_shortened := (src_string, shortened_src_string) :: st.src_to_shortened
            current_dex_strings := found.2
            global_src_strings :=
              push_back_at st.global_src_strings src_string shortened_src_string
            shortened_used := insert shortened_src_string st.shortened_used
            classes := st.classes ++ [{ clazz with source_file := some shortened_src_string }] }
      | some shortened_src_string =>
        shorten_classes rest
          { st with
            classes := st.classes ++ [{ clazz with source_file := some shortened_src_string }] }

/-- The variables of `strip_src_strings` between two containers; `dexen`
collects the containers visited. -/
structure strip_state where
  global_src_strings : SrcStrings
  shortened_used : Finset DexString
  dexen : DexClassesVector

/-- The loop `for (auto& classes : dexen)`. -/
def strip_dexen (env : Env) : DexClassesVector → strip_state → strip_state
  | [], st => st
  | classes :: rest, st =>
    let visited := shorten_classes classes
      { src_to_shortened := []
        current_dex_strings := env.sort_unique (classes.flatMap env.gather_strings)
        global_src_strings := st.global_src_strings
        shortened_used := st.shortened_used
        classes := [] }
    strip_dexen env rest
      { global_src_strings := visited.global_src_strings
        shortened_used := visited.shortened_used
        dexen := st.dexen ++ [visited.classes] }

/-- The function `strip_src_strings` up to the writing of the mapping file:
`dexen` after the call and `global_src_strings`, from which the file lists,
for every original source string, the strings of its vector. -/
def strip_src_strings (env : Env) (dexen : DexClassesVector) : strip_state :=
  strip_dexen env dexen { global_src_strings := [], shortened_used := ∅, dexen := [] }

/-! ## Vocabulary of the properties -/

/-- The mapping records `shortened` as a replacement of the original source
string `src_string`. -/
def assigned (m : SrcStrings) (src_string shortened : DexString) : Prop :=
  ∃ values, (src_string, values) ∈ m ∧ shortened ∈ values

/-- The string `str` is the source file of a class of the input. -/
def is_source_file (dexen : DexClassesVector) (str : DexString) : Prop :=
  ∃ classes ∈ dexen, ∃ clazz ∈ classes, clazz.source_file = some str

/-- What holds of the mapping `m` and the set `used` throughout a run, `P`
telling the source strings of the input: a replacement is in `used`; it is the
original itself or a string `get_suitable_string` accepts; a replacement
shared by two originals is one of them; every original satisfies `P`. -/
structure StripInv (P : DexString → Prop) (m : SrcStrings) (used : Finset DexString) :
    Prop where
  in_used : ∀ k r, assigned m k r → r ∈ used
  own_or_suitable : ∀ k r, assigned m k r →
    r = k ∨ (maybe_file_name r = false ∧ is_reasonable_string r = true)
  shared : ∀ k1 k2 r, assigned m k1 r → assigned m k2 r → k1 = k2 ∨ r = k1 ∨ r = k2
  keys : ∀ k r, assigned m k r → P k

/-- An environment in which a class gathers its source-file string only and
`sort_unique` sorts by the code points of the characters. -/
def sample_env : Env where
  gather_strings := fun clazz => clazz.source_file.toList
  sort_unique := fun v =>
    ((v.map String.data).insertionSort (fun a b => decide (a ≤ b))).dedup.map String.mk

end Shorten

namespace InterDex

/-! ## Canary names and the class lookup -/

theorem fmt02d_digits :
    ∀ n, n < 100 → fmt02d n = [Nat.digitChar (n / 10), Nat.digitChar (n % 10)] := by
  set_option maxRecDepth 4000 in decide

theorem digitChar_injective_aux :
    ∀ a, a < 10 → ∀ b, b < 10 → Nat.digitChar a = Nat.digitChar b → a = b := by
  decide

theorem canary_name_injective {n m : Nat} (hn : n ≤ kMaxDexNum) (hm : m ≤ kMaxDexNum)
    (h : canary_name n = canary_name m) : n = m := by
  unfold kMaxDexNum at hn hm
  unfold canary_name at h
  have h1 := congrArg String.data h
  simp only [List.append_assoc] at h1
  have h2 := List.append_cancel_right (List.append_cancel_left h1)
  rw [fmt02d_digits n (by omega), fmt02d_digits m (by omega)] at h2
  simp only [List.cons.injEq, and_true] at h2
  have ha := digitChar_injective_aux _ (by omega) _ (by omega) h2.1
  have hb := digitChar_injective_aux _ (by omega) _ (by omega) h2.2
  omega

theorem is_canary_of_name {c : DexClass} {n : Nat} (h : c.name = canary_name n) :
    is_canary c = true := by
  unfold is_canary
  rw [h]
  rfl

theorem build_clookup_aux (classes : List DexClass) (m : CLookup) (S : DexClass → Prop)
    (hm : ∀ p ∈ m, p.2.name = p.1 ∧ S p.2) (hS : ∀ c ∈ classes, S c) :
    ∀ p ∈ classes.foldl (fun m clazz => (clazz.name, clazz) :: m) m,
      p.2.name = p.1 ∧ S p.2 := by
  induction classes generalizing m with
  | nil => simpa using hm
  | cons c cs ih =>
    simp only [List.foldl_cons]
    apply ih
    · intro p hp
      rcases List.mem_cons.1 hp with h | h
      · subst h
        exact ⟨rfl, hS c (List.mem_cons_self _ _)⟩
      · exact hm p h
    · intro d hd
      exact hS d (List.mem_cons_of_mem _ hd)

theorem build_clookup_wf (classes : List DexClass) :
    ∀ p ∈ build_clookup classes, p.2.name = p.1 ∧ p.2 ∈ classes :=
  build_clookup_aux classes [] (fun c => c ∈ classes) (by simp) (fun _ h => h)

theorem lookup_mem {m : CLookup} {k : String} {c : DexClass} (h : m.find k = some c) :
    (k, c) ∈ m := by
  unfold CLookup.find at h
  induction m with
  | nil => simp at h
  | cons p ps ih =>
    obtain ⟨k', c'⟩ := p
    by_cases hk : k = k'
    · subst hk
      simp [List.lookup] at h
      subst h
      simp
    · have : (k == k') = false := by simpa using hk
      simp [List.lookup, this] at h
      exact List.mem_cons_of_mem _ (ih h)

theorem build_clookup_find {classes : List DexClass} {k : String} {c : DexClass}
    (h : (build_clookup classes).find k = some c) : c.name = k ∧ c ∈ classes :=
  build_clookup_wf classes (k, c) (lookup_mem h)

theorem type_class_name {env : Env} {t : String} {c : DexClass}
    (h : type_class env t = some c) : c.name = t := by
  unfold type_class at h
  have := List.find?_some h
  simpa using this

theorem find_canary_name (env : Env) (det : dex_emit_tracker) (n : Nat)
    (hwf : ∀ p ∈ det.clookup, p.2.name = p.1) :
    (find_canary env det n).name = canary_name n := by
  unfold find_canary
  cases h : det.clookup.find (canary_name n) with
  | some c => exact hwf _ (lookup_mem h)
  | none =>
    cases h2 : type_class env (canary_name n) with
    | some c => exact type_class_name h2
    | none => rfl

/-! ## Indexed properties of container vectors -/

theorem IdxAll_append (P : Nat → DexClasses → Prop) (n : Nat) (a b : DexClassesVector) :
    IdxAll P n (a ++ b) ↔ IdxAll P n a ∧ IdxAll P (n + a.length) b := by
  induction a generalizing n with
  | nil => simp [IdxAll]
  | cons x xs ih =>
    have e : n + 1 + xs.length = n + (xs.length + 1) := by omega
    have h := ih (n + 1)
    rw [e] at h
    show P n x ∧ IdxAll P (n + 1) (xs ++ b) ↔ _
    rw [h]
    simp only [IdxAll, List.length_cons, and_assoc]

theorem IdxAll_get (P : Nat → DexClasses → Prop) (n : Nat) (a : DexClassesVector)
    (h : IdxAll P n a) (i : Nat) (hi : i < a.length) : P (n + i) (a.get ⟨i, hi⟩) := by
  induction a generalizing n i with
  | nil => simp at hi
  | cons x xs ih =>
    cases i with
    | zero => simpa using h.1
    | succ j =>
      have := ih (n + 1) h.2 j (by simpa using hi)
      have e : n + 1 + j = n + (j + 1) := by omega
      rw [e] at this
      simpa using this

/-! ## The primitive operations, case by case -/

theorem nodup_snoc {α : Type} (l : List α) (a : α) : (l ++ [a]).Nodup ↔ a ∉ l ∧ l.Nodup := by
  rw [List.nodup_append_comm]
  simp

theorem emit_class_eq (env : Env) (det : dex_emit_tracker) (out : DexClassesVector)
    (c : DexClass) (p : Bool) :
    emit_class env det out c p =
      if c ∈ det.emitted ∨ is_canary c = true then .ok (det, out)
      else if overflows env det c then
        if p then .error Fatal.early_primary_flush
        else
          match flush_out_secondary env (gather_mrefs env c det) out with
          | .error e => .error e
          | .ok (det2, out2) => .ok (pushed env c det2, out2)
      else .ok (pushed env c det, out) := by
  unfold emit_class overflows
  by_cases h1 : c ∈ det.emitted
  · simp [h1]
  · by_cases h2 : is_canary c = true
    · simp [h1, h2]
    · simp only [h1, h2, if_false, false_or]
      rfl

theorem flush_out_secondary_cases {env : Env} {d d' : dex_emit_tracker}
    {out out' : DexClassesVector} (h : flush_out_secondary env d out = .ok (d', out')) :
    (d.outs = [] ∧ d' = d ∧ out' = out) ∨
    (d.outs ≠ [] ∧ d' = cleared d ∧
      ((env.emit_canaries = false ∧ out' = out ++ [d.outs]) ∨
       (env.emit_canaries = true ∧ out.length ≤ kMaxDexNum ∧
         out' = out ++ [d.outs ++ [find_canary env d out.length]]))) := by
  unfold flush_out_secondary at h
  by_cases h0 : d.outs.length = 0
  · left
    simp only [h0, if_true, Except.ok.injEq, Prod.mk.injEq] at h
    exact ⟨List.length_eq_zero.1 h0, h.1.symm, h.2.symm⟩
  · right
    have hne : d.outs ≠ [] := fun e => h0 (by simp [e])
    simp only [h0, if_false] at h
    by_cases hc : env.emit_canaries = true
    · simp only [hc, if_true] at h
      by_cases hn : out.length ≤ kMaxDexNum
      · simp only [hn, if_true, Except.ok.injEq, flush_out_dex, Prod.mk.injEq] at h
        exact ⟨hne, h.1.symm, Or.inr ⟨hc, hn, h.2.symm⟩⟩
      · simp [hn] at h
    · have hc' : env.emit_canaries = false := by simpa using hc
      simp only [hc', Bool.false_eq_true, if_false, Except.ok.injEq, flush_out_dex,
        Prod.mk.injEq] at h
      exact ⟨hne, h.1.symm, Or.inl ⟨hc', h.2.symm⟩⟩

theorem pushed_gather (env : Env) (c : DexClass) (det : dex_emit_tracker) :
    pushed env c (gather_mrefs env c det) = pushed env c det := by
  simp [pushed, gather_mrefs, Finset.union_assoc]

theorem la_sum_snoc (env : Env) (l : List DexClass) (c : DexClass) :
    la_sum env (l ++ [c]) = la_sum env l + env.estimate_linear_alloc c := by
  simp [la_sum]

theorem mrefs_of_snoc (env : Env) (l : List DexClass) (c : DexClass) :
    mrefs_of env (l ++ [c]) = mrefs_of env l ∪ (env.gather_methods c).toFinset := by
  simp [mrefs_of, List.toFinset_append]

theorem frefs_of_snoc (env : Env) (l : List DexClass) (c : DexClass) :
    frefs_of env (l ++ [c]) = frefs_of env l ∪ (env.gather_fields c).toFinset := by
  simp [frefs_of, List.toFinset_append]

theorem within_limits_nil (env : Env) : within_limits env [] := by
  refine ⟨?_, ?_, ?_⟩
  · unfold la_sum kMaxLinearAlloc
    split <;> simp
  · simp [mrefs_of, kMaxMethodRefs]
  · simp [frefs_of, kMaxFieldRefs]

theorem int_wrap_of_range {x : Int} (h1 : -2147483648 ≤ x) (h2 : x ≤ 2147483647) :
    int_wrap x = x := by
  unfold int_wrap
  omega

theorem kMaxLinearAlloc_le (env : Env) : kMaxLinearAlloc env ≤ 11878400 := by
  unfold kMaxLinearAlloc
  split <;> decide

theorem la_sum_nonneg {env : Env} (hb : estimates_bounded env) (l : List DexClass) :
    0 ≤ la_sum env l := by
  induction l with
  | nil => simp [la_sum]
  | cons c rest ih =>
    have h1 := (hb c).1
    have e : la_sum env (c :: rest) = env.estimate_linear_alloc c + la_sum env rest := by
      simp [la_sum]
    rw [e]
    omega

theorem la_size_range {env : Env} {det : dex_emit_tracker} {out : DexClassesVector}
    (hb : estimates_bounded env) (h : Inv env det out) :
    0 ≤ det.la_size ∧ det.la_size ≤ 1073741823 := by
  rw [h.la_eq hb]
  refine ⟨la_sum_nonneg hb _, ?_⟩
  rcases h.fit hb with h1 | h1
  · obtain ⟨a, ha⟩ := List.length_eq_one.1 h1
    rw [ha]
    have := (hb a).2
    simpa [la_sum] using this
  · have h2 := h1.1
    have h3 := kMaxLinearAlloc_le env
    omega

/-- With bounded estimates the `int` addition of `emit_class` is exact. -/
theorem int_add_exact {env : Env} {det : dex_emit_tracker} {out : DexClassesVector}
    (hb : estimates_bounded env) (h : Inv env det out) (c : DexClass) :
    int_add det.la_size (env.estimate_linear_alloc c)
      = det.la_size + env.estimate_linear_alloc c := by
  have h1 := la_size_range hb h
  have h2 := hb c
  unfold int_add
  apply int_wrap_of_range <;> omega


/-! ## Steps preserve the invariant -/

theorem Adv.refl {env : Env} {det : dex_emit_tracker} {out : DexClassesVector}
    (h : Inv env det out) : Adv env det out det out :=
  { inv := h
    lookup_eq := rfl
    emitted_mono := Finset.Subset.refl _
    ext := ⟨[], by simp, trivial, fun c hc => Or.inl hc, fun _ => ⟨[], by simp⟩,
      fun c hc => Or.inl hc⟩ }

theorem Adv.trans {env : Env} {d1 d2 d3 : dex_emit_tracker} {o1 o2 o3 : DexClassesVector}
    (h12 : Adv env d1 o1 d2 o2) (h23 : Adv env d2 o2 d3 o3) : Adv env d1 o1 d3 o3 := by
  obtain ⟨t1, e1, s1, c1, m1, n1⟩ := h12.ext
  obtain ⟨t2, e2, s2, c2, m2, n2⟩ := h23.ext
  refine
    { inv := h23.inv
      lookup_eq := h23.lookup_eq.trans h12.lookup_eq
      emitted_mono := h12.emitted_mono.trans h23.emitted_mono
      ext := ⟨t1 ++ t2, ?_, ?_, ?_, ?_, ?_⟩ }
  · rw [e2, e1, List.append_assoc]
  · rw [IdxAll_append]
    refine ⟨s1, ?_⟩
    have : o2.length = o1.length + t1.length := by rw [e1, List.length_append]
    rw [← this]
    exact s2
  · intro c hc
    rcases c1 c hc with h | h
    · rcases c2 c h with h' | h'
      · exact Or.inl h'
      · right
        rw [List.flatten_append]
        exact List.mem_append_right _ h'
    · right
      rw [List.flatten_append]
      exact List.mem_append_left _ h
  · intro ht
    have ht1 : t1 = [] := (List.append_eq_nil.1 ht).1
    have ht2 : t2 = [] := (List.append_eq_nil.1 ht).2
    obtain ⟨a, ha⟩ := m1 ht1
    obtain ⟨b, hb⟩ := m2 ht2
    exact ⟨a ++ b, by rw [hb, ha, List.append_assoc]⟩
  · intro c hc
    rw [List.flatten_append]
    rcases n2 c hc with h | h | h
    · rcases n1 c h with h' | h' | h'
      · exact Or.inl h'
      · rcases c2 c h' with h'' | h''
        · exact Or.inr (Or.inl h'')
        · exact Or.inr (Or.inr (List.mem_append_right _ h''))
      · exact Or.inr (Or.inr (List.mem_append_left _ h'))
    · exact Or.inr (Or.inl h)
    · exact Or.inr (Or.inr (List.mem_append_right _ h))

theorem push_adv {env : Env} {det : dex_emit_tracker} {out : DexClassesVector} {c : DexClass}
    (h : Inv env det out) (hc : c ∉ det.emitted) (hcan : is_canary c = false)
    (hfit : estimates_bounded env →
      (det.outs ++ [c]).length = 1 ∨ within_limits env (det.outs ++ [c])) :
    Adv env det out (pushed env c det) out := by
  have hfresh : c ∉ out.flatten ++ det.outs := by
    intro hm
    rcases List.mem_append.1 hm with h1 | h1
    · rcases h.out_ok c h1 with h2 | h2
      · exact hc h2.2
      · rw [hcan] at h2
        exact Bool.false_ne_true h2.1
    · exact hc (h.outs_ok c h1).1
  refine
    { inv :=
        { lookup_wf := h.lookup_wf
          nodup := ?_
          outs_ok := ?_
          out_ok := ?_
          count := h.count
          la_eq := ?_
          mrefs_eq := ?_
          frefs_eq := ?_
          fit := hfit }
      lookup_eq := rfl
      emitted_mono := ?_
      ext := ⟨[], by simp, trivial, ?_, fun _ => ⟨[c], rfl⟩, ?_⟩ }
  · show (out.flatten ++ (det.outs ++ [c])).Nodup
    rw [← List.append_assoc, nodup_snoc]
    exact ⟨hfresh, h.nodup⟩
  · intro d hd
    have hd' : d ∈ det.outs ++ [c] := hd
    rcases List.mem_append.1 hd' with h1 | h1
    · exact ⟨Finset.mem_insert_of_mem (h.outs_ok d h1).1, (h.outs_ok d h1).2⟩
    · have : d = c := by simpa using h1
      subst this
      exact ⟨Finset.mem_insert_self _ _, hcan⟩
  · intro d hd
    rcases h.out_ok d hd with h1 | h1
    · exact Or.inl ⟨h1.1, Finset.mem_insert_of_mem h1.2⟩
    · exact Or.inr h1
  · intro hb
    show int_add det.la_size (env.estimate_linear_alloc c) = la_sum env (det.outs ++ [c])
    rw [int_add_exact hb h, la_sum_snoc, h.la_eq hb]
  · show det.mrefs ∪ (env.gather_methods c).toFinset = mrefs_of env (det.outs ++ [c])
    rw [mrefs_of_snoc, h.mrefs_eq]
  · show det.frefs ∪ (env.gather_fields c).toFinset = frefs_of env (det.outs ++ [c])
    rw [frefs_of_snoc, h.frefs_eq]
  · exact Finset.subset_insert _ _
  · intro d hd
    left
    show d ∈ det.outs ++ [c]
    exact List.mem_append_left _ hd
  · intro d hd
    have hd' : d ∈ insert c det.emitted := hd
    rcases Finset.mem_insert.1 hd' with h1 | h1
    · right
      left
      show d ∈ det.outs ++ [c]
      rw [h1]
      simp
    · exact Or.inl h1

theorem flush_adv {env : Env} {det d d' : dex_emit_tracker} {out out' : DexClassesVector}
    (h : Inv env det out) (ho : d.outs = det.outs) (he : d.emitted = det.emitted)
    (hl : d.clookup = det.clookup) (hne : d.outs ≠ [])
    (hf : flush_out_secondary env d out = .ok (d', out')) :
    Adv env det out d' out' ∧ d' = cleared d := by
  rcases flush_out_secondary_cases hf with ⟨h0, _, _⟩ | ⟨_, hd', hout⟩
  · exact absurd h0 hne
  · refine ⟨?_, hd'⟩
    have hbody : det.outs ≠ [] := ho ▸ hne
    have hbc : ∀ b ∈ det.outs, is_canary b = false := fun b hb => (h.outs_ok b hb).2
    have hwf : ∀ p ∈ d.clookup, p.2.name = p.1 := hl ▸ h.lookup_wf
    rcases hout with ⟨hoff, hout⟩ | ⟨hon, hn, hout⟩
    · subst hd' hout
      rw [ho]
      refine
        { inv :=
            { lookup_wf := hwf
              nodup := ?_
              outs_ok := fun c hc => by cases hc
              out_ok := ?_
              count := fun hc => by rw [hoff] at hc; cases hc
              la_eq := fun _ => rfl
              mrefs_eq := rfl
              frefs_eq := rfl
              fit := fun _ => Or.inr (within_limits_nil env) }
          lookup_eq := hl
          emitted_mono := by show det.emitted ⊆ d.emitted; rw [he]
          ext := ⟨[det.outs], rfl, ⟨⟨det.outs, hbody, hbc, h.fit, Or.inl ⟨hoff, rfl⟩⟩, trivial⟩,
            fun c hc => Or.inr (by simpa using hc), (fun e => by cases e),
            fun c hc => Or.inl (by have hc' : c ∈ d.emitted := hc; rw [he] at hc'; exact hc')⟩ }
      · show ((out ++ [det.outs]).flatten ++ []).Nodup
        simpa using h.nodup
      · intro c hc
        have hc' : c ∈ out.flatten ++ det.outs := by simpa using hc
        show (is_canary c = false ∧ c ∈ d.emitted) ∨ _
        rw [he]
        rcases List.mem_append.1 hc' with h1 | h1
        · rcases h.out_ok c h1 with h2 | ⟨h2, i, hi, hn⟩
          · exact Or.inl h2
          · exact Or.inr ⟨h2, i, by rw [List.length_append]; omega, hn⟩
        · exact Or.inl ⟨(h.outs_ok c h1).2, (h.outs_ok c h1).1⟩
    · have hname := find_canary_name env d out.length hwf
      have hcan := is_canary_of_name hname
      have hnew : find_canary env d out.length ∉ out.flatten ++ det.outs := by
        intro hm
        rcases List.mem_append.1 hm with h1 | h1
        · rcases h.out_ok _ h1 with h2 | ⟨_, i, hi, hni⟩
          · rw [hcan] at h2
            exact Bool.false_ne_true h2.1.symm
          · have := canary_name_injective hn (by omega) (hname.symm.trans hni)
            omega
        · have := hbc _ h1
          rw [hcan] at this
          exact Bool.false_ne_true this.symm
      subst hd' hout
      rw [ho]
      refine
        { inv :=
            { lookup_wf := hwf
              nodup := ?_
              outs_ok := fun c hc => by cases hc
              out_ok := ?_
              count := fun _ => by rw [List.length_append]; simpa using hn
              la_eq := fun _ => rfl
              mrefs_eq := rfl
              frefs_eq := rfl
              fit := fun _ => Or.inr (within_limits_nil env) }
          lookup_eq := hl
          emitted_mono := by show det.emitted ⊆ d.emitted; rw [he]
          ext := ⟨[det.outs ++ [find_canary env d out.length]], rfl,
            ⟨⟨det.outs, hbody, hbc, h.fit, Or.inr ⟨hon, hn, _, hname, rfl⟩⟩, trivial⟩,
            fun c hc => Or.inr (by simp [hc]), (fun e => by cases e),
            fun c hc => Or.inl (by have hc' : c ∈ d.emitted := hc; rw [he] at hc'; exact hc')⟩ }
      · show ((out ++ [det.outs ++ [find_canary env d out.length]]).flatten ++ []).Nodup
        simp only [List.flatten_append, List.flatten_singleton, List.append_nil]
        rw [← List.append_assoc, nodup_snoc]
        exact ⟨hnew, h.nodup⟩
      · intro c hc
        have hc' : c ∈ (out.flatten ++ det.outs) ++ [find_canary env d out.length] := by
          simpa using hc
        show (is_canary c = false ∧ c ∈ d.emitted) ∨ _
        rw [he]
        rcases List.mem_append.1 hc' with h0 | h0
        · rcases List.mem_append.1 h0 with h1 | h1
          · rcases h.out_ok c h1 with h2 | ⟨h2, i, hi, hni⟩
            · exact Or.inl h2
            · exact Or.inr ⟨h2, i, by rw [List.length_append]; omega, hni⟩
          · exact Or.inl ⟨(h.outs_ok c h1).2, (h.outs_ok c h1).1⟩
        · have : c = find_canary env d out.length := by simpa using h0
          subst this
          exact Or.inr ⟨hcan, out.length, by rw [List.length_append]; simp, hname⟩

theorem within_limits_of_not_overflows {env : Env} {det : dex_emit_tracker}
    {out : DexClassesVector} {c : DexClass} (hb : estimates_bounded env) (h : Inv env det out)
    (hno : ¬ overflows env det c) : within_limits env (det.outs ++ [c]) := by
  unfold overflows at hno
  simp only [not_or, not_lt, ge_iff_le, not_le] at hno
  obtain ⟨h1, h2, h3⟩ := hno
  refine ⟨?_, ?_, ?_⟩
  · have h1' : int_add det.la_size (env.estimate_linear_alloc c) ≤ kMaxLinearAlloc env := h1
    rw [int_add_exact hb h] at h1'
    rw [la_sum_snoc, ← h.la_eq hb]
    exact h1'
  · rw [mrefs_of_snoc, ← h.mrefs_eq]
    exact h2
  · rw [frefs_of_snoc, ← h.frefs_eq]
    exact h3

theorem emit_adv {env : Env} {det det' : dex_emit_tracker} {out out' : DexClassesVector}
    {c : DexClass} {p : Bool} (h : Inv env det out)
    (he : emit_class env det out c p = .ok (det', out')) :
    Adv env det out det' out' ∧ (c ∈ det'.emitted ∨ is_canary c = true) ∧
      (∀ d ∈ det'.emitted, d ∈ det.emitted ∨ (d = c ∧ is_canary c = false)) := by
  rw [emit_class_eq] at he
  by_cases hskip : c ∈ det.emitted ∨ is_canary c = true
  · simp only [hskip, if_true, Except.ok.injEq, Prod.mk.injEq] at he
    obtain ⟨e1, e2⟩ := he
    subst e1 e2
    exact ⟨Adv.refl h, hskip, fun d hd => Or.inl hd⟩
  · simp only [hskip, if_false] at he
    have hc : c ∉ det.emitted := fun hm => hskip (Or.inl hm)
    have hcan : is_canary c = false := by
      cases hb : is_canary c
      · rfl
      · exact absurd (Or.inr hb) hskip
    have key : ∀ (d0 : dex_emit_tracker) (o0 : DexClassesVector), Adv env det out d0 o0 →
        d0.emitted = det.emitted → (estimates_bounded env → ((d0.outs ++ [c]).length = 1 ∨
          within_limits env (d0.outs ++ [c]))) →
        Adv env det out (pushed env c d0) o0 ∧
          (c ∈ (pushed env c d0).emitted ∨ is_canary c = true) ∧
          (∀ d ∈ (pushed env c d0).emitted, d ∈ det.emitted ∨ (d = c ∧ is_canary c = false)) := by
      intro d0 o0 hadv hem hfit
      refine ⟨hadv.trans (push_adv hadv.inv (hem ▸ hc) hcan hfit), ?_, ?_⟩
      · exact Or.inl (Finset.mem_insert_self _ _)
      · intro d hd
        have hd' : d ∈ insert c d0.emitted := hd
        rcases Finset.mem_insert.1 hd' with h1 | h1
        · exact Or.inr ⟨h1, hcan⟩
        · exact Or.inl (hem ▸ h1)
    by_cases hov : overflows env det c
    · simp only [hov, if_true] at he
      cases p with
      | true => simp at he
      | false =>
        simp only [Bool.false_eq_true, if_false] at he
        cases hfl : flush_out_secondary env (gather_mrefs env c det) out with
        | error e => rw [hfl] at he; cases he
        | ok r =>
          obtain ⟨d2, o2⟩ := r
          rw [hfl] at he
          simp only [Except.ok.injEq, Prod.mk.injEq] at he
          obtain ⟨e1, e2⟩ := he
          subst e1 e2
          by_cases hempty : det.outs = []
          · rcases flush_out_secondary_cases hfl with ⟨_, hd, ho⟩ | ⟨hne, _, _⟩
            · subst hd ho
              rw [pushed_gather]
              exact key det _ (Adv.refl h) rfl (fun _ => Or.inl (by rw [hempty]; rfl))
            · exact absurd hempty hne
          · have hfa := flush_adv h (d := gather_mrefs env c det) rfl rfl rfl hempty hfl
            have hd2 : d2 = cleared (gather_mrefs env c det) := hfa.2
            exact key d2 o2 hfa.1 (by rw [hd2]; rfl) (fun _ => Or.inl (by rw [hd2]; rfl))
    · simp only [hov, if_false, Except.ok.injEq, Prod.mk.injEq] at he
      obtain ⟨e1, e2⟩ := he
      subst e1 e2
      exact key det out (Adv.refl h) rfl
        (fun hb => Or.inr (within_limits_of_not_overflows hb h hov))

/-- With `is_primary = true` a successful `emit_class` writes no container and
keeps the tracker within the limits. -/
theorem emit_primary_cases {env : Env} {det det' : dex_emit_tracker}
    {out out' : DexClassesVector} {c : DexClass}
    (he : emit_class env det out c true = .ok (det', out')) :
    out' = out ∧ ((det' = det ∧ (c ∈ det.emitted ∨ is_canary c = true)) ∨
      (det' = pushed env c det ∧ c ∉ det.emitted ∧ is_canary c = false ∧
        ¬ overflows env det c)) := by
  rw [emit_class_eq] at he
  by_cases hskip : c ∈ det.emitted ∨ is_canary c = true
  · simp only [hskip, if_true, Except.ok.injEq, Prod.mk.injEq] at he
    exact ⟨he.2.symm, Or.inl ⟨he.1.symm, hskip⟩⟩
  · simp only [hskip, if_false] at he
    by_cases hov : overflows env det c
    · simp [hov] at he
    · simp only [hov, if_false, Except.ok.injEq, Prod.mk.injEq] at he
      refine ⟨he.2.symm, Or.inr ⟨he.1.symm, fun hm => hskip (Or.inl hm), ?_, hov⟩⟩
      cases hb : is_canary c
      · rfl
      · exact absurd (Or.inr hb) hskip

/-! ## The loops of `run_interdex` -/

theorem emit_each_adv {env : Env} {p : Bool} (l : List DexClass) :
    ∀ {det det' : dex_emit_tracker} {out out' : DexClassesVector}, Inv env det out →
      emit_each env p l det out = .ok (det', out') →
      Adv env det out det' out' ∧ (∀ c ∈ l, c ∈ det'.emitted ∨ is_canary c = true) ∧
        (∀ d ∈ det'.emitted, d ∈ det.emitted ∨ (d ∈ l ∧ is_canary d = false)) := by
  induction l with
  | nil =>
    intro det det' out out' h he
    simp only [emit_each, Except.ok.injEq, Prod.mk.injEq] at he
    obtain ⟨e1, e2⟩ := he
    subst e1 e2
    exact ⟨Adv.refl h, fun c hc => absurd hc (List.not_mem_nil c), fun d hd => Or.inl hd⟩
  | cons c cs ih =>
    intro det det' out out' h he
    simp only [emit_each] at he
    cases h1 : emit_class env det out c p with
    | error e => rw [h1] at he; cases he
    | ok r =>
      obtain ⟨d1, o1⟩ := r
      rw [h1] at he
      obtain ⟨a1, b1, c1⟩ := emit_adv h h1
      obtain ⟨a2, b2, c2⟩ := ih a1.inv he
      refine ⟨a1.trans a2, ?_, ?_⟩
      · intro x hx
        rcases List.mem_cons.1 hx with hx | hx
        · subst hx
          rcases b1 with hb | hb
          · exact Or.inl (a2.emitted_mono hb)
          · exact Or.inr hb
        · exact b2 x hx
      · intro d hd
        rcases c2 d hd with h2 | h2
        · rcases c1 d h2 with h3 | h3
          · exact Or.inl h3
          · exact Or.inr ⟨by rw [h3.1]; exact List.mem_cons_self _ _, by rw [h3.1]; exact h3.2⟩
        · exact Or.inr ⟨List.mem_cons_of_mem _ h2.1, h2.2⟩

theorem emit_secondary_coldstart_adv {env : Env} {U : Finset DexClass} (l : List String) :
    ∀ {det det' : dex_emit_tracker} {out out' : DexClassesVector}, Inv env det out →
      emit_secondary_coldstart env U l det out = .ok (det', out') →
      Adv env det out det' out' ∧
        (∀ d ∈ det'.emitted, d ∈ det.emitted ∨
          ((∃ e ∈ l, det.clookup.find e = some d) ∧ is_canary d = false)) := by
  induction l with
  | nil =>
    intro det det' out out' h he
    simp only [emit_secondary_coldstart, Except.ok.injEq, Prod.mk.injEq] at he
    obtain ⟨e1, e2⟩ := he
    subst e1 e2
    exact ⟨Adv.refl h, fun d hd => Or.inl hd⟩
  | cons entry rest ih =>
    intro det det' out out' h he
    have lift : ∀ {d1 : dex_emit_tracker} {o1 : DexClassesVector}, Adv env det out d1 o1 →
        (∀ d ∈ d1.emitted, d ∈ det.emitted ∨
          ((∃ e ∈ entry :: rest, det.clookup.find e = some d) ∧ is_canary d = false)) →
        emit_secondary_coldstart env U rest d1 o1 = .ok (det', out') →
        Adv env det out det' out' ∧
        (∀ d ∈ det'.emitted, d ∈ det.emitted ∨
          ((∃ e ∈ entry :: rest, det.clookup.find e = some d) ∧ is_canary d = false)) := by
      intro d1 o1 a1 c1 he1
      obtain ⟨a2, c2⟩ := ih a1.inv he1
      refine ⟨a1.trans a2, ?_⟩
      intro d hd
      rcases c2 d hd with h2 | ⟨⟨e, he, hf⟩, hcan⟩
      · exact c1 d h2
      · rw [a1.lookup_eq] at hf
        exact Or.inr ⟨⟨e, List.mem_cons_of_mem _ he, hf⟩, hcan⟩
    simp only [emit_secondary_coldstart] at he
    cases hfind : det.clookup.find entry with
    | none =>
      rw [hfind] at he
      simp only at he
      by_cases hm : contains_substr entry.data "DexEndMarker".data = true
      · simp only [hm, if_true] at he
        cases hfl : flush_out_secondary env det out with
        | error e => rw [hfl] at he; cases he
        | ok r =>
          obtain ⟨d1, o1⟩ := r
          rw [hfl] at he
          by_cases hempty : det.outs = []
          · rcases flush_out_secondary_cases hfl with ⟨_, hd, ho⟩ | ⟨hne, _, _⟩
            · subst hd ho
              exact lift (Adv.refl h) (fun d hd => Or.inl hd) he
            · exact absurd hempty hne
          · have hfa := flush_adv h (d := det) rfl rfl rfl hempty hfl
            refine lift hfa.1 ?_ he
            intro d hd
            rw [hfa.2] at hd
            exact Or.inl hd
      · simp only [hm, Bool.false_eq_true, if_false] at he
        exact lift (Adv.refl h) (fun d hd => Or.inl hd) he
    | some clazz =>
      rw [hfind] at he
      simp only at he
      by_cases hu : clazz ∈ U
      · simp only [hu, if_true] at he
        exact lift (Adv.refl h) (fun d hd => Or.inl hd) he
      · simp only [hu, if_false] at he
        cases h1 : emit_class env det out clazz false with
        | error e => rw [h1] at he; cases he
        | ok r =>
          obtain ⟨d1, o1⟩ := r
          rw [h1] at he
          obtain ⟨a1, _, c1⟩ := emit_adv h h1
          refine lift a1 ?_ he
          intro d hd
          rcases c1 d hd with h3 | h3
          · exact Or.inl h3
          · refine Or.inr ⟨⟨entry, List.mem_cons_self _ _, ?_⟩, by rw [h3.1]; exact h3.2⟩
            rw [h3.1]
            exact hfind

theorem emit_unreferenced_adv {env : Env} {U : Finset DexClass} (l : List String) :
    ∀ {det det' : dex_emit_tracker} {out out' : DexClassesVector}, Inv env det out →
      emit_unreferenced env U l det out = .ok (det', out') →
      Adv env det out det' out' ∧
        (∀ d ∈ det'.emitted, d ∈ det.emitted ∨
          ((∃ e ∈ l, det.clookup.find e = some d) ∧ is_canary d = false)) := by
  induction l with
  | nil =>
    intro det det' out out' h he
    simp only [emit_unreferenced, Except.ok.injEq, Prod.mk.injEq] at he
    obtain ⟨e1, e2⟩ := he
    subst e1 e2
    exact ⟨Adv.refl h, fun d hd => Or.inl hd⟩
  | cons entry rest ih =>
    intro det det' out out' h he
    have lift : ∀ {d1 : dex_emit_tracker} {o1 : DexClassesVector}, Adv env det out d1 o1 →
        (∀ d ∈ d1.emitted, d ∈ det.emitted ∨
          ((∃ e ∈ entry :: rest, det.clookup.find e = some d) ∧ is_canary d = false)) →
        emit_unreferenced env U rest d1 o1 = .ok (det', out') →
        Adv env det out det' out' ∧
        (∀ d ∈ det'.emitted, d ∈ det.emitted ∨
          ((∃ e ∈ entry :: rest, det.clookup.find e = some d) ∧ is_canary d = false)) := by
      intro d1 o1 a1 c1 he1
      obtain ⟨a2, c2⟩ := ih a1.inv he1
      refine ⟨a1.trans a2, ?_⟩
      intro d hd
      rcases c2 d hd with h2 | ⟨⟨e, he, hf⟩, hcan⟩
      · exact c1 d h2
      · rw [a1.lookup_eq] at hf
        exact Or.inr ⟨⟨e, List.mem_cons_of_mem _ he, hf⟩, hcan⟩
    simp only [emit_unreferenced] at he
    cases hfind : det.clookup.find entry with
    | none =>
      rw [hfind] at he
      exact lift (Adv.refl h) (fun d hd => Or.inl hd) he
    | some clazz =>
      rw [hfind] at he
      simp only at he
      by_cases hu : clazz ∈ U
      · simp only [hu, if_true] at he
        cases h1 : emit_class env det out clazz false with
        | error e => rw [h1] at he; cases he
        | ok r =>
          obtain ⟨d1, o1⟩ := r
          rw [h1] at he
          obtain ⟨a1, _, c1⟩ := emit_adv h h1
          refine lift a1 ?_ he
          intro d hd
          rcases c1 d hd with h3 | h3
          · exact Or.inl h3
          · refine Or.inr ⟨⟨entry, List.mem_cons_self _ _, ?_⟩, by rw [h3.1]; exact h3.2⟩
            rw [h3.1]
            exact hfind
      · simp only [hu, if_false] at he
        exact lift (Adv.refl h) (fun d hd => Or.inl hd) he

/-! ## The primary tracker -/

theorem primary_step {env : Env} {S : List DexClass} {det det' : dex_emit_tracker}
    {out out' : DexClassesVector} {c : DexClass} (h : Inv env det out)
    (hp : PrimaryInv env S det) (hc : c ∈ S)
    (he : emit_class env det out c true = .ok (det', out')) :
    out' = out ∧ Inv env det' out' ∧ PrimaryInv env S det' ∧
      (c ∈ det'.emitted ∨ is_canary c = true) ∧ det.emitted ⊆ det'.emitted := by
  obtain ⟨a, b, _⟩ := emit_adv h he
  obtain ⟨ho, hcase⟩ := emit_primary_cases he
  refine ⟨ho, a.inv, ?_, b, a.emitted_mono⟩
  rcases hcase with ⟨hd, _⟩ | ⟨hd, _, _, hov⟩
  · rw [hd]
    exact hp
  · rw [hd]
    refine
      { emitted_outs := ?_
        within := fun hb =>
          (within_limits_of_not_overflows hb h hov : within_limits env (det.outs ++ [c]))
        from_dex := ?_
        lookup_dex := hp.lookup_dex }
    · intro d hd'
      have hd'' : d ∈ insert c det.emitted := hd'
      show d ∈ det.outs ++ [c]
      rcases Finset.mem_insert.1 hd'' with h1 | h1
      · rw [h1]
        simp
      · exact List.mem_append_left _ (hp.emitted_outs d h1)
    · intro d hd'
      have hd'' : d ∈ det.outs ++ [c] := hd'
      rcases List.mem_append.1 hd'' with h1 | h1
      · exact hp.from_dex d h1
      · have : d = c := by simpa using h1
        rw [this]
        exact hc

theorem emit_each_primary {env : Env} {S : List DexClass} (l : List DexClass) :
    ∀ {det det' : dex_emit_tracker} {out out' : DexClassesVector}, Inv env det out →
      PrimaryInv env S det → (∀ c ∈ l, c ∈ S) →
      emit_each env true l det out = .ok (det', out') →
      out' = out ∧ Inv env det' out' ∧ PrimaryInv env S det' ∧
        (∀ c ∈ l, c ∈ det'.emitted ∨ is_canary c = true) ∧ det.emitted ⊆ det'.emitted := by
  induction l with
  | nil =>
    intro det det' out out' h hp _ he
    simp only [emit_each, Except.ok.injEq, Prod.mk.injEq] at he
    obtain ⟨e1, e2⟩ := he
    subst e1 e2
    exact ⟨rfl, h, hp, fun c hc => absurd hc (List.not_mem_nil c), Finset.Subset.refl _⟩
  | cons c cs ih =>
    intro det det' out out' h hp hl he
    simp only [emit_each] at he
    cases h1 : emit_class env det out c true with
    | error e => rw [h1] at he; cases he
    | ok r =>
      obtain ⟨d1, o1⟩ := r
      rw [h1] at he
      obtain ⟨ho1, i1, p1, b1, m1⟩ := primary_step h hp (hl c (List.mem_cons_self _ _)) h1
      obtain ⟨ho2, i2, p2, b2, m2⟩ := ih i1 p1 (fun x hx => hl x (List.mem_cons_of_mem _ hx)) he
      refine ⟨ho2.trans ho1, i2, p2, ?_, m1.trans m2⟩
      intro x hx
      rcases List.mem_cons.1 hx with hx | hx
      · subst hx
        rcases b1 with hb | hb
        · exact Or.inl (m2 hb)
        · exact Or.inr hb
      · exact b2 x hx

theorem emit_primary_coldstart_keeps {env : Env} {S : List DexClass} {U : Finset DexClass}
    (l : List String) :
    ∀ {det det' : dex_emit_tracker} {out out' : DexClassesVector}, Inv env det out →
      PrimaryInv env S det →
      emit_primary_coldstart env U l det out = .ok (det', out') →
      out' = out ∧ Inv env det' out' ∧ PrimaryInv env S det' := by
  induction l with
  | nil =>
    intro det det' out out' h hp he
    simp only [emit_primary_coldstart, Except.ok.injEq, Prod.mk.injEq] at he
    obtain ⟨e1, e2⟩ := he
    subst e1 e2
    exact ⟨rfl, h, hp⟩
  | cons entry rest ih =>
    intro det det' out out' h hp he
    simp only [emit_primary_coldstart] at he
    cases hfind : det.clookup.find entry with
    | none =>
      rw [hfind] at he
      exact ih h hp he
    | some clazz =>
      rw [hfind] at he
      simp only at he
      by_cases hu : clazz ∈ U
      · simp only [hu, if_true] at he
        exact ih h hp he
      · simp only [hu, if_false] at he
        cases h1 : emit_class env det out clazz true with
        | error e => rw [h1] at he; cases he
        | ok r =>
          obtain ⟨d1, o1⟩ := r
          rw [h1] at he
          obtain ⟨ho1, i1, p1, _, _⟩ := primary_step h hp (hp.lookup_dex _ _ hfind) h1
          obtain ⟨ho2, i2, p2⟩ := ih i1 p1 he
          exact ⟨ho2.trans ho1, i2, p2⟩

theorem mem_foldl_insert (l : List DexClass) (s : Finset DexClass) (c : DexClass) :
    c ∈ l.foldl (fun s clazz => insert clazz s) s ↔ c ∈ s ∨ c ∈ l := by
  induction l generalizing s with
  | nil => simp
  | cons x xs ih =>
    simp only [List.foldl_cons, ih, Finset.mem_insert, List.mem_cons]
    tauto

theorem Inv.empty (env : Env) (m : CLookup) (hm : ∀ p ∈ m, p.2.name = p.1) :
    Inv env { dex_emit_tracker.empty with clookup := m } [] :=
  { lookup_wf := hm
    nodup := List.nodup_nil
    outs_ok := fun c hc => absurd hc (List.not_mem_nil c)
    out_ok := fun c hc => absurd hc (List.not_mem_nil c)
    count := fun _ => Nat.zero_le _
    la_eq := fun _ => rfl
    mrefs_eq := rfl
    frefs_eq := rfl
    fit := fun _ => Or.inr (within_limits_nil env) }

/-- The primary branch, when it succeeds, writes exactly one container: the
classes of input container 0 that `is_canary` rejects, each once, within the
limits when the estimates are bounded; and it records the classes of input container 0 in the main tracker. -/
theorem primary_phase_ok {env : Env} {dexen : DexClassesVector} {order : List String}
    {U : Finset DexClass} {det det' : dex_emit_tracker} {out' : DexClassesVector}
    (he : primary_phase env dexen order U det [] = .ok (det', out')) :
    ∃ primary_dex rest outs, dexen = primary_dex :: rest ∧ out' = [outs] ∧
      det' = record_emitted primary_dex det ∧ outs.Nodup ∧
      (estimates_bounded env → within_limits env outs) ∧
      (∀ c ∈ outs, c ∈ primary_dex ∧ is_canary c = false) ∧
      (∀ c ∈ primary_dex, is_canary c = false → c ∈ outs) := by
  cases dexen with
  | nil => simp [primary_phase] at he
  | cons primary_dex rest =>
    simp only [primary_phase] at he
    have hinv0 : Inv env { dex_emit_tracker.empty with
        clookup := build_clookup primary_dex, la_size := 0 } [] :=
      Inv.empty env _ (fun p hp => (build_clookup_wf primary_dex p hp).1)
    have hp0 : PrimaryInv env primary_dex { dex_emit_tracker.empty with
        clookup := build_clookup primary_dex, la_size := 0 } :=
      { emitted_outs := fun c hc => by cases hc
        within := fun _ => within_limits_nil env
        from_dex := fun c hc => absurd hc (List.not_mem_nil c)
        lookup_dex := fun k c hk => (build_clookup_find hk).2 }
    cases h1 : emit_primary_coldstart env U order { dex_emit_tracker.empty with
        clookup := build_clookup primary_dex, la_size := 0 } [] with
    | error e => rw [h1] at he; cases he
    | ok r1 =>
      obtain ⟨d1, o1⟩ := r1
      rw [h1] at he
      simp only at he
      obtain ⟨ho1, i1, p1⟩ := emit_primary_coldstart_keeps order hinv0 hp0 h1
      cases h2 : emit_each env true primary_dex d1 o1 with
      | error e => rw [h2] at he; cases he
      | ok r2 =>
        obtain ⟨d2, o2⟩ := r2
        rw [h2] at he
        simp only [Except.ok.injEq, Prod.mk.injEq, flush_out_dex] at he
        obtain ⟨ho2, i2, p2, b2, _⟩ := emit_each_primary primary_dex i1 p1 (fun _ h => h) h2
        have ho : o2 = [] := ho2.trans ho1
        subst ho
        refine ⟨primary_dex, rest, d2.outs, rfl, by rw [← he.2]; rfl, he.1.symm, ?_,
          p2.within, ?_, ?_⟩
        · simpa using i2.nodup
        · intro c hc
          exact ⟨p2.from_dex c hc, (i2.outs_ok c hc).2⟩
        · intro c hc hcan
          rcases b2 c hc with h3 | h3
          · exact p2.emitted_outs c h3
          · rw [hcan] at h3
            exact absurd h3 Bool.false_ne_true

/-! ## The secondary phase and the whole run -/

theorem finish_secondary_ok {env : Env} {scope : Scope} {order : List String}
    {U : Finset DexClass} {d1 : dex_emit_tracker} {o1 out' : DexClassesVector}
    (h : Inv env d1 o1)
    (he : finish_secondary env scope order U d1 o1 = .ok out') :
    ∃ det', Adv env d1 o1 det' out' ∧ det'.outs = [] ∧
      (∀ c ∈ scope, c ∈ det'.emitted ∨ is_canary c = true) ∧
      (∀ d ∈ det'.emitted, d ∈ d1.emitted ∨
        (((∃ e ∈ order, d1.clookup.find e = some d) ∨ d ∈ scope) ∧ is_canary d = false)) := by
  unfold finish_secondary at he
  cases h2 : emit_unreferenced env U order d1 o1 with
  | error e => rw [h2] at he; cases he
  | ok r2 =>
    obtain ⟨d2, o2⟩ := r2
    rw [h2] at he
    simp only at he
    obtain ⟨a2, c2⟩ := emit_unreferenced_adv order h h2
    cases h3 : emit_each env false scope d2 o2 with
    | error e => rw [h3] at he; cases he
    | ok r3 =>
      obtain ⟨d3, o3⟩ := r3
      rw [h3] at he
      simp only at he
      obtain ⟨a3, b3, c3⟩ := emit_each_adv scope a2.inv h3
      have a13 := a2.trans a3
      have hem : ∀ d ∈ d3.emitted, d ∈ d1.emitted ∨
          (((∃ e ∈ order, d1.clookup.find e = some d) ∨ d ∈ scope) ∧ is_canary d = false) := by
        intro d hd
        rcases c3 d hd with h4 | h4
        · rcases c2 d h4 with h5 | ⟨h5, hcan⟩
          · exact Or.inl h5
          · exact Or.inr ⟨Or.inl h5, hcan⟩
        · exact Or.inr ⟨Or.inr h4.1, h4.2⟩
      by_cases hne : d3.outs.length ≠ 0
      · rw [if_pos hne] at he
        cases h4 : flush_out_secondary env d3 o3 with
        | error e => rw [h4] at he; cases he
        | ok r4 =>
          obtain ⟨d4, o4⟩ := r4
          rw [h4] at he
          simp only [Except.ok.injEq] at he
          subst he
          have hne' : d3.outs ≠ [] := fun e => hne (by rw [e]; rfl)
          have hfa := flush_adv a3.inv (d := d3) rfl rfl rfl hne' h4
          refine ⟨d4, a13.trans hfa.1, by rw [hfa.2]; rfl, ?_, ?_⟩
          · intro c hc
            rcases b3 c hc with h5 | h5
            · exact Or.inl (hfa.1.emitted_mono h5)
            · exact Or.inr h5
          · intro d hd
            rw [hfa.2] at hd
            exact hem d hd
      · have hz : d3.outs = [] := List.length_eq_zero.1 (not_not.1 hne)
        rw [if_neg hne] at he
        simp only [Except.ok.injEq] at he
        subst he
        exact ⟨d3, a13, hz, b3, hem⟩

theorem secondary_phase_ok {env : Env} {scope : Scope} {order : List String}
    {U : Finset DexClass} {det : dex_emit_tracker} {out out' : DexClassesVector}
    (h : Inv env { det with la_size := 0 } out)
    (hl : ∀ k c, det.clookup.find k = some c → c ∈ scope)
    (he : secondary_phase env scope order U det out = .ok out') :
    ∃ det', Adv env { det with la_size := 0 } out det' out' ∧ det'.outs = [] ∧
      (∀ c ∈ scope, c ∈ det'.emitted ∨ is_canary c = true) ∧
      (∀ d ∈ det'.emitted, d ∈ det.emitted ∨ (d ∈ scope ∧ is_canary d = false)) := by
  unfold secondary_phase at he
  cases h1 : emit_secondary_coldstart env U order { det with la_size := 0 } out with
  | error e => rw [h1] at he; cases he
  | ok r1 =>
    obtain ⟨d1, o1⟩ := r1
    rw [h1] at he
    simp only at he
    obtain ⟨a1, c1⟩ := emit_secondary_coldstart_adv order h h1
    obtain ⟨d', a2, hz, hall, hem⟩ := finish_secondary_ok a1.inv he
    refine ⟨d', a1.trans a2, hz, hall, ?_⟩
    intro d hd
    rcases hem d hd with h4 | ⟨h4, hcan⟩
    · rcases c1 d h4 with h6 | ⟨⟨e, _, hf⟩, hcan⟩
      · exact Or.inl h6
      · exact Or.inr ⟨hl e d hf, hcan⟩
    · rcases h4 with ⟨e, _, hf⟩ | h4
      · rw [a1.lookup_eq] at hf
        exact Or.inr ⟨hl e d hf, hcan⟩
      · exact Or.inr ⟨h4, hcan⟩

/-- The facts about a completed run from which the properties below follow.
`prim` is what the primary branch wrote (nothing, or one container), `tail`
the containers written by `flush_out_secondary`. -/
theorem run_interdex_from_ok {env : Env} {dexen : DexClassesVector} {order : List String}
    {U : Finset DexClass} {normal : Bool} {out : DexClassesVector}
    (he : run_interdex_from env dexen order U normal = .ok out) :
    ∃ (prim tail : DexClassesVector) (det' : dex_emit_tracker),
      out = prim ++ tail ∧ Inv env det' out ∧ det'.outs = [] ∧
      IdxAll (Sealed env) prim.length tail ∧
      ((normal = true ∧ prim = []) ∨
        (normal = false ∧ ∃ primary_dex rest outs, dexen = primary_dex :: rest ∧
          prim = [outs] ∧ outs.Nodup ∧ (estimates_bounded env → within_limits env outs) ∧
          (∀ c ∈ outs, c ∈ primary_dex ∧ is_canary c = false) ∧
          (∀ c ∈ primary_dex, is_canary c = false → c ∈ outs))) ∧
      (∀ c ∈ dexen.flatten, is_canary c = true ∨ c ∈ out.flatten) ∧
      (∀ c ∈ out.flatten, (c ∈ dexen.flatten ∧ is_canary c = false) ∨
        (is_canary c = true ∧ ∃ i, i < out.length ∧ c.name = canary_name i)) := by
  unfold run_interdex_from at he
  simp only [build_class_scope] at he
  have hlook : ∀ k c, (build_clookup dexen.flatten).find k = some c → c ∈ dexen.flatten :=
    fun k c hk => (build_clookup_find hk).2
  cases normal with
  | true =>
    simp only [Bool.not_true, Bool.false_eq_true, if_false] at he
    have h0 := Inv.empty env (build_clookup dexen.flatten)
      (fun p hp => (build_clookup_wf _ p hp).1)
    obtain ⟨d', adv, hz, hall, hem⟩ := secondary_phase_ok h0 hlook he
    obtain ⟨tail, e1, s1, _, _, n1⟩ := adv.ext
    refine ⟨[], tail, d', by simpa using e1, adv.inv, hz, by simpa using s1,
      Or.inl ⟨rfl, rfl⟩, ?_, ?_⟩
    · intro c hc
      rcases hall c hc with h1 | h1
      · right
        rcases n1 c h1 with h2 | h2 | h2
        · cases h2
        · rw [hz] at h2
          cases h2
        · rw [e1]
          simpa using h2
      · exact Or.inl h1
    · intro c hc
      rcases adv.inv.out_ok c hc with ⟨h1, h2⟩ | h1
      · rcases hem c h2 with h3 | h3
        · cases h3
        · exact Or.inl h3
      · exact Or.inr h1
  | false =>
    simp only [Bool.not_false, if_true] at he
    cases hp : primary_phase env dexen order U
        { dex_emit_tracker.empty with clookup := build_clookup dexen.flatten } [] with
    | error e => rw [hp] at he; cases he
    | ok r =>
      obtain ⟨d0, o0⟩ := r
      rw [hp] at he
      simp only at he
      obtain ⟨pd, rest, outs, hdex, ho0, hd0, hnd, hwl, hsub, hsup⟩ := primary_phase_ok hp
      subst ho0 hd0
      have hmem : ∀ c, c ∈ (record_emitted pd { dex_emit_tracker.empty with
          clookup := build_clookup dexen.flatten }).emitted ↔ c ∈ pd := by
        intro c
        show c ∈ pd.foldl (fun s clazz => insert clazz s) ∅ ↔ c ∈ pd
        rw [mem_foldl_insert]
        simp
      have h0 : Inv env { record_emitted pd { dex_emit_tracker.empty with
          clookup := build_clookup dexen.flatten } with la_size := 0 } [outs] :=
        { lookup_wf := fun p hp => (build_clookup_wf _ p hp).1
          nodup := by
            show ([outs].flatten ++ []).Nodup
            simpa using hnd
          outs_ok := fun c hc => absurd hc (List.not_mem_nil c)
          out_ok := fun c hc => by
            have hc' : c ∈ outs := by simpa using hc
            exact Or.inl ⟨(hsub c hc').2, (hmem c).2 (hsub c hc').1⟩
          count := fun _ => by simp [kMaxDexNum]
          la_eq := fun _ => rfl
          mrefs_eq := rfl
          frefs_eq := rfl
          fit := fun _ => Or.inr (within_limits_nil env) }
      obtain ⟨d', adv, hz, hall, hem⟩ := secondary_phase_ok h0 hlook he
      obtain ⟨tail, e1, s1, _, _, n1⟩ := adv.ext
      refine ⟨[outs], tail, d', e1, adv.inv, hz, s1,
        Or.inr ⟨rfl, pd, rest, outs, hdex, rfl, hnd, hwl, hsub, hsup⟩, ?_, ?_⟩
      · intro c hc
        rcases hall c hc with h1 | h1
        · by_cases hcan : is_canary c = true
          · exact Or.inl hcan
          · right
            have hcan' : is_canary c = false := by simpa using hcan
            rcases n1 c h1 with h2 | h2 | h2
            · rw [e1]
              have : c ∈ outs := hsup c ((hmem c).1 h2) hcan'
              simp [this]
            · rw [hz] at h2
              cases h2
            · rw [e1]
              simp only [List.flatten_append, List.mem_append]
              exact Or.inr h2
        · exact Or.inl h1
      · intro c hc
        rcases adv.inv.out_ok c hc with ⟨h1, h2⟩ | h1
        · rcases hem c h2 with h3 | h3
          · left
            refine ⟨?_, h1⟩
            rw [hdex]
            simp only [List.flatten_cons, List.mem_append]
            exact Or.inl ((hmem c).1 h3)
          · exact Or.inl h3
        · exact Or.inr h1

/-! ## The end marker -/

theorem nodup_flatten_unique {L : DexClassesVector} (h : L.flatten.Nodup) :
    ∀ {i j : Nat} {x y : DexClasses} {a : DexClass}, L[i]? = some x → L[j]? = some y →
      a ∈ x → a ∈ y → i = j := by
  induction L with
  | nil =>
    intro i j x y a hx
    simp at hx
  | cons z zs ih =>
    intro i j x y a hx hy hax hay
    rw [List.flatten_cons, List.nodup_append] at h
    obtain ⟨_, hzs, hdis⟩ := h
    cases i with
    | zero =>
      cases j with
      | zero => rfl
      | succ j' =>
        simp only [List.getElem?_cons_zero, Option.some.injEq] at hx
        simp only [List.getElem?_cons_succ] at hy
        subst hx
        exact absurd (List.mem_flatten_of_mem (List.getElem?_mem hy) hay) (hdis hax)
    | succ i' =>
      cases j with
      | zero =>
        simp only [List.getElem?_cons_zero, Option.some.injEq] at hy
        simp only [List.getElem?_cons_succ] at hx
        subst hy
        exact absurd (List.mem_flatten_of_mem (List.getElem?_mem hx) hax) (hdis hay)
      | succ j' =>
        simp only [List.getElem?_cons_succ] at hx hy
        rw [ih hzs hx hy hax hay]

theorem emit_fresh_empty {env : Env} {det : dex_emit_tracker} {out : DexClassesVector}
    {c : DexClass} (ho : det.outs = []) (hc : c ∉ det.emitted) (hcan : is_canary c = false) :
    emit_class env det out c false = .ok (pushed env c det, out) := by
  rw [emit_class_eq]
  have hskip : ¬ (c ∈ det.emitted ∨ is_canary c = true) := by
    rintro (h | h)
    · exact hc h
    · rw [hcan] at h
      cases h
  rw [if_neg hskip]
  by_cases hov : overflows env det c
  · rw [if_pos hov]
    have hfl : flush_out_secondary env (gather_mrefs env c det) out
        = .ok (gather_mrefs env c det, out) := by
      unfold flush_out_secondary
      have : (gather_mrefs env c det).outs.length = 0 := by
        show det.outs.length = 0
        rw [ho]
        rfl
      rw [if_pos this]
    simp only [Bool.false_eq_true, if_false, hfl, pushed_gather]
  · rw [if_neg hov]

theorem coldstart_cons_emit {env : Env} {U : Finset DexClass} {entry : String}
    {rest : List String} {det : dex_emit_tracker} {out : DexClassesVector} {c : DexClass}
    (hf : det.clookup.find entry = some c) (hu : c ∉ U) :
    emit_secondary_coldstart env U (entry :: rest) det out =
      match emit_class env det out c false with
      | .error e => .error e
      | .ok (det1, out1) => emit_secondary_coldstart env U rest det1 out1 := by
  simp only [emit_secondary_coldstart, hf, hu, if_false]

/-- The flush at an end marker: an entry that resolves to no class and
contains `DexEndMarker`, met with a non-empty tracker, either stops the run at
the dex-count assertion or writes the classes in progress (and the canary, when
canaries are on) as the next container and goes on with an empty tracker. -/
theorem coldstart_cons_marker {env : Env} {U : Finset DexClass} {entry : String}
    {rest : List String} {det : dex_emit_tracker} {out : DexClassesVector}
    (hf : det.clookup.find entry = none)
    (hm : contains_substr entry.data "DexEndMarker".data = true) (hne : det.outs ≠ []) :
    emit_secondary_coldstart env U (entry :: rest) det out =
      if env.emit_canaries = true ∧ out.length > kMaxDexNum then
        .error Fatal.max_dex_surpassed
      else
        emit_secondary_coldstart env U rest (cleared det)
          (out ++ [det.outs ++
            if env.emit_canaries = true then [find_canary env det out.length] else []]) := by
  have h0 : ¬ det.outs.length = 0 := fun e => hne (List.length_eq_zero.1 e)
  simp only [emit_secondary_coldstart, hf, hm, if_true, flush_out_secondary, h0, if_false]
  by_cases hc : env.emit_canaries = true
  · by_cases hn : out.length ≤ kMaxDexNum
    · have hn' : ¬ out.length > kMaxDexNum := by omega
      simp only [hc, if_true, hn, hn', and_false, if_false, flush_out_dex]
      rfl
    · have hn' : out.length > kMaxDexNum := by omega
      simp only [hc, if_true, hn, hn', and_true, if_false]
  · have hc' : env.emit_canaries = false := by simpa using hc
    simp only [hc', Bool.false_eq_true, if_false, false_and, flush_out_dex, List.append_nil]
    rfl

theorem flush_nonempty_eq {env : Env} {det : dex_emit_tracker} {out : DexClassesVector}
    (hne : det.outs ≠ []) (hok : ¬ (env.emit_canaries = true ∧ out.length > kMaxDexNum)) :
    flush_out_secondary env det out = .ok (cleared det,
      out ++ [det.outs ++
        if env.emit_canaries = true then [find_canary env det out.length] else []]) := by
  have h0 : ¬ det.outs.length = 0 := fun e => hne (List.length_eq_zero.1 e)
  unfold flush_out_secondary
  rw [if_neg h0]
  by_cases hc : env.emit_canaries = true
  · have hn : out.length ≤ kMaxDexNum := by
      by_contra hlt
      exact hok ⟨hc, by omega⟩
    rw [if_pos hc, if_pos hn, if_pos hc]
    rfl
  · rw [if_neg hc, if_neg hc]
    simp only [flush_out_dex, List.append_nil]
    rfl

theorem mem_record_emitted (pd : List DexClass) (det : dex_emit_tracker) (c : DexClass) :
    c ∈ (record_emitted pd det).emitted ↔ c ∈ det.emitted ∨ c ∈ pd := by
  show c ∈ pd.foldl (fun s clazz => insert clazz s) det.emitted ↔ _
  exact mem_foldl_insert pd det.emitted c

theorem end_marker_secondary {env : Env} {scope : Scope} {U : Finset DexClass}
    {det : dex_emit_tracker} {out0 out : DexClassesVector} {X Y : DexClass} {m : String}
    (h0 : Inv env { det with la_size := 0 } out0) (ho : det.outs = [])
    (hX : det.clookup.find X.name = some X) (hY : det.clookup.find Y.name = some Y)
    (hm : det.clookup.find m = none)
    (hmk : contains_substr m.data "DexEndMarker".data = true)
    (hXU : X ∉ U) (hYU : Y ∉ U) (hXY : X ≠ Y)
    (hXc : is_canary X = false) (hYc : is_canary Y = false)
    (hXe : X ∉ det.emitted) (hYe : Y ∉ det.emitted)
    (he : secondary_phase env scope [X.name, m, Y.name] U det out0 = .ok out) :
    ∃ (i j : Nat) (x y : DexClasses), i < j ∧ out[i]? = some x ∧ out[j]? = some y ∧
      X ∈ x ∧ Y ∈ y ∧
      ∀ (k : Nat) (z : DexClasses), out[k]? = some z → (X ∈ z → k = i) ∧ (Y ∈ z → k = j) := by
  unfold secondary_phase at he
  -- the entry of X
  have e1 : emit_class env { det with la_size := 0 } out0 X false
      = .ok (pushed env X { det with la_size := 0 }, out0) :=
    emit_fresh_empty ho hXe hXc
  obtain ⟨a1, _, _⟩ := emit_adv h0 e1
  rw [@coldstart_cons_emit env U X.name [m, Y.name] { det with la_size := 0 } out0 X hX hXU,
    e1] at he
  simp only at he
  -- the marker
  have hne : (pushed env X { det with la_size := 0 }).outs ≠ [] := by
    show det.outs ++ [X] ≠ []
    simp
  have hm1 : (pushed env X { det with la_size := 0 }).clookup.find m = none := hm
  rw [coldstart_cons_marker hm1 hmk hne] at he
  by_cases hbad : env.emit_canaries = true ∧ out0.length > kMaxDexNum
  · rw [if_pos hbad] at he
    cases he
  · rw [if_neg hbad] at he
    have hfl := @flush_nonempty_eq env (pushed env X { det with la_size := 0 }) out0 hne hbad
    obtain ⟨a2, _⟩ := flush_adv a1.inv (d := pushed env X { det with la_size := 0 })
      rfl rfl rfl hne hfl
    -- the entry of Y
    have hY2 : (cleared (pushed env X { det with la_size := 0 })).clookup.find Y.name
        = some Y := hY
    have hYe2 : Y ∉ (cleared (pushed env X { det with la_size := 0 })).emitted := by
      show Y ∉ insert X det.emitted
      rw [Finset.mem_insert]
      rintro (h | h)
      · exact hXY h.symm
      · exact hYe h
    have e3 := @emit_fresh_empty env
      (cleared (pushed env X { det with la_size := 0 }))
      (out0 ++ [(pushed env X { det with la_size := 0 }).outs ++
        if env.emit_canaries = true then
          [find_canary env (pushed env X { det with la_size := 0 }) out0.length] else []])
      Y rfl hYe2 hYc
    obtain ⟨a3, _, _⟩ := emit_adv a2.inv e3
    rw [coldstart_cons_emit hY2 hYU, e3] at he
    simp only [emit_secondary_coldstart] at he
    obtain ⟨d', a4, hz, _, _⟩ := finish_secondary_ok a3.inv he
    obtain ⟨tail, hout, _, hcarry, _, _⟩ := a4.ext
    have hnd : out.flatten.Nodup := by
      have := a4.inv.nodup
      rw [hz] at this
      simpa using this
    have hYin : Y ∈ tail.flatten := by
      have hYo : Y ∈ (pushed env Y (cleared (pushed env X { det with la_size := 0 }))).outs := by
        show Y ∈ [] ++ [Y]
        simp
      rcases hcarry Y hYo with h | h
      · rw [hz] at h
        cases h
      · exact h
    obtain ⟨y, hyt, hYy⟩ := List.mem_flatten.1 hYin
    obtain ⟨k, hk⟩ := List.mem_iff_getElem?.1 hyt
    have hXx : X ∈ (pushed env X { det with la_size := 0 }).outs ++
        if env.emit_canaries = true then
          [find_canary env (pushed env X { det with la_size := 0 }) out0.length] else [] := by
      apply List.mem_append_left
      show X ∈ det.outs ++ [X]
      simp
    have hi : out[out0.length]? = some ((pushed env X { det with la_size := 0 }).outs ++
        if env.emit_canaries = true then
          [find_canary env (pushed env X { det with la_size := 0 }) out0.length] else []) := by
      rw [hout, List.append_assoc, List.getElem?_append_right (Nat.le_refl _)]
      simp
    have hj : out[out0.length + 1 + k]? = some y := by
      rw [hout, List.getElem?_append_right (by simp)]
      simp only [List.length_append, List.length_singleton]
      have : out0.length + 1 + k - (out0.length + 1) = k := by omega
      rw [this]
      exact hk
    refine ⟨out0.length, out0.length + 1 + k, _, y, by omega, hi, hj, hXx, hYy, ?_⟩
    intro k' z hz'
    exact ⟨fun hXz => nodup_flatten_unique hnd hz' hi hXz hXx,
      fun hYz => nodup_flatten_unique hnd hz' hj hYz hYy⟩

/-! ## The order of the secondary classes -/

theorem keep_first_filter (q : DexClass → Bool) (l : List DexClass) :
    keep_first (l.filter q) = (keep_first l).filter q := by
  induction l with
  | nil => rfl
  | cons a l ih =>
    by_cases hq : q a = true
    · simp only [List.filter_cons_of_pos hq, keep_first, ih, List.filter_filter]
      congr 1
      apply List.filter_congr
      intro x _
      exact Bool.and_comm _ _
    · have hq' : q a = false := by simpa using hq
      simp only [List.filter_cons_of_neg hq, keep_first, ih, List.filter_filter]
      apply List.filter_congr
      intro x _
      by_cases hx : q x = true
      · have : x ≠ a := fun e => hq (e ▸ hx)
        simp [hx, this]
      · have hx' : q x = false := by simpa using hx
        simp [hx']

theorem fresh_of_eq (E : Finset DexClass) (l : List DexClass) :
    fresh_of E l =
      keep_first (l.filter (fun c => !is_canary c && decide (c ∉ E))) := by
  induction l generalizing E with
  | nil => rfl
  | cons c cs ih =>
    by_cases hskip : c ∈ E ∨ is_canary c = true
    · have hf : (!is_canary c && decide (c ∉ E)) = false := by
        rcases hskip with h | h
        · simp [h]
        · simp [h]
      simp only [fresh_of, if_pos hskip, ih, List.filter_cons, hf, Bool.false_eq_true, if_false]
    · have hE : c ∉ E := fun h => hskip (Or.inl h)
      have hcan : is_canary c = false := by
        cases hb : is_canary c
        · rfl
        · exact absurd (Or.inr hb) hskip
      have hf : (!is_canary c && decide (c ∉ E)) = true := by simp [hcan, hE]
      simp only [fresh_of, if_neg hskip, ih, List.filter_cons, hf, if_true, keep_first]
      congr 1
      rw [← keep_first_filter, List.filter_filter]
      congr 1
      apply List.filter_congr
      intro x _
      by_cases hx : x = c
      · subst hx
        simp
      · simp [hx, Finset.mem_insert]

theorem fresh_of_skip {E : Finset DexClass} {c : DexClass} (cs : List DexClass)
    (h : c ∈ E ∨ is_canary c = true) : fresh_of E (c :: cs) = fresh_of E cs := by
  simp only [fresh_of, if_pos h]

theorem fresh_of_fresh {E : Finset DexClass} {c : DexClass} (cs : List DexClass)
    (h : ¬ (c ∈ E ∨ is_canary c = true)) :
    fresh_of E (c :: cs) = c :: fresh_of (insert c E) cs := by
  simp only [fresh_of, if_neg h]

theorem fresh_of_append (E : Finset DexClass) (l1 l2 : List DexClass) :
    fresh_of E (l1 ++ l2) =
      fresh_of E l1 ++ fresh_of (E ∪ (fresh_of E l1).toFinset) l2 := by
  induction l1 generalizing E with
  | nil => simp [fresh_of]
  | cons c cs ih =>
    by_cases hskip : c ∈ E ∨ is_canary c = true
    · rw [List.cons_append, fresh_of_skip _ hskip, fresh_of_skip _ hskip, ih]
    · have hE : insert c E ∪ (fresh_of (insert c E) cs).toFinset
          = E ∪ (c :: fresh_of (insert c E) cs).toFinset := by
        ext x
        simp only [Finset.mem_union, Finset.mem_insert, List.mem_toFinset, List.mem_cons]
        tauto
      rw [List.cons_append, fresh_of_fresh _ hskip, fresh_of_fresh _ hskip, ih,
        List.cons_append, hE]

theorem placed_refl (env : Env) (det : dex_emit_tracker) (out : DexClassesVector) :
    Placed env det out det out [] :=
  { ext := ⟨[], by simp, by simp⟩
    emitted_eq := by simp
    lookup_eq := rfl }

theorem placed_trans {env : Env} {d1 d2 d3 : dex_emit_tracker} {o1 o2 o3 : DexClassesVector}
    {a1 a2 : List DexClass} (h12 : Placed env d1 o1 d2 o2 a1)
    (h23 : Placed env d2 o2 d3 o3 a2) : Placed env d1 o1 d3 o3 (a1 ++ a2) := by
  obtain ⟨t1, e1, s1⟩ := h12.ext
  obtain ⟨t2, e2, s2⟩ := h23.ext
  refine
    { ext := ⟨t1 ++ t2, by rw [e2, e1, List.append_assoc], ?_⟩
      emitted_eq := ?_
      lookup_eq := h23.lookup_eq.trans h12.lookup_eq }
  · rw [List.map_append, List.flatten_append, List.append_assoc, s2, ← List.append_assoc, s1,
      List.append_assoc]
  · rw [h23.emitted_eq, h12.emitted_eq, List.toFinset_append, Finset.union_assoc]

theorem flush_placed {env : Env} {d d' : dex_emit_tracker} {out out' : DexClassesVector}
    (hf : flush_out_secondary env d out = .ok (d', out')) : Placed env d out d' out' [] := by
  rcases flush_out_secondary_cases hf with ⟨_, hd, ho⟩ | ⟨_, hd, hout⟩
  · subst hd ho
    exact placed_refl env _ _
  · subst hd
    rcases hout with ⟨hoff, hout⟩ | ⟨hon, _, hout⟩
    · subst hout
      exact
        { ext := ⟨[d.outs], rfl, by simp [without_flush_canary, hoff, cleared]⟩
          emitted_eq := by simp [cleared]
          lookup_eq := rfl }
    · subst hout
      exact
        { ext := ⟨[d.outs ++ [find_canary env d out.length]], rfl,
            by simp [without_flush_canary, hon, cleared]⟩
          emitted_eq := by simp [cleared]
          lookup_eq := rfl }

theorem push_placed (env : Env) (d : dex_emit_tracker) (out : DexClassesVector)
    (c : DexClass) : Placed env d out (pushed env c d) out [c] :=
  { ext := ⟨[], by simp, by simp [pushed, gather_mrefs]⟩
    emitted_eq := by
      ext x
      simp only [pushed, gather_mrefs, Finset.mem_insert, Finset.mem_union,
        List.toFinset_cons, List.toFinset_nil, Finset.mem_singleton, insert_emptyc_eq]
      tauto
    lookup_eq := rfl }

theorem emit_placed {env : Env} {det det' : dex_emit_tracker} {out out' : DexClassesVector}
    {c : DexClass} (he : emit_class env det out c false = .ok (det', out')) :
    Placed env det out det' out' (fresh_of det.emitted [c]) := by
  rw [emit_class_eq] at he
  by_cases hskip : c ∈ det.emitted ∨ is_canary c = true
  · simp only [hskip, if_true, Except.ok.injEq, Prod.mk.injEq] at he
    obtain ⟨e1, e2⟩ := he
    subst e1 e2
    simp only [fresh_of, if_pos hskip]
    exact placed_refl env _ _
  · simp only [hskip, if_false] at he
    have hfr : fresh_of det.emitted [c] = [c] := by
      simp only [fresh_of, if_neg hskip]
    rw [hfr]
    by_cases hov : overflows env det c
    · simp only [hov, if_true, Bool.false_eq_true, if_false] at he
      cases hfl : flush_out_secondary env (gather_mrefs env c det) out with
      | error e => rw [hfl] at he; cases he
      | ok r =>
        obtain ⟨d2, o2⟩ := r
        rw [hfl] at he
        simp only [Except.ok.injEq, Prod.mk.injEq] at he
        obtain ⟨e1, e2⟩ := he
        subst e1 e2
        have p1 : Placed env det out (gather_mrefs env c det) out [] :=
          { ext := ⟨[], by simp, by simp [gather_mrefs]⟩
            emitted_eq := by simp [gather_mrefs]
            lookup_eq := rfl }
        have p2 := placed_trans (placed_trans p1 (flush_placed hfl)) (push_placed env d2 o2 c)
        simpa using p2
    · simp only [hov, if_false, Except.ok.injEq, Prod.mk.injEq] at he
      obtain ⟨e1, e2⟩ := he
      subst e1 e2
      exact push_placed env det out c

theorem emit_each_placed {env : Env} (l : List DexClass) :
    ∀ {det det' : dex_emit_tracker} {out out' : DexClassesVector},
      emit_each env false l det out = .ok (det', out') →
      Placed env det out det' out' (fresh_of det.emitted l) := by
  induction l with
  | nil =>
    intro det det' out out' he
    simp only [emit_each, Except.ok.injEq, Prod.mk.injEq] at he
    obtain ⟨e1, e2⟩ := he
    subst e1 e2
    exact placed_refl env _ _
  | cons c cs ih =>
    intro det det' out out' he
    simp only [emit_each] at he
    cases h1 : emit_class env det out c false with
    | error e => rw [h1] at he; cases he
    | ok r =>
      obtain ⟨d1, o1⟩ := r
      rw [h1] at he
      have p1 := emit_placed h1
      have p2 := ih he
      rw [p1.emitted_eq] at p2
      have := placed_trans p1 p2
      rw [← fresh_of_append] at this
      exact this

theorem offered_first_cons_none {m : CLookup} {U : Finset DexClass} {entry : String}
    (rest : List String) (h : m.find entry = none) :
    offered_first m U (entry :: rest) = offered_first m U rest := by
  simp [offered_first, resolved_coldstart, List.filterMap_cons, h]

theorem offered_first_cons_in {m : CLookup} {U : Finset DexClass} {entry : String}
    {c : DexClass} (rest : List String) (h : m.find entry = some c) (hu : c ∈ U) :
    offered_first m U (entry :: rest) = offered_first m U rest := by
  simp [offered_first, resolved_coldstart, List.filterMap_cons, h, hu]

theorem offered_first_cons_out {m : CLookup} {U : Finset DexClass} {entry : String}
    {c : DexClass} (rest : List String) (h : m.find entry = some c) (hu : c ∉ U) :
    offered_first m U (entry :: rest) = c :: offered_first m U rest := by
  simp [offered_first, resolved_coldstart, List.filterMap_cons, h, hu]

theorem offered_second_cons_none {m : CLookup} {U : Finset DexClass} {entry : String}
    (rest : List String) (h : m.find entry = none) :
    offered_second m U (entry :: rest) = offered_second m U rest := by
  simp [offered_second, resolved_coldstart, List.filterMap_cons, h]

theorem offered_second_cons_in {m : CLookup} {U : Finset DexClass} {entry : String}
    {c : DexClass} (rest : List String) (h : m.find entry = some c) (hu : c ∈ U) :
    offered_second m U (entry :: rest) = c :: offered_second m U rest := by
  simp [offered_second, resolved_coldstart, List.filterMap_cons, h, hu]

theorem offered_second_cons_out {m : CLookup} {U : Finset DexClass} {entry : String}
    {c : DexClass} (rest : List String) (h : m.find entry = some c) (hu : c ∉ U) :
    offered_second m U (entry :: rest) = offered_second m U rest := by
  simp [offered_second, resolved_coldstart, List.filterMap_cons, h, hu]

theorem emit_secondary_coldstart_placed {env : Env} {U : Finset DexClass} (l : List String) :
    ∀ {det det' : dex_emit_tracker} {out out' : DexClassesVector},
      emit_secondary_coldstart env U l det out = .ok (det', out') →
      Placed env det out det' out' (fresh_of det.emitted (offered_first det.clookup U l)) := by
  induction l with
  | nil =>
    intro det det' out out' he
    simp only [emit_secondary_coldstart, Except.ok.injEq, Prod.mk.injEq] at he
    obtain ⟨e1, e2⟩ := he
    subst e1 e2
    exact placed_refl env _ _
  | cons entry rest ih =>
    intro det det' out out' he
    simp only [emit_secondary_coldstart] at he
    cases hfind : det.clookup.find entry with
    | none =>
      rw [hfind] at he
      simp only at he
      rw [offered_first_cons_none rest hfind]
      by_cases hm : contains_substr entry.data "DexEndMarker".data = true
      · simp only [hm, if_true] at he
        cases hfl : flush_out_secondary env det out with
        | error e => rw [hfl] at he; cases he
        | ok r =>
          obtain ⟨d1, o1⟩ := r
          rw [hfl] at he
          have p1 := flush_placed hfl
          have p2 := ih he
          rw [p1.lookup_eq, p1.emitted_eq] at p2
          simpa using placed_trans p1 p2
      · simp only [hm, Bool.false_eq_true, if_false] at he
        exact ih he
    | some clazz =>
      rw [hfind] at he
      simp only at he
      by_cases hu : clazz ∈ U
      · simp only [hu, if_true] at he
        rw [offered_first_cons_in rest hfind hu]
        exact ih he
      · simp only [hu, if_false] at he
        rw [offered_first_cons_out rest hfind hu]
        cases h1 : emit_class env det out clazz false with
        | error e => rw [h1] at he; cases he
        | ok r =>
          obtain ⟨d1, o1⟩ := r
          rw [h1] at he
          have p1 := emit_placed h1
          have p2 := ih he
          rw [p1.lookup_eq, p1.emitted_eq] at p2
          have := placed_trans p1 p2
          rw [← fresh_of_append] at this
          exact this

theorem emit_unreferenced_placed {env : Env} {U : Finset DexClass} (l : List String) :
    ∀ {det det' : dex_emit_tracker} {out out' : DexClassesVector},
      emit_unreferenced env U l det out = .ok (det', out') →
      Placed env det out det' out'
        (fresh_of det.emitted (offered_second det.clookup U l)) := by
  induction l with
  | nil =>
    intro det det' out out' he
    simp only [emit_unreferenced, Except.ok.injEq, Prod.mk.injEq] at he
    obtain ⟨e1, e2⟩ := he
    subst e1 e2
    exact placed_refl env _ _
  | cons entry rest ih =>
    intro det det' out out' he
    simp only [emit_unreferenced] at he
    cases hfind : det.clookup.find entry with
    | none =>
      rw [hfind] at he
      rw [offered_second_cons_none rest hfind]
      exact ih he
    | some clazz =>
      rw [hfind] at he
      simp only at he
      by_cases hu : clazz ∈ U
      · simp only [hu, if_true] at he
        rw [offered_second_cons_in rest hfind hu]
        cases h1 : emit_class env det out clazz false with
        | error e => rw [h1] at he; cases he
        | ok r =>
          obtain ⟨d1, o1⟩ := r
          rw [h1] at he
          have p1 := emit_placed h1
          have p2 := ih he
          rw [p1.lookup_eq, p1.emitted_eq] at p2
          have := placed_trans p1 p2
          rw [← fresh_of_append] at this
          exact this
      · simp only [hu, if_false] at he
        rw [offered_second_cons_out rest hfind hu]
        exact ih he

theorem secondary_phase_placed {env : Env} {scope : Scope} {order : List String}
    {U : Finset DexClass} {det : dex_emit_tracker} {out out' : DexClassesVector}
    (he : secondary_phase env scope order U det out = .ok out') :
    ∃ det', det'.outs = [] ∧ Placed env { det with la_size := 0 } out det' out'
      (fresh_of det.emitted
        (offered_first det.clookup U order ++ offered_second det.clookup U order ++ scope)) := by
  unfold secondary_phase at he
  cases h1 : emit_secondary_coldstart env U order { det with la_size := 0 } out with
  | error e => rw [h1] at he; cases he
  | ok r1 =>
    obtain ⟨d1, o1⟩ := r1
    rw [h1] at he
    simp only [finish_secondary] at he
    have p1 := emit_secondary_coldstart_placed order h1
    cases h2 : emit_unreferenced env U order d1 o1 with
    | error e => rw [h2] at he; cases he
    | ok r2 =>
      obtain ⟨d2, o2⟩ := r2
      rw [h2] at he
      simp only at he
      have p2 := emit_unreferenced_placed order h2
      rw [p1.lookup_eq, p1.emitted_eq] at p2
      have p12 := placed_trans p1 p2
      rw [← fresh_of_append] at p12
      cases h3 : emit_each env false scope d2 o2 with
      | error e => rw [h3] at he; cases he
      | ok r3 =>
        obtain ⟨d3, o3⟩ := r3
        rw [h3] at he
        simp only at he
        have p3 := emit_each_placed scope h3
        rw [p12.emitted_eq] at p3
        have p13 := placed_trans p12 p3
        rw [← fresh_of_append] at p13
        by_cases hne : d3.outs.length ≠ 0
        · rw [if_pos hne] at he
          cases h4 : flush_out_secondary env d3 o3 with
          | error e => rw [h4] at he; cases he
          | ok r4 =>
            obtain ⟨d4, o4⟩ := r4
            rw [h4] at he
            simp only [Except.ok.injEq] at he
            subst he
            have hne' : d3.outs ≠ [] := fun e => hne (by rw [e]; rfl)
            have hd4 : d4 = cleared d3 := by
              rcases flush_out_secondary_cases h4 with ⟨h0, _, _⟩ | ⟨_, hd, _⟩
              · exact absurd h0 hne'
              · exact hd
            refine ⟨d4, by rw [hd4]; rfl, ?_⟩
            simpa using placed_trans p13 (flush_placed h4)
        · have hz : d3.outs = [] := List.length_eq_zero.1 (not_not.1 hne)
          rw [if_neg hne] at he
          simp only [Except.ok.injEq] at he
          subst he
          exact ⟨d3, hz, p13⟩

/-- The order of the secondary classes, with the canary test as the code
computes it: the secondary output containers of a completed run, each without
the canary its flush appended, concatenate to the resolved cold-start classes
outside `U`, then those inside `U`, then all input classes, reduced to the first
occurrence of each class that `is_canary` rejects and that, when the primary is
fixed, is not in input container 0. -/
theorem secondary_order_by_is_canary {env : Env} {dexen : DexClassesVector}
    {order : List String} {U : Finset DexClass} {normal : Bool} {out : DexClassesVector}
    (he : run_interdex_from env dexen order U normal = .ok out) :
    ((out.drop (if normal = true then 0 else 1)).map (without_flush_canary env)).flatten =
      secondary_sequence is_canary U dexen order normal := by
  unfold run_interdex_from at he
  simp only [build_class_scope] at he
  unfold secondary_sequence
  simp only
  cases normal with
  | true =>
    simp only [Bool.not_true, Bool.false_eq_true, if_false] at he
    obtain ⟨d', hz, p⟩ := secondary_phase_placed he
    obtain ⟨tail, hout, hs⟩ := p.ext
    rw [hz] at hs
    simp only [List.append_nil] at hs
    have hnil : ({ dex_emit_tracker.empty with
        clookup := build_clookup dexen.flatten, la_size := 0 } : dex_emit_tracker).outs
        = [] := rfl
    rw [hnil, List.nil_append] at hs
    simp only [List.nil_append] at hout
    subst hout
    simp only [if_true, List.drop_zero]
    rw [hs, fresh_of_eq]
    congr 1
  | false =>
    simp only [Bool.not_false, if_true] at he
    cases hp : primary_phase env dexen order U
        { dex_emit_tracker.empty with clookup := build_clookup dexen.flatten } [] with
    | error e => rw [hp] at he; cases he
    | ok r =>
      obtain ⟨d0, o0⟩ := r
      rw [hp] at he
      simp only at he
      obtain ⟨pd, rest, outs, hdex, ho0, hd0, _⟩ := primary_phase_ok hp
      subst ho0 hd0
      obtain ⟨d', hz, p⟩ := secondary_phase_placed he
      obtain ⟨tail, hout, hs⟩ := p.ext
      rw [hz] at hs
      simp only [List.append_nil] at hs
      have hnil : ({ record_emitted pd { dex_emit_tracker.empty with
          clookup := build_clookup dexen.flatten } with la_size := 0 } : dex_emit_tracker).outs
          = [] := rfl
      rw [hnil, List.nil_append] at hs
      subst hout
      have hhead : dexen.headD [] = pd := by rw [hdex]; rfl
      simp only [Bool.false_eq_true, if_false, List.singleton_append, List.drop_succ_cons,
        List.drop_zero]
      rw [hs, fresh_of_eq, hhead]
      congr 1
      apply List.filter_congr
      intro c _
      have hiff := mem_record_emitted pd { dex_emit_tracker.empty with
        clookup := build_clookup dexen.flatten } c
      have hE : ¬ c ∈ ({ dex_emit_tracker.empty with
        clookup := build_clookup dexen.flatten } : dex_emit_tracker).emitted :=
        Finset.not_mem_empty c
      by_cases hc : c ∈ pd
      · have : c ∈ (record_emitted pd { dex_emit_tracker.empty with
            clookup := build_clookup dexen.flatten }).emitted := hiff.2 (Or.inr hc)
        simp [this, hc]
      · have : c ∉ (record_emitted pd { dex_emit_tracker.empty with
            clookup := build_clookup dexen.flatten }).emitted := by
          intro hm
          rcases hiff.1 hm with h1 | h1
          · exact hE h1
          · exact hc h1
        simp [this, hc]

theorem has_canary_prefix_of_name {c : DexClass} {n : Nat} (h : c.name = canary_name n) :
    has_canary_prefix c = true := by
  unfold has_canary_prefix
  rw [h, List.isPrefixOf_iff_prefix]
  exact ⟨fmt02d n ++ "/Canary;".data, by simp [canary_name, kCanaryPrefix]⟩

/-- Conservation, with the canary test as the code computes it: every input
class that `is_canary` rejects is in some output container of a completed run,
and every class of an output container is an input class or has a name
beginning with `Lsecondary/dex`. -/
theorem conservation_by_is_canary {env : Env} {dexen : DexClassesVector}
    {order : List String} {U : Finset DexClass} {normal : Bool} {out : DexClassesVector}
    (he : run_interdex_from env dexen order U normal = .ok out) :
    (∀ c ∈ dexen.flatten, is_canary c = false → c ∈ out.flatten) ∧
    (∀ c ∈ out.flatten, c ∈ dexen.flatten ∨ has_canary_prefix c = true) := by
  obtain ⟨_, _, _, _, _, _, _, _, h1, h2⟩ := run_interdex_from_ok he
  constructor
  · intro c hc hcan
    rcases h1 c hc with h | h
    · rw [hcan] at h
      cases h
    · exact h
  · intro c hc
    rcases h2 c hc with h | ⟨_, i, _, hn⟩
    · exact Or.inl h.1
    · exact Or.inr (has_canary_prefix_of_name hn)

/-! ## Overflow of the primary container -/

theorem mem_keep_first (l : List DexClass) (c : DexClass) : c ∈ keep_first l ↔ c ∈ l := by
  induction l with
  | nil => simp [keep_first]
  | cons a l ih =>
    simp only [keep_first, List.mem_cons, List.mem_filter, ih, decide_eq_true_eq]
    by_cases h : c = a
    · simp [h]
    · simp [h]

theorem keep_first_nodup (l : List DexClass) : (keep_first l).Nodup := by
  induction l with
  | nil => exact List.nodup_nil
  | cons a l ih =>
    simp only [keep_first, List.nodup_cons, List.mem_filter, decide_eq_true_eq]
    exact ⟨fun h => h.2 rfl, ih.filter _⟩

theorem la_sum_le_of_subset {env : Env} (hnn : ∀ c, 0 ≤ env.estimate_linear_alloc c)
    {l1 l2 : List DexClass} (hd : l1.Nodup) (hs : l1 ⊆ l2) : la_sum env l1 ≤ la_sum env l2 := by
  obtain ⟨l, hp, hsub⟩ := List.subperm_of_subset hd hs
  unfold la_sum
  rw [← (hp.map env.estimate_linear_alloc).sum_eq]
  apply List.Sublist.sum_le_sum (hsub.map env.estimate_linear_alloc)
  intro a ha
  obtain ⟨c, _, hc⟩ := List.mem_map.1 ha
  rw [← hc]
  exact hnn c

theorem mrefs_of_subset (env : Env) {l1 l2 : List DexClass} (hs : l1 ⊆ l2) :
    mrefs_of env l1 ⊆ mrefs_of env l2 := by
  intro x hx
  simp only [mrefs_of, List.mem_toFinset, List.mem_flatMap] at hx ⊢
  obtain ⟨c, hc, hxc⟩ := hx
  exact ⟨c, hs hc, hxc⟩

theorem frefs_of_subset (env : Env) {l1 l2 : List DexClass} (hs : l1 ⊆ l2) :
    frefs_of env l1 ⊆ frefs_of env l2 := by
  intro x hx
  simp only [frefs_of, List.mem_toFinset, List.mem_flatMap] at hx ⊢
  obtain ⟨c, hc, hxc⟩ := hx
  exact ⟨c, hs hc, hxc⟩

theorem within_limits_of_subset {env : Env} (hnn : ∀ c, 0 ≤ env.estimate_linear_alloc c)
    {l1 l2 : List DexClass} (hd : l1.Nodup) (hs : l1 ⊆ l2) (h : within_limits env l2) :
    within_limits env l1 :=
  ⟨(la_sum_le_of_subset hnn hd hs).trans h.1,
    lt_of_le_of_lt (Finset.card_le_card (mrefs_of_subset env hs)) h.2.1,
    lt_of_le_of_lt (Finset.card_le_card (frefs_of_subset env hs)) h.2.2⟩

theorem emit_primary_total {env : Env} (hb : estimates_bounded env)
    {S : List DexClass} {det : dex_emit_tracker} {out : DexClassesVector} {c : DexClass}
    (h : Inv env det out) (hp : PrimaryInv env S det) (hc : c ∈ S)
    (hw : within_limits env (keep_first (S.filter (fun c => !is_canary c)))) :
    ∃ r, emit_class env det out c true = .ok r := by
  rw [emit_class_eq]
  by_cases hskip : c ∈ det.emitted ∨ is_canary c = true
  · exact ⟨_, if_pos hskip⟩
  · rw [if_neg hskip]
    have hE : c ∉ det.emitted := fun hm => hskip (Or.inl hm)
    have hcan : is_canary c = false := by
      cases hb : is_canary c
      · rfl
      · exact absurd (Or.inr hb) hskip
    have hnd : (det.outs ++ [c]).Nodup := by
      rw [nodup_snoc]
      exact ⟨fun hm => hE (h.outs_ok c hm).1, (List.nodup_append.1 h.nodup).2.1⟩
    have hsub : det.outs ++ [c] ⊆ keep_first (S.filter (fun c => !is_canary c)) := by
      intro d hd
      rw [mem_keep_first, List.mem_filter]
      rcases List.mem_append.1 hd with h1 | h1
      · exact ⟨hp.from_dex d h1, by simp [(h.outs_ok d h1).2]⟩
      · have : d = c := by simpa using h1
        rw [this]
        exact ⟨hc, by simp [hcan]⟩
    have hfit := within_limits_of_subset (fun c => (hb c).1) hnd hsub hw
    have hno : ¬ overflows env det c := by
      unfold overflows
      simp only [not_or, not_lt, ge_iff_le, not_le]
      refine ⟨?_, ?_, ?_⟩
      · have := hfit.1
        rw [la_sum_snoc, ← h.la_eq hb] at this
        show int_add det.la_size (env.estimate_linear_alloc c) ≤ kMaxLinearAlloc env
        rw [int_add_exact hb h]
        exact this
      · have := hfit.2.1
        rw [mrefs_of_snoc, ← h.mrefs_eq] at this
        exact this
      · have := hfit.2.2
        rw [frefs_of_snoc, ← h.frefs_eq] at this
        exact this
    exact ⟨_, if_neg hno⟩

theorem emit_each_primary_total {env : Env} (hb : estimates_bounded env)
    {S : List DexClass}
    (hw : within_limits env (keep_first (S.filter (fun c => !is_canary c))))
    (l : List DexClass) :
    ∀ {det : dex_emit_tracker} {out : DexClassesVector}, Inv env det out →
      PrimaryInv env S det → (∀ c ∈ l, c ∈ S) →
      ∃ r, emit_each env true l det out = .ok r := by
  induction l with
  | nil =>
    intro det out _ _ _
    exact ⟨_, rfl⟩
  | cons c cs ih =>
    intro det out h hp hl
    obtain ⟨⟨d1, o1⟩, h1⟩ := emit_primary_total hb h hp (hl c (List.mem_cons_self _ _)) hw
    obtain ⟨_, i1, p1, _, _⟩ := primary_step h hp (hl c (List.mem_cons_self _ _)) h1
    obtain ⟨r, hr⟩ := ih i1 p1 (fun x hx => hl x (List.mem_cons_of_mem _ hx))
    refine ⟨r, ?_⟩
    simp only [emit_each, h1]
    exact hr

theorem emit_primary_coldstart_total {env : Env}
    (hb : estimates_bounded env) {S : List DexClass} {U : Finset DexClass}
    (hw : within_limits env (keep_first (S.filter (fun c => !is_canary c))))
    (l : List String) :
    ∀ {det : dex_emit_tracker} {out : DexClassesVector}, Inv env det out →
      PrimaryInv env S det →
      ∃ r, emit_primary_coldstart env U l det out = .ok r := by
  induction l with
  | nil =>
    intro det out _ _
    exact ⟨_, rfl⟩
  | cons entry rest ih =>
    intro det out h hp
    simp only [emit_primary_coldstart]
    cases hfind : det.clookup.find entry with
    | none => exact ih h hp
    | some clazz =>
      simp only
      by_cases hu : clazz ∈ U
      · rw [if_pos hu]
        exact ih h hp
      · rw [if_neg hu]
        obtain ⟨⟨d1, o1⟩, h1⟩ := emit_primary_total hb h hp (hp.lookup_dex _ _ hfind) hw
        obtain ⟨_, i1, p1, _, _⟩ := primary_step h hp (hp.lookup_dex _ _ hfind) h1
        rw [h1]
        exact ih i1 p1

/-- Overflow of the primary container, with the canary test as the code
computes it: for estimates between `0` and `2^30 - 1` the primary branch fails
exactly when
the classes of input container 0 that `is_canary` rejects, each counted once,
exceed a capacity limit. -/
theorem primary_overflow_by_is_canary {env : Env}
    (hb : estimates_bounded env) (primary_dex : DexClasses)
    (rest : DexClassesVector) (order : List String) (U : Finset DexClass)
    (det : dex_emit_tracker) :
    (∃ e, primary_phase env (primary_dex :: rest) order U det [] = .error e) ↔
      ¬ within_limits env (keep_first (primary_dex.filter (fun c => !is_canary c))) := by
  constructor
  · rintro ⟨e, herr⟩ hw
    have hinv0 : Inv env { dex_emit_tracker.empty with
        clookup := build_clookup primary_dex, la_size := 0 } [] :=
      Inv.empty env _ (fun p hp => (build_clookup_wf primary_dex p hp).1)
    have hp0 : PrimaryInv env primary_dex { dex_emit_tracker.empty with
        clookup := build_clookup primary_dex, la_size := 0 } :=
      { emitted_outs := fun c hc => by cases hc
        within := fun _ => within_limits_nil env
        from_dex := fun c hc => absurd hc (List.not_mem_nil c)
        lookup_dex := fun k c hk => (build_clookup_find hk).2 }
    obtain ⟨⟨d1, o1⟩, h1⟩ := emit_primary_coldstart_total (U := U) hb hw order hinv0 hp0
    obtain ⟨_, i1, p1⟩ := emit_primary_coldstart_keeps order hinv0 hp0 h1
    obtain ⟨⟨d2, o2⟩, h2⟩ := emit_each_primary_total hb hw primary_dex i1 p1 (fun _ h => h)
    simp only [primary_phase, h1, h2] at herr
    cases herr
  · intro hw
    cases hp : primary_phase env (primary_dex :: rest) order U det [] with
    | ok r =>
      exfalso
      apply hw
      obtain ⟨d', o'⟩ := r
      obtain ⟨pd, rs, outs, hdex, _, _, hnd, hwl, hsub, hsup⟩ := primary_phase_ok hp
      simp only [List.cons.injEq] at hdex
      obtain ⟨e1, _⟩ := hdex
      subst e1
      refine within_limits_of_subset (fun c => (hb c).1) (keep_first_nodup _) ?_ (hwl hb)
      intro c hc
      rw [mem_keep_first, List.mem_filter] at hc
      exact hsup c hc.1 (by simpa using hc.2)
    | error e => exact ⟨e, rfl⟩

/-! ## The pruner -/

theorem prune_loop_zero {env : Env} {scope : Scope} {cold : List DexClass} {old new : Int}
    {I : Scope} {U : Finset DexClass} (h : old ≠ new) :
    prune_loop env scope cold 0 old new I U = none := by
  simp only [prune_loop, if_neg h]

theorem prune_loop_succ {env : Env} {scope : Scope} {cold : List DexClass} {old new : Int}
    {I : Scope} {U : Finset DexClass} (fuel : Nat) (h : old ≠ new) :
    prune_loop env scope cold (fuel + 1) old new I U =
      prune_loop env scope cold fuel new
        (partition_coldstart env (cold_cold_references env scope cold I) cold
          { new_no_ref := 0, unreferenced_classes := U, output_scope := [] }).new_no_ref
        (partition_coldstart env (cold_cold_references env scope cold I) cold
          { new_no_ref := 0, unreferenced_classes := U, output_scope := [] }).output_scope
        (partition_coldstart env (cold_cold_references env scope cold I) cold
          { new_no_ref := 0, unreferenced_classes := U, output_scope := [] }).unreferenced_classes
    := by
  simp only [prune_loop, if_neg h]

theorem prune_loop_done {env : Env} {scope : Scope} {cold : List DexClass} {new : Int}
    {I : Scope} {U : Finset DexClass} (fuel : Nat) :
    prune_loop env scope cold fuel new new I U = some U := by
  cases fuel <;> simp only [prune_loop, if_true]

/-! ## Order of the classes in the primary container -/

theorem emit_primary_placed {env : Env} {det det' : dex_emit_tracker}
    {out out' : DexClassesVector} {c : DexClass}
    (he : emit_class env det out c true = .ok (det', out')) :
    out' = out ∧ det'.outs = det.outs ++ fresh_of det.emitted [c] ∧
      det'.emitted = det.emitted ∪ (fresh_of det.emitted [c]).toFinset ∧
      det'.clookup = det.clookup := by
  obtain ⟨ho, h | h⟩ := emit_primary_cases he
  · obtain ⟨hd, hs⟩ := h
    rw [fresh_of_skip [] hs]
    subst hd
    simp [fresh_of, ho]
  · obtain ⟨hd, h1, h2, _⟩ := h
    have hs : ¬ (c ∈ det.emitted ∨ is_canary c = true) := by
      rintro (h | h)
      · exact h1 h
      · rw [h2] at h
        cases h
    rw [fresh_of_fresh [] hs]
    subst hd
    refine ⟨ho, ?_, ?_, ?_⟩
    · simp [pushed, gather_mrefs, fresh_of]
    · simp only [pushed, gather_mrefs, fresh_of, List.toFinset_cons, List.toFinset_nil]
      ext x
      simp only [Finset.mem_insert, Finset.mem_union, Finset.not_mem_empty, or_false]
      tauto
    · rfl

theorem emit_each_primary_placed {env : Env} (l : List DexClass) :
    ∀ {det det' : dex_emit_tracker} {out out' : DexClassesVector},
      emit_each env true l det out = .ok (det', out') →
      out' = out ∧ det'.outs = det.outs ++ fresh_of det.emitted l ∧
        det'.emitted = det.emitted ∪ (fresh_of det.emitted l).toFinset ∧
        det'.clookup = det.clookup := by
  induction l with
  | nil =>
    intro det det' out out' he
    simp only [emit_each, Except.ok.injEq, Prod.mk.injEq] at he
    obtain ⟨e1, e2⟩ := he
    subst e1 e2
    simp [fresh_of]
  | cons c rest ih =>
    intro det det' out out' he
    simp only [emit_each] at he
    cases h1 : emit_class env det out c true with
    | error e => rw [h1] at he; cases he
    | ok r =>
      obtain ⟨d1, o1⟩ := r
      rw [h1] at he
      simp only at he
      obtain ⟨a1, a2, a3, a4⟩ := emit_primary_placed h1
      obtain ⟨b1, b2, b3, b4⟩ := ih he
      have hsplit := fresh_of_append det.emitted [c] rest
      simp only [List.singleton_append] at hsplit
      rw [hsplit, ← a3]
      refine ⟨by rw [b1, a1], ?_, ?_, by rw [b4, a4]⟩
      · rw [b2, a2, List.append_assoc]
      · rw [b3, List.toFinset_append, ← Finset.union_assoc, ← a3]

theorem emit_primary_coldstart_placed {env : Env} {U : Finset DexClass} (l : List String) :
    ∀ {det det' : dex_emit_tracker} {out out' : DexClassesVector},
      emit_primary_coldstart env U l det out = .ok (det', out') →
      out' = out ∧ det'.outs = det.outs ++ fresh_of det.emitted (offered_first det.clookup U l) ∧
        det'.emitted = det.emitted ∪
          (fresh_of det.emitted (offered_first det.clookup U l)).toFinset ∧
        det'.clookup = det.clookup := by
  induction l with
  | nil =>
    intro det det' out out' he
    simp only [emit_primary_coldstart, Except.ok.injEq, Prod.mk.injEq] at he
    obtain ⟨e1, e2⟩ := he
    subst e1 e2
    simp [offered_first, resolved_coldstart, fresh_of]
  | cons entry rest ih =>
    intro det det' out out' he
    simp only [emit_primary_coldstart] at he
    cases hf : det.clookup.find entry with
    | none =>
      rw [hf] at he
      simp only at he
      rw [offered_first_cons_none rest hf]
      exact ih he
    | some c =>
      rw [hf] at he
      simp only at he
      by_cases hu : c ∈ U
      · rw [if_pos hu] at he
        rw [offered_first_cons_in rest hf hu]
        exact ih he
      · rw [if_neg hu] at he
        cases h1 : emit_class env det out c true with
        | error e => rw [h1] at he; cases he
        | ok r =>
          obtain ⟨d1, o1⟩ := r
          rw [h1] at he
          simp only at he
          obtain ⟨a1, a2, a3, a4⟩ := emit_primary_placed h1
          obtain ⟨b1, b2, b3, b4⟩ := ih he
          rw [offered_first_cons_out rest hf hu]
          have hsplit := fresh_of_append det.emitted [c] (offered_first det.clookup U rest)
          simp only [List.singleton_append] at hsplit
          rw [hsplit, ← a3, ← a4]
          refine ⟨by rw [b1, a1], ?_, ?_, by rw [b4]⟩
          · rw [b2, a2, List.append_assoc]
          · rw [b3, List.toFinset_append, ← Finset.union_assoc, ← a3]

/-- Order of the primary container, with the canary test as the code computes
it: in a completed run with `normal_primary_dex = false`, output container 0 is
the sequence of the cold-start classes resolved in input container 0 and not
pruned, followed by the classes of input container 0, keeping the first
occurrence of each class that `is_canary` rejects. -/
theorem primary_order_by_is_canary {env : Env} {primary_dex : DexClasses}
    {rest : DexClassesVector} {order : List String} {U : Finset DexClass}
    {out : DexClassesVector}
    (he : run_interdex_from env (primary_dex :: rest) order U false = .ok out) :
    out[0]? = some (primary_sequence is_canary U primary_dex order) := by
  unfold run_interdex_from at he
  simp only [build_class_scope, Bool.not_false, if_true] at he
  cases hp : primary_phase env (primary_dex :: rest) order U
      { dex_emit_tracker.empty with clookup := build_clookup (primary_dex :: rest).flatten } []
    with
  | error e => rw [hp] at he; cases he
  | ok r =>
    obtain ⟨d0, o0⟩ := r
    rw [hp] at he
    simp only at he
    obtain ⟨_, _, p⟩ := secondary_phase_placed he
    obtain ⟨tail, hout, _⟩ := p.ext
    unfold primary_phase at hp
    simp only at hp
    cases h1 : emit_primary_coldstart env U order
        { dex_emit_tracker.empty with clookup := build_clookup primary_dex, la_size := 0 } [] with
    | error e => rw [h1] at hp; cases hp
    | ok r1 =>
      obtain ⟨d1, o1⟩ := r1
      rw [h1] at hp
      simp only at hp
      cases h2 : emit_each env true primary_dex d1 o1 with
      | error e => rw [h2] at hp; cases hp
      | ok r2 =>
        obtain ⟨d2, o2⟩ := r2
        rw [h2] at hp
        simp only [Except.ok.injEq, Prod.mk.injEq] at hp
        obtain ⟨a1, a2, a3, a4⟩ := emit_primary_coldstart_placed order h1
        obtain ⟨b1, b2, b3, _⟩ := emit_each_primary_placed primary_dex h2
        have ho0 : o0 = [d2.outs] := by
          rw [← hp.2, b1, a1]
          rfl
        have hE : ({ dex_emit_tracker.empty with
            clookup := build_clookup primary_dex, la_size := 0 } : dex_emit_tracker).emitted
            = ∅ := rfl
        have hO : ({ dex_emit_tracker.empty with
            clookup := build_clookup primary_dex, la_size := 0 } : dex_emit_tracker).outs
            = [] := rfl
        have hL : ({ dex_emit_tracker.empty with
            clookup := build_clookup primary_dex, la_size := 0 } : dex_emit_tracker).clookup
            = build_clookup primary_dex := rfl
        rw [hE, hL] at a3
        rw [hE, hO, hL, List.nil_append] at a2
        rw [a3, a2] at b2
        have hseq : d2.outs = primary_sequence is_canary U primary_dex order := by
          unfold primary_sequence
          rw [b2, ← fresh_of_append, fresh_of_eq]
          congr 1
          apply List.filter_congr
          intro c _
          simp
        rw [hout, ho0, hseq]
        simp

/-! ## The second attempt of `run_pass` -/

theorem type_class_registered (env : Env) (extra : List DexClass) (t : String) :
    type_class (registered env extra) t = type_class env t ∨
      (type_class env t = none ∧ ∃ x ∈ extra, type_class (registered env extra) t = some x ∧
        x.name = t) := by
  unfold type_class registered
  simp only [List.find?_append]
  cases h : env.classes.find? (fun c => c.name == t) with
  | some c => left; rfl
  | none =>
    simp only [Option.none_or]
    cases h2 : extra.find? (fun c => c.name == t) with
    | none => left; rfl
    | some x =>
      right
      exact ⟨trivial, x, List.mem_of_find?_eq_some h2, rfl, by simpa using List.find?_some h2⟩

theorem find_canary_registered (env : Env) (extra : List DexClass)
    (h1 : ∀ x ∈ extra, x = create_canary x.name) (det : dex_emit_tracker) (n : Nat) :
    find_canary (registered env extra) det n = find_canary env det n := by
  unfold find_canary
  cases det.clookup.find (canary_name n) with
  | some c => rfl
  | none =>
    simp only
    rcases type_class_registered env extra (canary_name n) with h | ⟨hn, x, hx, hs, hname⟩
    · rw [h]
    · rw [hs, hn]
      simp only
      rw [h1 x hx, hname]

theorem flush_out_secondary_registered (env : Env) (extra : List DexClass)
    (h1 : ∀ x ∈ extra, x = create_canary x.name) (det : dex_emit_tracker)
    (out : DexClassesVector) :
    flush_out_secondary (registered env extra) det out = flush_out_secondary env det out := by
  unfold flush_out_secondary
  rw [find_canary_registered env extra h1]
  rfl

theorem emit_class_registered (env : Env) (extra : List DexClass)
    (h1 : ∀ x ∈ extra, x = create_canary x.name) (det : dex_emit_tracker)
    (out : DexClassesVector) (c : DexClass) (p : Bool) :
    emit_class (registered env extra) det out c p = emit_class env det out c p := by
  unfold emit_class
  simp only [flush_out_secondary_registered env extra h1]
  rfl

theorem emit_each_registered (env : Env) (extra : List DexClass)
    (h1 : ∀ x ∈ extra, x = create_canary x.name) (p : Bool) (l : List DexClass) :
    ∀ (det : dex_emit_tracker) (out : DexClassesVector),
      emit_each (registered env extra) p l det out = emit_each env p l det out := by
  induction l with
  | nil => intro det out; rfl
  | cons c rest ih =>
    intro det out
    simp only [emit_each, emit_class_registered env extra h1]
    cases emit_class env det out c p with
    | error e => rfl
    | ok r =>
      obtain ⟨d, o⟩ := r
      exact ih d o

theorem emit_primary_coldstart_registered (env : Env) (extra : List DexClass)
    (h1 : ∀ x ∈ extra, x = create_canary x.name) (U : Finset DexClass) (l : List String) :
    ∀ (det : dex_emit_tracker) (out : DexClassesVector),
      emit_primary_coldstart (registered env extra) U l det out
        = emit_primary_coldstart env U l det out := by
  induction l with
  | nil => intro det out; rfl
  | cons s rest ih =>
    intro det out
    simp only [emit_primary_coldstart, emit_class_registered env extra h1]
    cases det.clookup.find s with
    | none => exact ih det out
    | some c =>
      simp only
      by_cases hu : c ∈ U
      · rw [if_pos hu, if_pos hu]
        exact ih det out
      · rw [if_neg hu, if_neg hu]
        cases emit_class env det out c true with
        | error e => rfl
        | ok r =>
          obtain ⟨d, o⟩ := r
          exact ih d o

theorem emit_secondary_coldstart_registered (env : Env) (extra : List DexClass)
    (h1 : ∀ x ∈ extra, x = create_canary x.name) (U : Finset DexClass) (l : List String) :
    ∀ (det : dex_emit_tracker) (out : DexClassesVector),
      emit_secondary_coldstart (registered env extra) U l det out
        = emit_secondary_coldstart env U l det out := by
  induction l with
  | nil => intro det out; rfl
  | cons s rest ih =>
    intro det out
    simp only [emit_secondary_coldstart, emit_class_registered env extra h1,
      flush_out_secondary_registered env extra h1]
    cases det.clookup.find s with
    | none =>
      simp only
      by_cases hm : contains_substr s.data "DexEndMarker".data = true
      · rw [if_pos hm, if_pos hm]
        cases flush_out_secondary env det out with
        | error e => rfl
        | ok r =>
          obtain ⟨d, o⟩ := r
          exact ih d o
      · rw [if_neg hm, if_neg hm]
        exact ih det out
    | some c =>
      simp only
      by_cases hu : c ∈ U
      · rw [if_pos hu, if_pos hu]
        exact ih det out
      · rw [if_neg hu, if_neg hu]
        cases emit_class env det out c false with
        | error e => rfl
        | ok r =>
          obtain ⟨d, o⟩ := r
          exact ih d o

theorem emit_unreferenced_registered (env : Env) (extra : List DexClass)
    (h1 : ∀ x ∈ extra, x = create_canary x.name) (U : Finset DexClass) (l : List String) :
    ∀ (det : dex_emit_tracker) (out : DexClassesVector),
      emit_unreferenced (registered env extra) U l det out
        = emit_unreferenced env U l det out := by
  induction l with
  | nil => intro det out; rfl
  | cons s rest ih =>
    intro det out
    simp only [emit_unreferenced, emit_class_registered env extra h1]
    cases det.clookup.find s with
    | none => exact ih det out
    | some c =>
      simp only
      by_cases hu : c ∈ U
      · rw [if_pos hu, if_pos hu]
        cases emit_class env det out c false with
        | error e => rfl
        | ok r =>
          obtain ⟨d, o⟩ := r
          exact ih d o
      · rw [if_neg hu, if_neg hu]
        exact ih det out

theorem run_interdex_from_registered (env : Env) (extra : List DexClass)
    (h1 : ∀ x ∈ extra, x = create_canary x.name) (dexen : DexClassesVector)
    (order : List String) (U : Finset DexClass) (normal : Bool) :
    run_interdex_from (registered env extra) dexen order U normal
      = run_interdex_from env dexen order U normal := by
  unfold run_interdex_from primary_phase secondary_phase finish_secondary
  simp only [emit_each_registered env extra h1, emit_primary_coldstart_registered env extra h1,
    emit_secondary_coldstart_registered env extra h1, emit_unreferenced_registered env extra h1,
    flush_out_secondary_registered env extra h1]

/-! ## Properties of a completed run -/

theorem run_interdex_some {env : Env} {fuel : Nat} {dexen : DexClassesVector}
    {order : List String} {allow prune normal : Bool} {r : Except Fatal DexClassesVector}
    (h : run_interdex env fuel dexen order allow prune normal = some r) :
    ∃ U, find_unrefenced_coldstart_classes env fuel (build_class_scope dexen)
        { dex_emit_tracker.empty with clookup := build_clookup dexen.flatten } order prune
        = some U ∧ r = run_interdex_from env dexen order U normal := by
  unfold run_interdex at h
  simp only at h
  cases hU : find_unrefenced_coldstart_classes env fuel (build_class_scope dexen)
      { dex_emit_tracker.empty with clookup := build_clookup dexen.flatten } order prune with
  | none => rw [hU] at h; cases h
  | some U =>
    rw [hU] at h
    simp only [Option.some.injEq] at h
    exact ⟨U, rfl, h.symm⟩

theorem IdxAll_getElem? (P : Nat → DexClasses → Prop) (n : Nat) (a : DexClassesVector)
    (h : IdxAll P n a) (i : Nat) (x : DexClasses) (hx : a[i]? = some x) : P (n + i) x := by
  induction a generalizing n i with
  | nil => simp at hx
  | cons y ys ih =>
    cases i with
    | zero =>
      simp only [List.getElem?_cons_zero, Option.some.injEq] at hx
      subst hx
      exact h.1
    | succ j =>
      simp only [List.getElem?_cons_succ] at hx
      have := ih (n + 1) h.2 j hx
      have e : n + 1 + j = n + (j + 1) := by omega
      rw [e] at this
      exact this

/-- C2: in the result of a completed `run_interdex` no class handle occurs more
than once, neither twice inside one output container nor in two different
output containers (primary classes and flush canaries included): the
concatenation of all output containers has no duplicates. -/
theorem run_interdex_no_duplicates (env : Env) (fuel : Nat) (dexen : DexClassesVector)
    (interdexorder : List String) (allow_cutting_off_dex static_prune_classes
      normal_primary_dex : Bool) (out : DexClassesVector)
    (h : run_interdex env fuel dexen interdexorder allow_cutting_off_dex static_prune_classes
      normal_primary_dex = some (.ok out)) :
    out.flatten.Nodup := by
  obtain ⟨U, _, hr⟩ := run_interdex_some h
  obtain ⟨prim, tail, d', _, hinv, hz, _⟩ := run_interdex_from_ok hr.symm
  have := hinv.nodup
  rw [hz] at this
  simpa using this

theorem run_interdex_no_duplicates_witness :
    ([[plain_class "LA;"],
      [plain_class "LC;", plain_class "LB;", plain_class "Lsecondary/dex01/Canary;"]] :
        DexClassesVector).flatten.Nodup :=
  run_interdex_no_duplicates (sample_env true 1) 1
    [[plain_class "LA;", plain_class "Lsecondary/dex01/Canary;"],
      [plain_class "LB;", plain_class "LC;"]]
    ["LC;"] true false false _ (by decide)

theorem has_canary_prefix_is_canary {c : DexClass} (h : has_canary_prefix c = true) :
    is_canary c = true := by
  unfold has_canary_prefix at h
  rw [List.isPrefixOf_iff_prefix] at h
  obtain ⟨t, ht⟩ := h
  unfold is_canary
  rw [← ht]
  rfl

theorem canary_pattern_is_canary {c : DexClass} (h : canary_pattern c.name) :
    is_canary c = true := by
  obtain ⟨d1, d2, hd⟩ := h
  unfold is_canary
  rw [hd]
  rfl

theorem canary_name_digits {i : Nat} (hi : i ≤ kMaxDexNum) :
    (canary_name i).data = "Lsecondary/dex".data ++
      [Nat.digitChar (i / 10), Nat.digitChar (i % 10)] ++ "/Canary;".data := by
  unfold kMaxDexNum at hi
  unfold canary_name
  rw [fmt02d_digits i (by omega)]

theorem sealed_of_run {env : Env} {dexen : DexClassesVector} {order : List String}
    {U : Finset DexClass} {normal : Bool} {out : DexClassesVector}
    (he : run_interdex_from env dexen order U normal = .ok out) (i : Nat) (x : DexClasses)
    (hx : out[i]? = some x) (hi : normal = false → 1 ≤ i) : Sealed env i x := by
  obtain ⟨prim, tail, d', hout, _, _, hs, hprim, _⟩ := run_interdex_from_ok he
  have hlen : prim.length ≤ i := by
    rcases hprim with ⟨_, hp⟩ | ⟨hn, _, _, _, _, hp, _⟩
    · rw [hp]
      exact Nat.zero_le _
    · rw [hp]
      exact hi hn
  rw [hout, List.getElem?_append_right hlen] at hx
  have := IdxAll_getElem? _ _ _ hs _ _ hx
  have e : prim.length + (i - prim.length) = i := by omega
  rw [e] at this
  exact this

/-- C5: with `emit_canaries` on, every output container of a completed run with
index `i >= 1` ends with a class named `Lsecondary/dexNN/Canary;` where `NN` is
`i` written with two decimal digits, and no other class of that container has a
name of the canary pattern. -/
theorem secondary_ends_with_its_canary (env : Env) (fuel : Nat) (dexen : DexClassesVector)
    (interdexorder : List String) (allow_cutting_off_dex static_prune_classes
      normal_primary_dex : Bool) (out : DexClassesVector)
    (h : run_interdex env fuel dexen interdexorder allow_cutting_off_dex static_prune_classes
      normal_primary_dex = some (.ok out))
    (hc : env.emit_canaries = true) (i : Nat) (x : DexClasses) (hx : out[i]? = some x)
    (hi : 1 ≤ i) :
    ∃ (body : DexClasses) (c : DexClass), x = body ++ [c] ∧ i ≤ 99 ∧
      c.name.data = "Lsecondary/dex".data ++
        [Nat.digitChar (i / 10), Nat.digitChar (i % 10)] ++ "/Canary;".data ∧
      ∀ b ∈ body, ¬ canary_pattern b.name := by
  obtain ⟨U, _, hr⟩ := run_interdex_some h
  obtain ⟨body, _, hb, _, hform⟩ := sealed_of_run hr.symm i x hx (fun _ => hi)
  rcases hform with ⟨hoff, _⟩ | ⟨_, hle, c, hname, hxc⟩
  · rw [hc] at hoff
    cases hoff
  · refine ⟨body, c, hxc, hle, ?_, ?_⟩
    · rw [hname]
      exact canary_name_digits hle
    · intro b hbm hpat
      have := canary_pattern_is_canary hpat
      rw [hb b hbm] at this
      cases this

theorem secondary_ends_with_its_canary_witness :
    ∃ (body : DexClasses) (c : DexClass),
      [plain_class "LC;", plain_class "LB;", plain_class "Lsecondary/dex01/Canary;"]
        = body ++ [c] ∧ 1 ≤ 99 ∧
      c.name.data = "Lsecondary/dex".data ++
        [Nat.digitChar (1 / 10), Nat.digitChar (1 % 10)] ++ "/Canary;".data ∧
      ∀ b ∈ body, ¬ canary_pattern b.name :=
  secondary_ends_with_its_canary (sample_env true 1) 1
    [[plain_class "LA;", plain_class "Lsecondary/dex01/Canary;"],
      [plain_class "LB;", plain_class "LC;"]]
    ["LC;"] true false false
    [[plain_class "LA;"],
      [plain_class "LC;", plain_class "LB;", plain_class "Lsecondary/dex01/Canary;"]]
    (by decide) rfl 1 _ rfl (by decide)

/-- C3, counterexample: a class whose own estimate exceeds `kMaxLinearAlloc`
is emitted all the same and its container exceeds the bound. -/
theorem capacity_counterexample :
    run_interdex (sample_env false 11878401) 1 [[plain_class "LBig;"]] [] true false true
      = some (.ok [[plain_class "LBig;"]]) ∧
    ¬ within_limits (sample_env false 11878401) [plain_class "LBig;"] := by
  decide

/-- The `int` sum of `emit_class` wraps: with both estimates `2^31 - 1` the sum
for the second class is `-2`, no flush happens and both classes share one
container. -/
theorem int_overflow_sample :
    run_interdex (sample_env false 2147483647) 1 [[plain_class "LA;", plain_class "LB;"]] []
      true false true = some (.ok [[plain_class "LA;", plain_class "LB;"]]) := by
  decide

/-- C3, amended: when every linear-alloc estimate lies between `0` and
`2^30 - 1`, so that no `int` addition of `emit_class` overflows, then in a
completed run output container 0 written by the primary branch
(`normal_primary_dex = false`) satisfies all three capacity bounds over its
classes; every other output container, with the canary appended by the flush
left out when canaries are on, either holds exactly one class or satisfies all
three bounds over its classes. -/
theorem containers_within_limits_or_single (env : Env) (fuel : Nat)
    (dexen : DexClassesVector) (interdexorder : List String)
    (allow_cutting_off_dex static_prune_classes normal_primary_dex : Bool)
    (out : DexClassesVector) (hest : estimates_bounded env)
    (h : run_interdex env fuel dexen interdexorder allow_cutting_off_dex static_prune_classes
      normal_primary_dex = some (.ok out))
    (i : Nat) (x : DexClasses) (hx : out[i]? = some x) :
    (normal_primary_dex = false ∧ i = 0 → within_limits env x) ∧
    (¬ (normal_primary_dex = false ∧ i = 0) →
      (without_flush_canary env x).length = 1 ∨
        within_limits env (without_flush_canary env x)) := by
  obtain ⟨U, _, hr⟩ := run_interdex_some h
  constructor
  · rintro ⟨hn, hi⟩
    obtain ⟨prim, tail, d', hout, _, _, _, hprim, _⟩ := run_interdex_from_ok hr.symm
    rcases hprim with ⟨hn', _⟩ | ⟨_, _, _, outs, _, hp, _, hw, _⟩
    · rw [hn] at hn'
      cases hn'
    · rw [hout, hp, hi] at hx
      simp only [List.singleton_append, List.getElem?_cons_zero, Option.some.injEq] at hx
      rw [← hx]
      exact hw hest
  · intro hni
    have hi : normal_primary_dex = false → 1 ≤ i := by
      intro hn
      by_contra hlt
      exact hni ⟨hn, by omega⟩
    obtain ⟨body, _, _, hfit, hform⟩ := sealed_of_run hr.symm i x hx hi
    have hb : without_flush_canary env x = body := by
      unfold without_flush_canary
      rcases hform with ⟨hoff, hxb⟩ | ⟨hon, _, c, _, hxc⟩
      · simp [hoff, hxb]
      · simp [hon, hxc]
    rw [hb]
    exact hfit hest

theorem containers_within_limits_or_single_witness :
    ((false = false ∧ 1 = 0) →
      within_limits (sample_env true 11878401) [plain_class "LB;",
        create_canary "Lsecondary/dex01/Canary;"]) ∧
    (¬ (false = false ∧ 1 = 0) →
      (without_flush_canary (sample_env true 11878401) [plain_class "LB;",
        create_canary "Lsecondary/dex01/Canary;"]).length = 1 ∨
      within_limits (sample_env true 11878401)
        (without_flush_canary (sample_env true 11878401) [plain_class "LB;",
          create_canary "Lsecondary/dex01/Canary;"])) :=
  containers_within_limits_or_single (sample_env true 11878401) 1
    [[], [plain_class "LB;", plain_class "LC;"]] [] true false false
    [[], [plain_class "LB;", create_canary "Lsecondary/dex01/Canary;"],
      [plain_class "LC;", create_canary "Lsecondary/dex02/Canary;"]]
    (fun _ => ⟨by simp [sample_env], by simp [sample_env]⟩) (by decide) 1 _ rfl

/-- C4, counterexample: a canary class of input container 0 is not in output
container 0 although the primary is held fixed. -/
theorem primary_fix_counterexample :
    run_interdex (sample_env false 1) 1
      [[plain_class "LA;", plain_class "Lsecondary/dex01/Canary;"]] [] true false false
      = some (.ok [[plain_class "LA;"]]) ∧
    plain_class "Lsecondary/dex01/Canary;" ∈
      [plain_class "LA;", plain_class "Lsecondary/dex01/Canary;"] ∧
    plain_class "Lsecondary/dex01/Canary;" ∉ [plain_class "LA;"] := by
  decide

/-- C4, amended: with `normal_primary_dex = false`, in a completed run output
container 0 holds only classes of input container 0, none of which has a name
beginning with `Lsecondary/dex`, and it holds every class of input container 0
that `emit_class` does not skip as a canary. -/
theorem primary_container_classes (env : Env) (fuel : Nat) (primary_dex : DexClasses)
    (rest : DexClassesVector) (interdexorder : List String)
    (allow_cutting_off_dex static_prune_classes : Bool) (out : DexClassesVector)
    (h : run_interdex env fuel (primary_dex :: rest) interdexorder allow_cutting_off_dex
      static_prune_classes false = some (.ok out)) :
    ∃ (o0 : DexClasses) (tl : DexClassesVector), out = o0 :: tl ∧
      (∀ c ∈ o0, c ∈ primary_dex ∧ has_canary_prefix c = false) ∧
      (∀ c ∈ primary_dex, is_canary c = false → c ∈ o0) := by
  obtain ⟨U, _, hr⟩ := run_interdex_some h
  obtain ⟨prim, tail, d', hout, _, _, _, hprim, _⟩ := run_interdex_from_ok hr.symm
  rcases hprim with ⟨hn, _⟩ | ⟨_, pd, rs, outs, hdex, hp, _, _, hsub, hsup⟩
  · cases hn
  · simp only [List.cons.injEq] at hdex
    obtain ⟨e1, _⟩ := hdex
    subst e1
    refine ⟨outs, tail, by rw [hout, hp]; rfl, ?_, hsup⟩
    intro c hc
    refine ⟨(hsub c hc).1, ?_⟩
    cases hb : has_canary_prefix c
    · rfl
    · have := has_canary_prefix_is_canary hb
      rw [(hsub c hc).2] at this
      cases this

theorem primary_container_classes_witness :
    ∃ (o0 : DexClasses) (tl : DexClassesVector),
      ([[plain_class "LA;"]] : DexClassesVector) = o0 :: tl ∧
      (∀ c ∈ o0, c ∈ [plain_class "LA;", plain_class "Lsecondary/dex01/Canary;"] ∧
        has_canary_prefix c = false) ∧
      (∀ c ∈ [plain_class "LA;", plain_class "Lsecondary/dex01/Canary;"],
        is_canary c = false → c ∈ o0) :=
  primary_container_classes (sample_env false 1) 1
    [plain_class "LA;", plain_class "Lsecondary/dex01/Canary;"] [] [] true false _
    (by decide)

/-- C10, counterexample: with `emit_canaries` off nothing limits the number of
containers; 101 classes that each fill a container give 101 containers. -/
theorem dex_count_counterexample :
    (run_interdex (sample_env false 11878400) 1 [(List.range 101).map numbered_class] []
      true false true).map (fun r => r.map List.length) = some (.ok 101) := by
  set_option maxRecDepth 100000 in decide

/-- C10, amended: with `emit_canaries` on, a flush of a non-empty tracker fails
exactly when the container it would write has an index above 99, and a
completed run returns at most 100 containers; with `emit_canaries` off, or on
an empty tracker, a flush never fails. -/
theorem dex_count_limit (env : Env) :
    (∀ (det : dex_emit_tracker) (outdex : DexClassesVector), env.emit_canaries = true →
      det.outs ≠ [] →
      (flush_out_secondary env det outdex = .error Fatal.max_dex_surpassed ↔
        outdex.length > 99) ∧
      (outdex.length ≤ 99 → ∃ r, flush_out_secondary env det outdex = .ok r)) ∧
    (∀ (det : dex_emit_tracker) (outdex : DexClassesVector),
      env.emit_canaries = false ∨ det.outs = [] →
      ∃ r, flush_out_secondary env det outdex = .ok r) ∧
    (∀ (fuel : Nat) (dexen : DexClassesVector) (interdexorder : List String)
      (allow_cutting_off_dex static_prune_classes normal_primary_dex : Bool)
      (out : DexClassesVector), env.emit_canaries = true →
      run_interdex env fuel dexen interdexorder allow_cutting_off_dex static_prune_classes
        normal_primary_dex = some (.ok out) →
      out.length ≤ 100) := by
  refine ⟨?_, ?_, ?_⟩
  · intro det outdex hc hne
    have h0 : ¬ det.outs.length = 0 := fun e => hne (List.length_eq_zero.1 e)
    unfold flush_out_secondary
    simp only [h0, if_false, hc, if_true, kMaxDexNum]
    by_cases hn : outdex.length ≤ 99
    · rw [if_pos hn]
      refine ⟨⟨?_, ?_⟩, fun _ => ⟨_, rfl⟩⟩
      · intro e
        cases e
      · intro e
        omega
    · rw [if_neg hn]
      refine ⟨⟨?_, fun _ => rfl⟩, fun e => absurd e hn⟩
      intro _
      omega
  · intro det outdex hor
    unfold flush_out_secondary
    by_cases h0 : det.outs.length = 0
    · simp only [h0, if_true]
      exact ⟨_, rfl⟩
    · rcases hor with hc | he
      · simp only [h0, if_false, hc, Bool.false_eq_true]
        exact ⟨_, rfl⟩
      · exact absurd (by rw [he]; rfl) h0
  · intro fuel dexen order allow prune normal out hc h
    obtain ⟨U, _, hr⟩ := run_interdex_some h
    obtain ⟨_, _, d', _, hinv, _⟩ := run_interdex_from_ok hr.symm
    have := hinv.count hc
    unfold kMaxDexNum at this
    exact this

theorem dex_count_limit_witness :
    ([[plain_class "LA;", create_canary "Lsecondary/dex00/Canary;"]] :
      DexClassesVector).length ≤ 100 :=
  (dex_count_limit (sample_env true 1)).2.2 1 [[plain_class "LA;"]] [] true false true _ rfl
    (by decide)

/-- C8, counterexample: a cold-start entry that contains `DexEndMarker` but
names a class of the input is emitted as a class and causes no flush, so the
classes before and after it share a container. -/
theorem end_marker_counterexample :
    contains_substr "LDexEndMarker0;".data "DexEndMarker".data = true ∧
    run_interdex (sample_env false 1) 1
      [[plain_class "LX;", plain_class "LDexEndMarker0;", plain_class "LY;"]]
      ["LX;", "LDexEndMarker0;", "LY;"] true false true
      = some (.ok [[plain_class "LX;", plain_class "LDexEndMarker0;", plain_class "LY;"]]) := by
  decide

/-- C8, amended: when the first loop over the cold-start list reaches an entry
that resolves to no input class and contains `DexEndMarker` while the tracker
holds classes, the run either stops at the dex-count assertion (canaries on and
more than 99 containers written) or writes the classes in progress as the next
container and continues with an empty tracker. Hence, for a cold-start list
`[X, marker, Y]` whose marker resolves to no class and whose `X` and `Y` are
distinct classes found by the lookup, not pruned, not skipped as canaries and
(when the primary is fixed) not in input container 0, a completed run puts `X`
and `Y` in different output containers, `X` in the earlier one. -/
theorem end_marker_flush (env : Env) :
    (∀ (U : Finset DexClass) (entry : String) (rest : List String) (det : dex_emit_tracker)
      (outdex : DexClassesVector), det.clookup.find entry = none →
      contains_substr entry.data "DexEndMarker".data = true → det.outs ≠ [] →
      emit_secondary_coldstart env U (entry :: rest) det outdex =
        if env.emit_canaries = true ∧ outdex.length > kMaxDexNum then
          .error Fatal.max_dex_surpassed
        else
          emit_secondary_coldstart env U rest (cleared det)
            (outdex ++ [det.outs ++
              if env.emit_canaries = true then [find_canary env det outdex.length]
              else []])) ∧
    (∀ (fuel : Nat) (dexen : DexClassesVector) (m : String) (X Y : DexClass)
      (allow_cutting_off_dex static_prune_classes normal_primary_dex : Bool)
      (out : DexClassesVector) (U : Finset DexClass),
      find_unrefenced_coldstart_classes env fuel (build_class_scope dexen)
        { dex_emit_tracker.empty with clookup := build_clookup dexen.flatten }
        [X.name, m, Y.name] static_prune_classes = some U →
      run_interdex env fuel dexen [X.name, m, Y.name] allow_cutting_off_dex
        static_prune_classes normal_primary_dex = some (.ok out) →
      (build_clookup dexen.flatten).find X.name = some X →
      (build_clookup dexen.flatten).find Y.name = some Y →
      (build_clookup dexen.flatten).find m = none →
      contains_substr m.data "DexEndMarker".data = true →
      X ∉ U → Y ∉ U → X ≠ Y → is_canary X = false → is_canary Y = false →
      (normal_primary_dex = false → X ∉ dexen.headD [] ∧ Y ∉ dexen.headD []) →
      ∃ (i j : Nat) (x y : DexClasses), i < j ∧ out[i]? = some x ∧ out[j]? = some y ∧
        X ∈ x ∧ Y ∈ y ∧
        ∀ (k : Nat) (z : DexClasses), out[k]? = some z →
          (X ∈ z → k = i) ∧ (Y ∈ z → k = j)) := by
  constructor
  · intro U entry rest det outdex hf hm hne
    exact coldstart_cons_marker hf hm hne
  · intro fuel dexen m X Y allow prune normal out U hU h hX hY hm hmk hXU hYU hXY hXc hYc hprim
    obtain ⟨U', hU', hr⟩ := run_interdex_some h
    rw [hU] at hU'
    simp only [Option.some.injEq] at hU'
    subst hU'
    have he := hr.symm
    unfold run_interdex_from at he
    simp only [build_class_scope] at he
    cases normal with
    | true =>
      simp only [Bool.not_true, Bool.false_eq_true, if_false] at he
      have h0 := Inv.empty env (build_clookup dexen.flatten)
        (fun p hp => (build_clookup_wf _ p hp).1)
      exact end_marker_secondary h0 rfl hX hY hm hmk hXU hYU hXY hXc hYc
        (Finset.not_mem_empty _) (Finset.not_mem_empty _) he
    | false =>
      simp only [Bool.not_false, if_true] at he
      cases hp : primary_phase env dexen [X.name, m, Y.name] U
          { dex_emit_tracker.empty with clookup := build_clookup dexen.flatten } [] with
      | error e => rw [hp] at he; cases he
      | ok r =>
        obtain ⟨d0, o0⟩ := r
        rw [hp] at he
        simp only at he
        obtain ⟨pd, rest, outs, hdex, ho0, hd0, hnd, _, hsub, _⟩ := primary_phase_ok hp
        subst ho0 hd0
        have hhead : dexen.headD [] = pd := by rw [hdex]; rfl
        obtain ⟨hXp, hYp⟩ := hprim rfl
        rw [hhead] at hXp hYp
        have h0 : Inv env { record_emitted pd { dex_emit_tracker.empty with
            clookup := build_clookup dexen.flatten } with la_size := 0 } [outs] :=
          { lookup_wf := fun p hp => (build_clookup_wf _ p hp).1
            nodup := by
              show ([outs].flatten ++ []).Nodup
              simpa using hnd
            outs_ok := fun c hc => absurd hc (List.not_mem_nil c)
            out_ok := fun c hc => by
              have hc' : c ∈ outs := by simpa using hc
              exact Or.inl ⟨(hsub c hc').2,
                (mem_record_emitted pd _ c).2 (Or.inr (hsub c hc').1)⟩
            count := fun _ => by simp [kMaxDexNum]
            la_eq := fun _ => rfl
            mrefs_eq := rfl
            frefs_eq := rfl
            fit := fun _ => Or.inr (within_limits_nil env) }
        have hne : ∀ c, c ∉ pd → c ∉ (record_emitted pd { dex_emit_tracker.empty with
            clookup := build_clookup dexen.flatten }).emitted := by
          intro c hc hmem
          rcases (mem_record_emitted pd _ c).1 hmem with h1 | h1
          · cases h1
          · exact hc h1
        exact end_marker_secondary h0 rfl hX hY hm hmk hXU hYU hXY hXc hYc
          (hne X hXp) (hne Y hYp) he

theorem end_marker_flush_witness :
    ∃ (i j : Nat) (x y : DexClasses), i < j ∧
      ([[plain_class "LX;"], [plain_class "LY;"]] : DexClassesVector)[i]? = some x ∧
      ([[plain_class "LX;"], [plain_class "LY;"]] : DexClassesVector)[j]? = some y ∧
      plain_class "LX;" ∈ x ∧ plain_class "LY;" ∈ y ∧
      ∀ (k : Nat) (z : DexClasses),
        ([[plain_class "LX;"], [plain_class "LY;"]] : DexClassesVector)[k]? = some z →
          (plain_class "LX;" ∈ z → k = i) ∧ (plain_class "LY;" ∈ z → k = j) :=
  (end_marker_flush (sample_env false 1)).2 1 [[plain_class "LX;", plain_class "LY;"]]
    "LDexEndMarker0;" (plain_class "LX;") (plain_class "LY;") true false true
    [[plain_class "LX;"], [plain_class "LY;"]] ∅ rfl (by decide) (by decide) (by decide)
    (by decide) (by decide) (Finset.not_mem_empty _) (Finset.not_mem_empty _) (by decide)
    (by decide) (by decide) (fun h => Bool.noConfusion h)

/-! ## Inputs on which the code departs from the specification -/

/-- C1, failing input: the class `Lsecond/Foo;` is no canary class (its name
does not begin with `Lsecondary/dex`), yet `is_canary` accepts it, because only
the first `sizeof(kCanaryPrefix) - 1 = 7` characters are compared, and the
completed run leaves it out of every output container. -/
theorem conservation_failing_input :
    has_canary_prefix (plain_class "Lsecond/Foo;") = false ∧
    is_canary (plain_class "Lsecond/Foo;") = true ∧
    run_interdex (sample_env false 1) 1
      [[plain_class "LA;", plain_class "Lsecond/Foo;"]] [] true false true
      = some (.ok [[plain_class "LA;"]]) := by
  decide

/-- C6, failing input: for the containers `[[LA;, Lsecond/Foo;, LB;]]` the
sequence of the ordering property (canary test: the name begins with
`Lsecondary/dex`) is `LA;, Lsecond/Foo;, LB;`, but the run returns `LA;, LB;`. -/
theorem ordering_failing_input :
    secondary_sequence has_canary_prefix ∅
      [[plain_class "LA;", plain_class "Lsecond/Foo;", plain_class "LB;"]] [] true
      = [plain_class "LA;", plain_class "Lsecond/Foo;", plain_class "LB;"] ∧
    run_interdex (sample_env false 1) 1
      [[plain_class "LA;", plain_class "Lsecond/Foo;", plain_class "LB;"]] [] true false true
      = some (.ok [[plain_class "LA;", plain_class "LB;"]]) := by
  decide

/-- C7, failing input: the same containers, cold-start list and flags give
different results for two visiting orders of the `coldstart_classes` set. -/
theorem determinism_failing_input :
    run_interdex (prune_env id) 5
      [[plain_class "LP;", plain_class "LQ;", plain_class "LR;", plain_class "LZ;"]]
      ["LR;", "LP;", "LQ;", "LZ;"] true true true
      = some (.ok [[plain_class "LR;", plain_class "LP;", plain_class "LQ;",
          plain_class "LZ;"]]) ∧
    run_interdex (prune_env List.reverse) 5
      [[plain_class "LP;", plain_class "LQ;", plain_class "LR;", plain_class "LZ;"]]
      ["LR;", "LP;", "LQ;", "LZ;"] true true true
      = some (.ok [[plain_class "LP;", plain_class "LQ;", plain_class "LR;",
          plain_class "LZ;"]]) := by
  decide

/-- C9, failing input: input container 0 holds the single class `Lsecond/Big;`,
no canary class, whose estimate exceeds `kMaxLinearAlloc`; the primary branch
does not fail, it skips the class and writes an empty container. -/
theorem primary_overflow_failing_input :
    has_canary_prefix (plain_class "Lsecond/Big;") = false ∧
    la_sum (sample_env false 11878401) [plain_class "Lsecond/Big;"]
      > kMaxLinearAlloc (sample_env false 11878401) ∧
    run_interdex (sample_env false 11878401) 1 [[plain_class "Lsecond/Big;"]] [] true false
      false = some (.ok [[]]) := by
  decide

/-! ## The pruner on sample inputs -/

theorem loop_iteration_first :
    (loop_iteration loop_classes
        ∅).new_no_ref = 2 ∧
    (loop_iteration loop_classes
        ∅).unreferenced_classes =
      {calling_class "L4;" [], calling_class "L0;" ["L1;"]} ∧
    (loop_iteration loop_classes
        ∅).output_scope = loop_scope_a := by
  decide

theorem loop_iteration_second :
    (loop_iteration loop_scope_a
        {calling_class "L4;" [], calling_class "L0;" ["L1;"]}).new_no_ref = 1 ∧
    (loop_iteration loop_scope_a
        {calling_class "L4;" [], calling_class "L0;" ["L1;"]}).unreferenced_classes =
      {calling_class "L4;" [], calling_class "L0;" ["L1;"], calling_class "L1;" ["L3;"]} ∧
    (loop_iteration loop_scope_a
        {calling_class "L4;" [], calling_class "L0;" ["L1;"]}).output_scope = loop_scope_b := by
  decide

theorem loop_iteration_odd :
    (loop_iteration loop_scope_b
        {calling_class "L4;" [], calling_class "L0;" ["L1;"],
          calling_class "L1;" ["L3;"]}).new_no_ref = 2 ∧
    (loop_iteration loop_scope_b
        {calling_class "L4;" [], calling_class "L0;" ["L1;"],
          calling_class "L1;" ["L3;"]}).unreferenced_classes =
      {calling_class "L4;" [], calling_class "L0;" ["L1;"], calling_class "L1;" ["L3;"]} ∧
    (loop_iteration loop_scope_b
        {calling_class "L4;" [], calling_class "L0;" ["L1;"],
          calling_class "L1;" ["L3;"]}).output_scope = loop_scope_a := by
  decide

theorem loop_iteration_even :
    (loop_iteration loop_scope_a
        {calling_class "L4;" [], calling_class "L0;" ["L1;"],
          calling_class "L1;" ["L3;"]}).new_no_ref = 1 ∧
    (loop_iteration loop_scope_a
        {calling_class "L4;" [], calling_class "L0;" ["L1;"],
          calling_class "L1;" ["L3;"]}).unreferenced_classes =
      {calling_class "L4;" [], calling_class "L0;" ["L1;"], calling_class "L1;" ["L3;"]} ∧
    (loop_iteration loop_scope_a
        {calling_class "L4;" [], calling_class "L0;" ["L1;"],
          calling_class "L1;" ["L3;"]}).output_scope = loop_scope_b := by
  decide

theorem loop_never_ends (fuel : Nat) :
    prune_loop loop_env loop_classes loop_cold fuel 2 1 loop_scope_b
        {calling_class "L4;" [], calling_class "L0;" ["L1;"], calling_class "L1;" ["L3;"]}
      = none ∧
    prune_loop loop_env loop_classes loop_cold fuel 1 2 loop_scope_a
        {calling_class "L4;" [], calling_class "L0;" ["L1;"], calling_class "L1;" ["L3;"]}
      = none := by
  induction fuel with
  | zero => exact ⟨prune_loop_zero (by decide), prune_loop_zero (by decide)⟩
  | succ f ih =>
    constructor
    · rw [prune_loop_succ f (by decide)]
      have := loop_iteration_odd
      unfold loop_iteration at this
      rw [this.1, this.2.1, this.2.2]
      exact ih.2
    · rw [prune_loop_succ f (by decide)]
      have := loop_iteration_even
      unfold loop_iteration at this
      rw [this.1, this.2.1, this.2.2]
      exact ih.1

/-- C19, failing input: on the seven classes of `loop_classes`, all of them in
the scope and named in the cold-start list, the counts of the iterations are
2, 1, 2, 1, ... for ever: the `while` loop of the pruner never ends, whatever
the fuel. -/
theorem pruner_loop_failing_input (fuel : Nat) :
    find_unrefenced_coldstart_classes loop_env fuel loop_classes
      { dex_emit_tracker.empty with clookup := build_clookup loop_classes } loop_order true
      = none := by
  unfold find_unrefenced_coldstart_classes
  simp only [Bool.not_true, Bool.false_eq_true, if_false]
  show prune_loop loop_env loop_classes loop_cold fuel (-1) 0 loop_classes ∅ = none
  cases fuel with
  | zero => exact prune_loop_zero (by decide)
  | succ f =>
    rw [prune_loop_succ f (by decide)]
    have h1 := loop_iteration_first
    unfold loop_iteration at h1
    rw [h1.1, h1.2.1, h1.2.2]
    cases f with
    | zero => exact prune_loop_zero (by decide)
    | succ g =>
      rw [prune_loop_succ g (by decide)]
      have h2 := loop_iteration_second
      unfold loop_iteration at h2
      rw [h2.1, h2.2.1, h2.2.2]
      exact (loop_never_ends g).1

/-- C20, failing input: in the first iteration on the scope `LQ;, LP;, LR;`
(`LP;` cannot be renamed and gathers `LQ;`, `LQ;` gathers `LR;`) the reference
set holds `LQ;` but not `LR;`, a class resolved from a type gathered from
`LQ;`: `LQ;` entered the set only after the single pass had visited it. -/
theorem closure_failing_input :
    some (plain_class "LQ;") ∈ cold_cold_references (prune_env id)
      [plain_class "LQ;", plain_class "LP;", plain_class "LR;"]
      [plain_class "LP;", plain_class "LQ;", plain_class "LR;"]
      [plain_class "LQ;", plain_class "LP;", plain_class "LR;"] ∧
    "LR;" ∈ (prune_env id).gather_types (plain_class "LQ;") ∧
    type_class (prune_env id) "LR;" = some (plain_class "LR;") ∧
    some (plain_class "LR;") ∉ cold_cold_references (prune_env id)
      [plain_class "LQ;", plain_class "LP;", plain_class "LR;"]
      [plain_class "LP;", plain_class "LQ;", plain_class "LR;"]
      [plain_class "LQ;", plain_class "LP;", plain_class "LR;"] := by
  decide

/-- C12, failing input: for the scope `LQ;, LP;, LR;` and the cold-start list
`LP;, LQ;, LR;` the pruner returns `{LR;}`, although the retained cold-start
class `LQ;` has `LR;` among the classes resolved from its gathered types. -/
theorem prune_soundness_failing_input :
    find_unrefenced_coldstart_classes (prune_env id) 5
      [plain_class "LQ;", plain_class "LP;", plain_class "LR;"]
      { dex_emit_tracker.empty with
        clookup := build_clookup [plain_class "LQ;", plain_class "LP;", plain_class "LR;"] }
      ["LP;", "LQ;", "LR;"] true = some {plain_class "LR;"} ∧
    (build_clookup [plain_class "LQ;", plain_class "LP;", plain_class "LR;"]).find "LQ;"
      = some (plain_class "LQ;") ∧
    plain_class "LQ;" ∉ ({plain_class "LR;"} : Finset DexClass) ∧
    "LR;" ∈ (prune_env id).gather_types (plain_class "LQ;") ∧
    type_class (prune_env id) "LR;" = some (plain_class "LR;") := by
  decide

/-- C18, failing input: `is_canary` accepts the class `Lsecond/Foo;`, whose
name does not begin with the canary prefix `Lsecondary/dex`, because it compares
`sizeof(kCanaryPrefix) - 1 = 7` characters of the 14; and `emit_class` skips
that class on the empty tracker. -/
theorem is_canary_failing_input :
    is_canary (plain_class "Lsecond/Foo;") = true ∧
    has_canary_prefix (plain_class "Lsecond/Foo;") = false ∧
    sizeof_kCanaryPrefix - 1 = 7 ∧ kCanaryPrefix.length = 14 ∧
    emit_class (sample_env false 1) dex_emit_tracker.empty [] (plain_class "Lsecond/Foo;") false
      = .ok (dex_emit_tracker.empty, []) :=
  ⟨by decide, by decide, by decide, by decide, rfl⟩

/-- C14: `emit_class` is idempotent: when `emit_class` on tracker `t`, outputs
`o`, class `c` and flag `is_primary` completes with tracker `t'` and outputs
`o'`, a second `emit_class` of `c` on `t'` and `o'` completes and leaves both
unchanged. -/
theorem emit_class_idempotent (env : Env) (t t' : dex_emit_tracker)
    (o o' : DexClassesVector) (c : DexClass) ( is_primary : Bool)
    (h : emit_class env t o c is_primary = .ok (t', o')) :
    emit_class env t' o' c is_primary = .ok (t', o') := by
  have h0 := h
  rw [emit_class_eq] at h
  by_cases hskip : c ∈ t.emitted ∨ is_canary c = true
  · rw [if_pos hskip] at h
    simp only [Except.ok.injEq, Prod.mk.injEq] at h
    obtain ⟨e1, e2⟩ := h
    subst e1 e2
    exact h0
  · rw [if_neg hskip] at h
    have hin : c ∈ t'.emitted := by
      by_cases hov : overflows env t c
      · rw [if_pos hov] at h
        cases is_primary with
        | true => simp at h
        | false =>
          simp only [Bool.false_eq_true, if_false] at h
          cases hfl : flush_out_secondary env (gather_mrefs env c t) o with
          | error e => rw [hfl] at h; cases h
          | ok r =>
            obtain ⟨d2, o2⟩ := r
            rw [hfl] at h
            simp only [Except.ok.injEq, Prod.mk.injEq] at h
            rw [← h.1]
            exact Finset.mem_insert_self _ _
      · rw [if_neg hov] at h
        simp only [Except.ok.injEq, Prod.mk.injEq] at h
        rw [← h.1]
        exact Finset.mem_insert_self _ _
    rw [emit_class_eq, if_pos (Or.inl hin)]

theorem emit_class_idempotent_witness :
    emit_class (sample_env false 1) (pushed (sample_env false 1) (plain_class "LA;")
        dex_emit_tracker.empty) [] (plain_class "LA;") false
      = .ok (pushed (sample_env false 1) (plain_class "LA;") dex_emit_tracker.empty, []) :=
  emit_class_idempotent (sample_env false 1) dex_emit_tracker.empty _ [] [] (plain_class "LA;")
    false rfl

theorem partition_coldstart_unref (env : Env) (refs : Finset (Option DexClass)) :
    ∀ (cold : List DexClass) (st : prune_state) (c : DexClass),
      c ∈ (partition_coldstart env refs cold st).unreferenced_classes →
      c ∈ st.unreferenced_classes ∨ (c ∈ cold ∧ env.can_rename c = true) := by
  intro cold
  induction cold with
  | nil => intro st c h; exact Or.inl h
  | cons x rest ih =>
    intro st c h
    simp only [partition_coldstart] at h
    by_cases hx : env.can_rename x = true ∧ some x ∉ refs
    · rw [if_pos hx] at h
      rcases ih _ c h with h1 | h1
      · rcases Finset.mem_insert.1 h1 with h2 | h2
        · exact Or.inr ⟨by rw [h2]; exact List.mem_cons_self _ _, by rw [h2]; exact hx.1⟩
        · exact Or.inl h2
      · exact Or.inr ⟨List.mem_cons_of_mem _ h1.1, h1.2⟩
    · rw [if_neg hx] at h
      rcases ih _ c h with h1 | h1
      · exact Or.inl h1
      · exact Or.inr ⟨List.mem_cons_of_mem _ h1.1, h1.2⟩

theorem prune_loop_unref (env : Env) (scope : Scope) (cold : List DexClass) :
    ∀ (fuel : Nat) (old new : Int) (I : Scope) (U R : Finset DexClass),
      prune_loop env scope cold fuel old new I U = some R →
      ∀ c ∈ R, c ∈ U ∨ (c ∈ cold ∧ env.can_rename c = true) := by
  intro fuel
  induction fuel with
  | zero =>
    intro old new I U R h c hc
    by_cases e : old = new
    · subst e
      rw [prune_loop_done] at h
      cases h
      exact Or.inl hc
    · rw [prune_loop_zero e] at h
      cases h
  | succ n ih =>
    intro old new I U R h c hc
    by_cases e : old = new
    · subst e
      rw [prune_loop_done] at h
      cases h
      exact Or.inl hc
    · rw [prune_loop_succ n e] at h
      rcases ih _ _ _ _ _ h c hc with h1 | h1
      · exact partition_coldstart_unref env _ cold _ c h1
      · exact Or.inr h1

theorem coldstart_insertions_mem (det : dex_emit_tracker) :
    ∀ (order : List String) (acc : List DexClass) (c : DexClass),
      c ∈ coldstart_insertions det order acc →
      c ∈ acc ∨ ∃ name ∈ order, det.clookup.find name = some c := by
  intro order
  induction order with
  | nil => intro acc c h; exact Or.inl h
  | cons s rest ih =>
    intro acc c h
    simp only [coldstart_insertions] at h
    have lift : (∃ name ∈ rest, det.clookup.find name = some c) →
        ∃ name ∈ s :: rest, det.clookup.find name = some c := by
      rintro ⟨n, hn, hf⟩
      exact ⟨n, List.mem_cons_of_mem _ hn, hf⟩
    cases hf : det.clookup.find s with
    | none =>
      rw [hf] at h
      rcases ih _ c h with h1 | h1
      · exact Or.inl h1
      · exact Or.inr (lift h1)
    | some x =>
      rw [hf] at h
      by_cases hx : x ∈ acc
      · simp only [if_pos hx] at h
        rcases ih _ c h with h1 | h1
        · exact Or.inl h1
        · exact Or.inr (lift h1)
      · simp only [if_neg hx] at h
        rcases ih _ c h with h1 | h1
        · rcases List.mem_append.1 h1 with h2 | h2
          · exact Or.inl h2
          · have : c = x := by simpa using h2
            subst this
            exact Or.inr ⟨s, List.mem_cons_self _ _, hf⟩
        · exact Or.inr (lift h1)

/-- C11: when the order in which the cold-start set is visited lists only
elements of the set, every class of the set returned by
`find_unrefenced_coldstart_classes` can be renamed and is the class found in the
lookup for some name of the cold-start list; so no class that cannot be renamed
is returned. -/
theorem unreferenced_renamable_coldstart (env : Env) (fuel : Nat) (scope : Scope)
    (det : dex_emit_tracker) (interdexorder : List String) (static_prune_classes : Bool)
    (U : Finset DexClass)
    (horder : ∀ (l : List DexClass) (c : DexClass), c ∈ env.iteration_order l → c ∈ l)
    (h : find_unrefenced_coldstart_classes env fuel scope det interdexorder
      static_prune_classes = some U) :
    ∀ c ∈ U, env.can_rename c = true ∧
      ∃ name ∈ interdexorder, det.clookup.find name = some c := by
  intro c hc
  unfold find_unrefenced_coldstart_classes at h
  cases static_prune_classes with
  | false =>
    simp only [Bool.not_false, if_true, Option.some.injEq] at h
    subst h
    simp at hc
  | true =>
    simp only [Bool.not_true, Bool.false_eq_true, if_false] at h
    rcases prune_loop_unref env scope _ fuel _ _ _ _ _ h c hc with h1 | h1
    · simp at h1
    · refine ⟨h1.2, ?_⟩
      rcases coldstart_insertions_mem det interdexorder [] c (horder _ _ h1.1) with h2 | h2
      · simp at h2
      · exact h2

theorem unreferenced_renamable_coldstart_witness :
    (prune_env id).can_rename (plain_class "LR;") = true ∧
    ∃ name ∈ ["LP;", "LQ;", "LR;"],
      (build_clookup [plain_class "LQ;", plain_class "LP;", plain_class "LR;"]).find name
        = some (plain_class "LR;") :=
  unreferenced_renamable_coldstart (prune_env id) 5
    [plain_class "LQ;", plain_class "LP;", plain_class "LR;"]
    { dex_emit_tracker.empty with
      clookup := build_clookup [plain_class "LQ;", plain_class "LP;", plain_class "LR;"] }
    ["LP;", "LQ;", "LR;"] true {plain_class "LR;"} (fun _ _ h => h) (by decide)
    (plain_class "LR;") (by decide)

/-- C15, counterexample: with `emit_canaries` on and `normal_primary_dex = true`
the single input container `[LA;]` gives output container 0 the canary class
`Lsecondary/dex00/Canary;`. -/
theorem canary_zero_counterexample :
    run_interdex (sample_env true 1) 1 [[plain_class "LA;"]] [] true false true
      = some (.ok [[plain_class "LA;", create_canary "Lsecondary/dex00/Canary;"]]) := by
  decide

/-- C15, amended: in a completed run, a class of output container `i` whose
name begins with `Lsecondary/dex` is the last class of that container and is
named `Lsecondary/dexNN/Canary;` with `NN = i` and `i <= 99`, canaries are on,
and `i >= 1` when `normal_primary_dex = false`; so the container written by the
primary branch holds no such class. With `normal_primary_dex = true` and
canaries on, every output container `i`, container 0 included, ends with the
class named `Lsecondary/dexNN/Canary;` with `NN = i`. -/
theorem canary_index_of_container (env : Env) (fuel : Nat) (dexen : DexClassesVector)
    (interdexorder : List String) (allow_cutting_off_dex static_prune_classes
      normal_primary_dex : Bool) (out : DexClassesVector)
    (h : run_interdex env fuel dexen interdexorder allow_cutting_off_dex static_prune_classes
      normal_primary_dex = some (.ok out))
    (i : Nat) (x : DexClasses) (hx : out[i]? = some x) :
    (∀ c ∈ x, has_canary_prefix c = true →
      env.emit_canaries = true ∧ c.name = canary_name i ∧ i ≤ kMaxDexNum ∧
        x.getLast? = some c ∧ (normal_primary_dex = false → 1 ≤ i)) ∧
    (normal_primary_dex = true → env.emit_canaries = true →
      ∃ c, x.getLast? = some c ∧ c.name = canary_name i ∧ i ≤ kMaxDexNum) := by
  obtain ⟨U, _, hr⟩ := run_interdex_some h
  constructor
  · intro c hc hp
    have hcan := has_canary_prefix_is_canary hp
    have hi : normal_primary_dex = false → 1 ≤ i := by
      intro hn
      by_contra hlt
      have hi0 : i = 0 := by omega
      subst hi0
      obtain ⟨prim, tail, _, hout, _, _, _, hprim, _⟩ := run_interdex_from_ok hr.symm
      rcases hprim with ⟨ht, _⟩ | ⟨_, _, _, outs, _, hp1, _, _, hall, _⟩
      · rw [hn] at ht
        cases ht
      · rw [hout, hp1] at hx
        simp only [List.singleton_append, List.getElem?_cons_zero, Option.some.injEq] at hx
        subst hx
        have := (hall c hc).2
        rw [hcan] at this
        cases this
    obtain ⟨body, _, hb, _, hform⟩ := sealed_of_run hr.symm i x hx hi
    rcases hform with ⟨_, hxb⟩ | ⟨hon, hle, k, hname, hxk⟩
    · rw [hxb] at hc
      have := hb c hc
      rw [hcan] at this
      cases this
    · rw [hxk] at hc
      rcases List.mem_append.1 hc with h1 | h1
      · have := hb c h1
        rw [hcan] at this
        cases this
      · have e : c = k := by simpa using h1
        subst e
        exact ⟨hon, hname, hle, by rw [hxk]; simp, hi⟩
  · intro hn hon
    have hi : normal_primary_dex = false → 1 ≤ i := by
      intro hf
      rw [hn] at hf
      cases hf
    obtain ⟨body, _, _, _, hform⟩ := sealed_of_run hr.symm i x hx hi
    rcases hform with ⟨hoff, _⟩ | ⟨_, hle, k, hname, hxk⟩
    · rw [hon] at hoff
      cases hoff
    · exact ⟨k, by rw [hxk]; simp, hname, hle⟩

theorem canary_index_of_container_witness :
    (∀ c ∈ [plain_class "LA;", create_canary "Lsecondary/dex00/Canary;"],
      has_canary_prefix c = true →
      (sample_env true 1).emit_canaries = true ∧ c.name = canary_name 0 ∧ 0 ≤ kMaxDexNum ∧
        [plain_class "LA;", create_canary "Lsecondary/dex00/Canary;"].getLast? = some c ∧
        (true = false → 1 ≤ 0)) ∧
    (true = true → (sample_env true 1).emit_canaries = true →
      ∃ c, [plain_class "LA;", create_canary "Lsecondary/dex00/Canary;"].getLast? = some c ∧
        c.name = canary_name 0 ∧ 0 ≤ kMaxDexNum) :=
  canary_index_of_container (sample_env true 1) 1 [[plain_class "LA;"]] [] true false true
    [[plain_class "LA;", create_canary "Lsecondary/dex00/Canary;"]] (by decide) 0 _ rfl

/-- C17, counterexample: with `emit_canaries` on and 100 containers already
written, a secondary emit that overflows the tracker fails at the dex-count
assertion and appends nothing. -/
theorem secondary_emit_counterexample :
    ({ dex_emit_tracker.empty with outs := [plain_class "LA;"] } : dex_emit_tracker).outs ≠ [] ∧
    plain_class "LB;" ∉ ({ dex_emit_tracker.empty with
      outs := [plain_class "LA;"] } : dex_emit_tracker).emitted ∧
    has_canary_prefix (plain_class "LB;") = false ∧
    emit_class (sample_env true 11878401)
      { dex_emit_tracker.empty with outs := [plain_class "LA;"] }
      (List.replicate 100 []) (plain_class "LB;") false = .error Fatal.max_dex_surpassed :=
  ⟨by decide, by decide, by decide, rfl⟩

/-- C17, amended: for a tracker `t` with non-empty `outs`, outputs `o` and a
class `c` that is not in `t.emitted` and that `is_canary` rejects, where the
estimate of `c` and its sum with `t.la_size` are values of a 32-bit `int`,
`emit_class` with `is_primary = false` behaves as follows. When the three
bounds hold with `c` added, `o` is unchanged and `c` is added to the tracker.
Otherwise, when canaries are off or at most 99 containers are written, one
container is appended to `o`, holding the previous `outs` followed by the
canary of index `|o|` when canaries are on, and the tracker restarts with `c`
alone; when canaries are on and more than 99 containers are written, the emit
fails at the dex-count assertion. The appended container does not hold `c`
when `c` was not in `t.outs` and the lookup maps names to classes of that
name. -/
theorem secondary_emit_behaviour (env : Env) (t : dex_emit_tracker) (o : DexClassesVector)
    (c : DexClass) (houts : t.outs ≠ []) (hem : c ∉ t.emitted) (hcan : is_canary c = false)
    (hla : -2147483648 ≤ env.estimate_linear_alloc c ∧
      env.estimate_linear_alloc c ≤ 2147483647)
    (hsum : -2147483648 ≤ t.la_size + env.estimate_linear_alloc c ∧
      t.la_size + env.estimate_linear_alloc c ≤ 2147483647) :
    ((t.la_size + env.estimate_linear_alloc c ≤ kMaxLinearAlloc env ∧
        (t.mrefs ∪ (env.gather_methods c).toFinset).card < kMaxMethodRefs ∧
        (t.frefs ∪ (env.gather_fields c).toFinset).card < kMaxFieldRefs) →
      emit_class env t o c false = .ok
        ({ t with
           outs := t.outs ++ [c]
           la_size := t.la_size + env.estimate_linear_alloc c
           mrefs := t.mrefs ∪ (env.gather_methods c).toFinset
           frefs := t.frefs ∪ (env.gather_fields c).toFinset
           emitted := insert c t.emitted }, o)) ∧
    (¬ (t.la_size + env.estimate_linear_alloc c ≤ kMaxLinearAlloc env ∧
        (t.mrefs ∪ (env.gather_methods c).toFinset).card < kMaxMethodRefs ∧
        (t.frefs ∪ (env.gather_fields c).toFinset).card < kMaxFieldRefs) →
      (env.emit_canaries = true → o.length ≤ kMaxDexNum) →
      emit_class env t o c false = .ok
        ({ t with
           outs := [c]
           la_size := env.estimate_linear_alloc c
           mrefs := (env.gather_methods c).toFinset
           frefs := (env.gather_fields c).toFinset
           emitted := insert c t.emitted },
         o ++ [t.outs ++ if env.emit_canaries then [find_canary env t o.length] else []])) ∧
    (¬ (t.la_size + env.estimate_linear_alloc c ≤ kMaxLinearAlloc env ∧
        (t.mrefs ∪ (env.gather_methods c).toFinset).card < kMaxMethodRefs ∧
        (t.frefs ∪ (env.gather_fields c).toFinset).card < kMaxFieldRefs) →
      env.emit_canaries = true → kMaxDexNum < o.length →
      emit_class env t o c false = .error Fatal.max_dex_surpassed) ∧
    (c ∉ t.outs → (∀ p ∈ t.clookup, p.2.name = p.1) →
      c ∉ t.outs ++ if env.emit_canaries then [find_canary env t o.length] else []) := by
  have hskip : ¬ (c ∈ t.emitted ∨ is_canary c = true) := by
    rintro (h1 | h1)
    · exact hem h1
    · rw [hcan] at h1
      cases h1
  have e1 : int_add t.la_size (env.estimate_linear_alloc c)
      = t.la_size + env.estimate_linear_alloc c := by
    unfold int_add
    exact int_wrap_of_range hsum.1 hsum.2
  have e0 : int_add 0 (env.estimate_linear_alloc c) = env.estimate_linear_alloc c := by
    unfold int_add
    rw [zero_add]
    exact int_wrap_of_range hla.1 hla.2
  have hov : overflows env t c ↔
      ¬ (t.la_size + env.estimate_linear_alloc c ≤ kMaxLinearAlloc env ∧
        (t.mrefs ∪ (env.gather_methods c).toFinset).card < kMaxMethodRefs ∧
        (t.frefs ∪ (env.gather_fields c).toFinset).card < kMaxFieldRefs) := by
    unfold overflows gather_mrefs
    simp only [e1, not_and_or, not_le, not_lt, ge_iff_le, gt_iff_lt]
  refine ⟨?_, ?_, ?_, ?_⟩
  · intro hfit
    have hno : ¬ overflows env t c := fun h => (hov.1 h) hfit
    rw [emit_class_eq, if_neg hskip, if_neg hno]
    simp [pushed, gather_mrefs, e1]
  · intro hnfit hnum
    have hyes : overflows env t c := hov.2 hnfit
    rw [emit_class_eq, if_neg hskip, if_pos hyes]
    cases hc : env.emit_canaries with
    | false =>
      simp [flush_out_secondary, houts, hc, flush_out_dex, pushed, gather_mrefs, e0]
    | true =>
      have hle := hnum hc
      simp [flush_out_secondary, houts, hc, hle, flush_out_dex, pushed, gather_mrefs,
        find_canary, e0]
  · intro hnfit hc hgt
    have hyes : overflows env t c := hov.2 hnfit
    rw [emit_class_eq, if_neg hskip, if_pos hyes]
    have houts1 : (gather_mrefs env c t).outs ≠ [] := houts
    simp [flush_out_secondary, houts1, hc, not_le.2 hgt]
  · intro hno hwf hin
    rcases List.mem_append.1 hin with h1 | h1
    · exact hno h1
    · cases hc : env.emit_canaries with
      | false =>
        rw [hc] at h1
        simp at h1
      | true =>
        rw [hc] at h1
        have e : c = find_canary env t o.length := by simpa using h1
        have hn := find_canary_name env t o.length hwf
        rw [← e] at hn
        have := is_canary_of_name hn
        rw [hcan] at this
        cases this

theorem secondary_emit_behaviour_witness :
    emit_class (sample_env true 11878401)
      { dex_emit_tracker.empty with outs := [plain_class "LA;"] } [] (plain_class "LB;") false
      = .ok ({ dex_emit_tracker.empty with
               outs := [plain_class "LB;"]
               la_size := 11878401
               emitted := {plain_class "LB;"} },
             [[plain_class "LA;", create_canary "Lsecondary/dex00/Canary;"]]) :=
  (secondary_emit_behaviour (sample_env true 11878401)
    { dex_emit_tracker.empty with outs := [plain_class "LA;"] } [] (plain_class "LB;")
    (by decide) (by decide) (by decide) (by decide) (by decide)).2.1 (by decide)
    (fun _ => by decide)

theorem called_cls_registered (env : Env) (extra : List DexClass) (inst : DexInstruction) :
    called_cls (registered env extra) inst = called_cls env inst ∨
      (called_cls env inst = none ∧
        ∃ x ∈ extra, called_cls (registered env extra) inst = some x) := by
  cases inst with
  | has_methods t =>
    rcases type_class_registered env extra t with h | ⟨hn, x, hx, hs, _⟩
    · exact Or.inl h
    · exact Or.inr ⟨hn, x, hx, hs⟩
  | has_fields t =>
    rcases type_class_registered env extra t with h | ⟨hn, x, hx, hs, _⟩
    · exact Or.inl h
    · exact Or.inr ⟨hn, x, hx, hs⟩
  | has_types t =>
    rcases type_class_registered env extra t with h | ⟨hn, x, hx, hs, _⟩
    · exact Or.inl h
    · exact Or.inr ⟨hn, x, hx, hs⟩
  | plain => exact Or.inl rfl

theorem in_coldstart_registered (env : Env) (extra cold : List DexClass)
    (hd : ∀ x ∈ extra, x ∉ cold) (m : DexMethod) :
    in_coldstart (registered env extra) cold m = in_coldstart env cold m := by
  unfold in_coldstart
  rcases type_class_registered env extra m.cls with h | ⟨hn, x, hx, hs, _⟩
  · rw [h]
  · rw [hs, hn]
    simp [hd x hx]

theorem scan_code_registered (env : Env) (extra cold : List DexClass)
    (hd : ∀ x ∈ extra, x ∉ cold) (base : Option DexClass) (code : List DexInstruction) :
    ∀ refs : Finset (Option DexClass),
      scan_code (registered env extra) cold base code refs = scan_code env cold base code refs := by
  induction code with
  | nil => intro refs; rfl
  | cons inst rest ih =>
    intro refs
    simp only [scan_code]
    rcases called_cls_registered env extra inst with h | ⟨hn, x, hx, hs⟩
    · rw [h]
      cases called_cls env inst with
      | none => exact ih refs
      | some called =>
        simp only
        by_cases hc : base ≠ some called ∧ called ∈ cold
        · rw [if_pos hc, if_pos hc]
          exact ih _
        · rw [if_neg hc, if_neg hc]
          exact ih _
    · rw [hs, hn]
      simp only
      rw [if_neg (fun hc => hd x hx hc.2)]
      exact ih refs

theorem walk_methods_registered (env : Env) (extra cold : List DexClass)
    (hd : ∀ x ∈ extra, x ∉ cold) (ms : List DexMethod) :
    ∀ refs : Finset (Option DexClass),
      walk_methods (registered env extra) cold ms refs = walk_methods env cold ms refs := by
  induction ms with
  | nil => intro refs; rfl
  | cons m rest ih =>
    intro refs
    simp only [walk_methods, in_coldstart_registered env extra cold hd,
      scan_code_registered env extra cold hd]
    cases m.code with
    | none => exact ih refs
    | some code =>
      simp only
      by_cases hin : in_coldstart env cold m = true
      · rw [if_pos hin, if_pos hin]
        rcases type_class_registered env extra m.cls with h | ⟨hn, _⟩
        · rw [h]
          exact ih _
        · unfold in_coldstart at hin
          rw [hn] at hin
          cases hin
      · rw [if_neg hin, if_neg hin]
        exact ih refs

theorem walk_code_registered (env : Env) (extra cold : List DexClass)
    (hd : ∀ x ∈ extra, x ∉ cold) (scope : Scope) :
    ∀ refs : Finset (Option DexClass),
      walk_code (registered env extra) cold scope refs = walk_code env cold scope refs := by
  induction scope with
  | nil => intro refs; rfl
  | cons c rest ih =>
    intro refs
    simp only [walk_code, walk_methods_registered env extra cold hd]
    exact ih _

theorem pin_unrenamable_registered (env : Env) (extra : List DexClass) (scope : Scope) :
    ∀ refs : Finset (Option DexClass),
      pin_unrenamable (registered env extra) scope refs = pin_unrenamable env scope refs := by
  induction scope with
  | nil => intro refs; rfl
  | cons c rest ih =>
    intro refs
    simp only [pin_unrenamable, ih]
    rfl

theorem insert_types_registered (env : Env) (extra : List DexClass) (ts : List String) :
    ∀ r1 r2 : Finset (Option DexClass),
      (∀ c, c ∉ extra → (some c ∈ r2 ↔ some c ∈ r1)) →
      ∀ c, c ∉ extra → (some c ∈ insert_types (registered env extra) ts r2 ↔
        some c ∈ insert_types env ts r1) := by
  induction ts with
  | nil => intro r1 r2 h; exact h
  | cons t rest ih =>
    intro r1 r2 h
    simp only [insert_types]
    apply ih
    intro c hc
    simp only [Finset.mem_insert]
    rcases type_class_registered env extra t with e | ⟨hn, x, hx, hs, _⟩
    · rw [e, h c hc]
    · rw [hs, hn, h c hc]
      constructor
      · rintro (e | e)
        · simp only [Option.some.injEq] at e
          rw [e] at hc
          exact absurd hx hc
        · exact Or.inr e
      · rintro (e | e)
        · cases e
        · exact Or.inr e

theorem add_gathered_types_registered (env : Env) (extra : List DexClass) (I : Scope) :
    (∀ c ∈ I, c ∉ extra) →
    ∀ r1 r2 : Finset (Option DexClass),
      (∀ c, c ∉ extra → (some c ∈ r2 ↔ some c ∈ r1)) →
      ∀ c, c ∉ extra → (some c ∈ add_gathered_types (registered env extra) I r2 ↔
        some c ∈ add_gathered_types env I r1) := by
  induction I with
  | nil => intro _ r1 r2 h; exact h
  | cons k rest ih =>
    intro hI r1 r2 h
    have hk : k ∉ extra := hI k (List.mem_cons_self _ _)
    have hrest : ∀ c ∈ rest, c ∉ extra := fun c hc => hI c (List.mem_cons_of_mem _ hc)
    simp only [add_gathered_types]
    by_cases hin : some k ∈ r1
    · rw [if_pos hin, if_pos ((h k hk).2 hin)]
      exact ih hrest _ _ (insert_types_registered env extra (env.gather_types k) r1 r2 h)
    · rw [if_neg hin, if_neg (fun h2 => hin ((h k hk).1 h2))]
      exact ih hrest _ _ h

theorem cold_cold_references_registered (env : Env) (extra cold : List DexClass)
    (hd : ∀ x ∈ extra, x ∉ cold) (scope I : Scope) (hI : ∀ c ∈ I, c ∉ extra) :
    ∀ c, c ∉ extra → (some c ∈ cold_cold_references (registered env extra) scope cold I ↔
      some c ∈ cold_cold_references env scope cold I) := by
  unfold cold_cold_references
  rw [walk_code_registered env extra cold hd, pin_unrenamable_registered]
  exact add_gathered_types_registered env extra I hI _ _ (fun _ _ => Iff.rfl)

theorem partition_coldstart_registered (env : Env) (extra : List DexClass)
    (r1 r2 : Finset (Option DexClass))
    (h : ∀ c, c ∉ extra → (some c ∈ r2 ↔ some c ∈ r1)) (l : List DexClass) :
    (∀ c ∈ l, c ∉ extra) →
    ∀ st : prune_state,
      partition_coldstart (registered env extra) r2 l st = partition_coldstart env r1 l st := by
  induction l with
  | nil => intro _ st; rfl
  | cons k rest ih =>
    intro hl st
    have hk : k ∉ extra := hl k (List.mem_cons_self _ _)
    have hrest : ∀ c ∈ rest, c ∉ extra := fun c hc => hl c (List.mem_cons_of_mem _ hc)
    have hcan : (registered env extra).can_rename k = env.can_rename k := rfl
    simp only [partition_coldstart, hcan, h k hk]
    by_cases hc : env.can_rename k = true ∧ some k ∉ r1
    · rw [if_pos hc, if_pos hc]
      exact ih hrest _
    · rw [if_neg hc, if_neg hc]
      exact ih hrest _

theorem partition_coldstart_output (env : Env) (refs : Finset (Option DexClass)) :
    ∀ (l : List DexClass) (st : prune_state) (c : DexClass),
      c ∈ (partition_coldstart env refs l st).output_scope → c ∈ st.output_scope ∨ c ∈ l := by
  intro l
  induction l with
  | nil => intro st c h; exact Or.inl h
  | cons k rest ih =>
    intro st c h
    simp only [partition_coldstart] at h
    by_cases hc : env.can_rename k = true ∧ some k ∉ refs
    · rw [if_pos hc] at h
      rcases ih _ c h with h1 | h1
      · exact Or.inl h1
      · exact Or.inr (List.mem_cons_of_mem _ h1)
    · rw [if_neg hc] at h
      rcases ih _ c h with h1 | h1
      · rcases List.mem_append.1 h1 with h2 | h2
        · exact Or.inl h2
        · have : c = k := by simpa using h2
          rw [this]
          exact Or.inr (List.mem_cons_self _ _)
      · exact Or.inr (List.mem_cons_of_mem _ h1)

theorem prune_loop_registered (env : Env) (extra cold : List DexClass)
    (hd : ∀ x ∈ extra, x ∉ cold) (scope : Scope) :
    ∀ (fuel : Nat) (old new : Int) (I : Scope) (U : Finset DexClass),
      (∀ c ∈ I, c ∉ extra) →
      prune_loop (registered env extra) scope cold fuel old new I U
        = prune_loop env scope cold fuel old new I U := by
  have hcold : ∀ c ∈ cold, c ∉ extra := fun c hc hx => hd c hx hc
  intro fuel
  induction fuel with
  | zero =>
    intro old new I U _
    by_cases e : old = new
    · subst e
      rw [prune_loop_done, prune_loop_done]
    · rw [prune_loop_zero e, prune_loop_zero e]
  | succ n ih =>
    intro old new I U hI
    by_cases e : old = new
    · subst e
      rw [prune_loop_done, prune_loop_done]
    · rw [prune_loop_succ n e, prune_loop_succ n e]
      rw [partition_coldstart_registered env extra _ _
        (cold_cold_references_registered env extra cold hd scope I hI) cold hcold]
      apply ih
      intro c hc
      rcases partition_coldstart_output env _ cold _ c hc with h1 | h1
      · simp at h1
      · exact hcold c h1

theorem find_unrefenced_registered (env : Env) (extra : List DexClass) (fuel : Nat)
    (scope : Scope) (det : dex_emit_tracker) (order : List String) (prune : Bool)
    (horder : ∀ (l : List DexClass) (c : DexClass), c ∈ env.iteration_order l → c ∈ l)
    (hl : ∀ k c, det.clookup.find k = some c → c ∈ scope)
    (hfresh : ∀ x ∈ extra, x ∉ scope) :
    find_unrefenced_coldstart_classes (registered env extra) fuel scope det order prune
      = find_unrefenced_coldstart_classes env fuel scope det order prune := by
  unfold find_unrefenced_coldstart_classes
  cases prune with
  | false => rfl
  | true =>
    simp only [Bool.not_true, Bool.false_eq_true, if_false]
    have hit : (registered env extra).iteration_order = env.iteration_order := rfl
    rw [hit]
    apply prune_loop_registered
    · intro x hx hc
      rcases coldstart_insertions_mem det order [] x (horder _ _ hc) with h1 | ⟨k, _, hk⟩
      · simp at h1
      · exact hfresh x hx (hl k x hk)
    · intro c hc hx
      exact hfresh c hx hc

theorem run_interdex_registered (env : Env) (extra : List DexClass) (fuel : Nat)
    (dexen : DexClassesVector) (order : List String) (a1 a2 prune normal : Bool)
    (horder : ∀ (l : List DexClass) (c : DexClass), c ∈ env.iteration_order l → c ∈ l)
    (h1 : ∀ x ∈ extra, x = create_canary x.name)
    (hfresh : ∀ x ∈ extra, x ∉ dexen.flatten) :
    run_interdex (registered env extra) fuel dexen order a1 prune normal
      = run_interdex env fuel dexen order a2 prune normal := by
  unfold run_interdex
  simp only [build_class_scope]
  rw [find_unrefenced_registered env extra fuel dexen.flatten _ order prune horder
    (fun k c hk => (build_clookup_find hk).2) hfresh]
  simp only [run_interdex_from_registered env extra h1]

theorem created_canaries_mem {env : Env} {dexen : DexClassesVector} {normal : Bool}
    {out : DexClassesVector} {x : DexClass} (hx : x ∈ created_canaries env dexen normal out) :
    ∃ i, x = create_canary (canary_name i) ∧ type_class env (canary_name i) = none := by
  unfold created_canaries at hx
  by_cases hc : env.emit_canaries = true
  · rw [if_pos hc] at hx
    obtain ⟨i, hi, rfl⟩ := List.mem_map.1 hx
    refine ⟨i, rfl, ?_⟩
    have := (List.mem_filter.1 hi).2
    simp only [Bool.and_eq_true, Option.isNone_iff_eq_none] at this
    exact this.2
  · rw [if_neg hc] at hx
    cases hx

/-- C13: `run_interdex` returns the same result for `allow_cutting_off_dex =
true` and `false`, and `run_pass` returns the result of the first attempt,
whether or not the retry is taken; here the visiting order of the cold-start
set lists only elements of the set and the type table resolves the name of
every input class. -/
theorem run_pass_first_attempt (env : Env) (fuel : Nat) (dexen : DexClassesVector)
    (interdexorder : List String) (static_prune_classes normal_primary_dex : Bool)
    (horder : ∀ (l : List DexClass) (c : DexClass), c ∈ env.iteration_order l → c ∈ l)
    (htable : ∀ c ∈ dexen.flatten, type_class env c.name ≠ none) :
    run_interdex env fuel dexen interdexorder true static_prune_classes normal_primary_dex
      = run_interdex env fuel dexen interdexorder false static_prune_classes
          normal_primary_dex ∧
    run_pass env fuel dexen interdexorder static_prune_classes normal_primary_dex
      = run_interdex env fuel dexen interdexorder true static_prune_classes
          normal_primary_dex := by
  refine ⟨rfl, ?_⟩
  unfold run_pass
  cases hr : run_interdex env fuel dexen interdexorder true static_prune_classes
      normal_primary_dex with
  | none => rfl
  | some r =>
    cases r with
    | error e => rfl
    | ok first_attempt =>
      simp only
      by_cases hg : first_attempt.length > dexen.length
      · rw [if_pos hg, ← hr]
        apply run_interdex_registered env _ fuel dexen interdexorder false true
          static_prune_classes normal_primary_dex horder
        · intro x hx
          obtain ⟨i, hi, _⟩ := created_canaries_mem hx
          rw [hi]
          rfl
        · intro x hx hin
          obtain ⟨i, hi, hn⟩ := created_canaries_mem hx
          apply htable x hin
          rw [hi]
          exact hn
      · rw [if_neg hg]

theorem run_pass_first_attempt_witness :
    (run_interdex retry_env 1 [[plain_class "LA;", plain_class "LB;"]] [] true false true
        = some (.ok [[plain_class "LA;", create_canary "Lsecondary/dex00/Canary;"],
            [plain_class "LB;", create_canary "Lsecondary/dex01/Canary;"]]) ∧
      created_canaries retry_env [[plain_class "LA;", plain_class "LB;"]] true
          [[plain_class "LA;", create_canary "Lsecondary/dex00/Canary;"],
            [plain_class "LB;", create_canary "Lsecondary/dex01/Canary;"]]
        = [create_canary "Lsecondary/dex00/Canary;", create_canary "Lsecondary/dex01/Canary;"]) ∧
    (run_interdex retry_env 1 [[plain_class "LA;", plain_class "LB;"]] [] true false true
        = run_interdex retry_env 1 [[plain_class "LA;", plain_class "LB;"]] [] false false true ∧
      run_pass retry_env 1 [[plain_class "LA;", plain_class "LB;"]] [] false true
        = run_interdex retry_env 1 [[plain_class "LA;", plain_class "LB;"]] [] true false true) :=
  ⟨by decide,
    run_pass_first_attempt retry_env 1 [[plain_class "LA;", plain_class "LB;"]] [] false true
      (fun _ _ h => h) (by decide)⟩

/-- C16, failing input: with `normal_primary_dex = false` and an empty
cold-start list, the single input container `[LA;, Lsecond/Foo;]` of two
distinct classes, neither with a name beginning with `Lsecondary/dex`, does not
come out as it went in: the run returns the container `[LA;]`. -/
theorem primary_order_failing_input :
    [plain_class "LA;", plain_class "Lsecond/Foo;"].Nodup ∧
    (∀ c ∈ [plain_class "LA;", plain_class "Lsecond/Foo;"], has_canary_prefix c = false) ∧
    primary_sequence has_canary_prefix ∅ [plain_class "LA;", plain_class "Lsecond/Foo;"] []
      = [plain_class "LA;", plain_class "Lsecond/Foo;"] ∧
    run_interdex (sample_env false 1) 1 [[plain_class "LA;", plain_class "Lsecond/Foo;"]] []
      true false false = some (.ok [[plain_class "LA;"]]) := by
  decide

end InterDex

/-! # Properties of the source-string shortening pass -/

namespace Shorten

theorem pop_suitable_some (set : Finset DexString) :
    ∀ (l : List DexString) (val : DexString), (pop_suitable set l).1 = some val →
      val ∉ set ∧ maybe_file_name val = false ∧ is_reasonable_string val = true ∧ val ∈ l := by
  intro l
  induction l with
  | nil =>
    intro val h
    simp [pop_suitable] at h
  | cons x rest ih =>
    intro val h
    simp only [pop_suitable] at h
    by_cases hc : (decide (x ∉ set) && !maybe_file_name x && is_reasonable_string x) = true
    · rw [if_pos hc] at h
      simp only [Option.some.injEq] at h
      subst h
      simp only [Bool.and_eq_true, decide_eq_true_eq, Bool.not_eq_true'] at hc
      exact ⟨hc.1.1, hc.1.2, hc.2, List.mem_cons_self _ _⟩
    · rw [if_neg hc] at h
      obtain ⟨h1, h2, h3, h4⟩ := ih val h
      exact ⟨h1, h2, h3, List.mem_cons_of_mem _ h4⟩

theorem get_suitable_string_some {set : Finset DexString} {dex_strings : List DexString}
    {val : DexString} (h : (get_suitable_string set dex_strings).1 = some val) :
    val ∉ set ∧ maybe_file_name val = false ∧ is_reasonable_string val = true ∧
      val ∈ dex_strings := by
  obtain ⟨h1, h2, h3, h4⟩ := pop_suitable_some set _ val h
  exact ⟨h1, h2, h3, List.mem_reverse.1 h4⟩

theorem assigned_push_back_at (m : SrcStrings) (k v k' r : DexString) :
    assigned (push_back_at m k v) k' r ↔ assigned m k' r ∨ (k' = k ∧ r = v) := by
  induction m with
  | nil =>
    simp only [push_back_at, assigned, List.mem_singleton, Prod.mk.injEq, List.not_mem_nil,
      false_and, exists_false, false_or]
    constructor
    · rintro ⟨vs, ⟨e1, e2⟩, hr⟩
      subst e2
      exact ⟨e1, by simpa using hr⟩
    · rintro ⟨e1, e2⟩
      exact ⟨[v], ⟨e1, rfl⟩, by simp [e2]⟩
  | cons p rest ih =>
    obtain ⟨key, values⟩ := p
    simp only [push_back_at]
    by_cases hk : key = k
    · rw [if_pos hk]
      subst hk
      constructor
      · rintro ⟨vs, hm, hr⟩
        rcases List.mem_cons.1 hm with e | e
        · simp only [Prod.mk.injEq] at e
          obtain ⟨e1, e2⟩ := e
          subst e1 e2
          rcases List.mem_append.1 hr with h1 | h1
          · exact Or.inl ⟨values, List.mem_cons_self _ _, h1⟩
          · exact Or.inr ⟨rfl, by simpa using h1⟩
        · exact Or.inl ⟨vs, List.mem_cons_of_mem _ e, hr⟩
      · rintro (⟨vs, hm, hr⟩ | ⟨e1, e2⟩)
        · rcases List.mem_cons.1 hm with e | e
          · simp only [Prod.mk.injEq] at e
            obtain ⟨e1, e2⟩ := e
            subst e1 e2
            exact ⟨vs ++ [v], List.mem_cons_self _ _, List.mem_append_left _ hr⟩
          · exact ⟨vs, List.mem_cons_of_mem _ e, hr⟩
        · subst e1 e2
          exact ⟨values ++ [r], List.mem_cons_self _ _, by simp⟩
    · rw [if_neg hk]
      constructor
      · rintro ⟨vs, hm, hr⟩
        rcases List.mem_cons.1 hm with e | e
        · exact Or.inl ⟨vs, by rw [e]; exact List.mem_cons_self _ _, hr⟩
        · rcases (ih).1 ⟨vs, e, hr⟩ with ⟨vs2, hm2, hr2⟩ | h2
          · exact Or.inl ⟨vs2, List.mem_cons_of_mem _ hm2, hr2⟩
          · exact Or.inr h2
      · rintro (⟨vs, hm, hr⟩ | h2)
        · rcases List.mem_cons.1 hm with e | e
          · exact ⟨vs, by rw [e]; exact List.mem_cons_self _ _, hr⟩
          · obtain ⟨vs2, hm2, hr2⟩ := (ih).2 (Or.inl ⟨vs, e, hr⟩)
            exact ⟨vs2, List.mem_cons_of_mem _ hm2, hr2⟩
        · obtain ⟨vs2, hm2, hr2⟩ := (ih).2 (Or.inr h2)
          exact ⟨vs2, List.mem_cons_of_mem _ hm2, hr2⟩

theorem strip_inv_empty (P : DexString → Prop) : StripInv P [] ∅ :=
  ⟨fun _ _ h => h.elim (fun _ hm => absurd hm.1 (List.not_mem_nil _)),
    fun _ _ h => h.elim (fun _ hm => absurd hm.1 (List.not_mem_nil _)),
    fun _ _ _ h _ => h.elim (fun _ hm => absurd hm.1 (List.not_mem_nil _)),
    fun _ _ h => h.elim (fun _ hm => absurd hm.1 (List.not_mem_nil _))⟩

theorem strip_inv_step {P : DexString → Prop} {m : SrcStrings} {used : Finset DexString}
    (h : StripInv P m used) (k v : DexString) (hk : P k)
    (hv : v = k ∨ (v ∉ used ∧ maybe_file_name v = false ∧ is_reasonable_string v = true)) :
    StripInv P (push_back_at m k v) (insert v used) := by
  constructor
  · intro k' r ha
    rcases (assigned_push_back_at m k v k' r).1 ha with h1 | ⟨_, h2⟩
    · exact Finset.mem_insert_of_mem (h.in_used k' r h1)
    · rw [h2]
      exact Finset.mem_insert_self _ _
  · intro k' r ha
    rcases (assigned_push_back_at m k v k' r).1 ha with h1 | ⟨h2, h3⟩
    · exact h.own_or_suitable k' r h1
    · subst h2 h3
      rcases hv with e | ⟨_, e2, e3⟩
      · exact Or.inl e
      · exact Or.inr ⟨e2, e3⟩
  · intro k1 k2 r ha1 ha2
    rcases (assigned_push_back_at m k v k1 r).1 ha1 with h1 | ⟨h1, h1r⟩
    · rcases (assigned_push_back_at m k v k2 r).1 ha2 with h2 | ⟨h2, h2r⟩
      · exact h.shared k1 k2 r h1 h2
      · subst h2 h2r
        rcases hv with e | ⟨e, _⟩
        · exact Or.inr (Or.inr e)
        · exact absurd (h.in_used k1 r h1) e
    · rcases (assigned_push_back_at m k v k2 r).1 ha2 with h2 | ⟨h2, _⟩
      · subst h1 h1r
        rcases hv with e | ⟨e, _⟩
        · exact Or.inr (Or.inl e)
        · exact absurd (h.in_used k2 r h2) e
      · exact Or.inl (by rw [h1, h2])
  · intro k' r ha
    rcases (assigned_push_back_at m k v k' r).1 ha with h1 | ⟨h2, _⟩
    · exact h.keys k' r h1
    · rw [h2]
      exact hk

theorem shorten_classes_inv {P : DexString → Prop} (classes : DexClasses) :
    ∀ st : dex_state, StripInv P st.global_src_strings st.shortened_used →
      (∀ clazz ∈ classes, ∀ s, clazz.source_file = some s → P s) →
      StripInv P (shorten_classes classes st).global_src_strings
        (shorten_classes classes st).shortened_used := by
  induction classes with
  | nil => intro st h _; exact h
  | cons clazz rest ih =>
    intro st h hP
    have hrest : ∀ c ∈ rest, ∀ s, c.source_file = some s → P s :=
      fun c hc => hP c (List.mem_cons_of_mem _ hc)
    simp only [shorten_classes]
    cases hs : clazz.source_file with
    | none => exact ih _ h hrest
    | some src_string =>
      simp only
      cases hl : st.src_to_shortened.lookup src_string with
      | some x => exact ih _ h hrest
      | none =>
        simp only
        apply ih _ _ hrest
        apply strip_inv_step h src_string _ (hP clazz (List.mem_cons_self _ _) src_string hs)
        cases hf : (get_suitable_string st.shortened_used st.current_dex_strings).1 with
        | none => exact Or.inl rfl
        | some val =>
          obtain ⟨h1, h2, h3, _⟩ := get_suitable_string_some hf
          exact Or.inr ⟨h1, h2, h3⟩

theorem strip_dexen_inv {P : DexString → Prop} (env : Env) (dexen : DexClassesVector) :
    ∀ st : strip_state, StripInv P st.global_src_strings st.shortened_used →
      (∀ classes ∈ dexen, ∀ clazz ∈ classes, ∀ s, clazz.source_file = some s → P s) →
      StripInv P (strip_dexen env dexen st).global_src_strings
        (strip_dexen env dexen st).shortened_used := by
  induction dexen with
  | nil => intro st h _; exact h
  | cons classes rest ih =>
    intro st h hP
    simp only [strip_dexen]
    apply ih
    · exact shorten_classes_inv classes _ h (hP classes (List.mem_cons_self _ _))
    · exact fun cs hcs => hP cs (List.mem_cons_of_mem _ hcs)

/-- C21, failing input: in one container with a class of source file `B.java`
followed by a class of source file `Foo.kt`, whose gathered strings are these two,
`B.java` is replaced by `Foo.kt`, and `Foo.kt`, for which `get_suitable_string`
finds nothing, keeps its own string although it is in `shortened_used`: the
mapping records the replacement `Foo.kt` for two different originals, and both
classes end with the source file `Foo.kt`. -/
theorem replacement_failing_input :
    (strip_src_strings sample_env
      [[{ name := "LA;", source_file := some "B.java" },
        { name := "LB;", source_file := some "Foo.kt" }]]).global_src_strings
      = [("B.java", ["Foo.kt"]), ("Foo.kt", ["Foo.kt"])] ∧
    (strip_src_strings sample_env
      [[{ name := "LA;", source_file := some "B.java" },
        { name := "LB;", source_file := some "Foo.kt" }]]).dexen
      = [[{ name := "LA;", source_file := some "Foo.kt" },
          { name := "LB;", source_file := some "Foo.kt" }]] ∧
    assigned (strip_src_strings sample_env
      [[{ name := "LA;", source_file := some "B.java" },
        { name := "LB;", source_file := some "Foo.kt" }]]).global_src_strings
      "B.java" "Foo.kt" ∧
    assigned (strip_src_strings sample_env
      [[{ name := "LA;", source_file := some "B.java" },
        { name := "LB;", source_file := some "Foo.kt" }]]).global_src_strings
      "Foo.kt" "Foo.kt" ∧
    "B.java" ≠ "Foo.kt" :=
  ⟨by decide, by decide, ⟨["Foo.kt"], by decide, by decide⟩, ⟨["Foo.kt"], by decide, by decide⟩,
    by decide⟩

/-- The strings that `get_suitable_string` hands out are never shared: when the
mapping of a run records the same replacement string `r` for two different
original source strings, `r` is itself one of the two originals, kept by the
branch for `nullptr`; it is the source file of a class of the input, does not
end in `.java`, is not empty and holds none of the characters newline, tab,
colon and comma. -/
theorem shared_replacement_is_original (env : Env) (dexen : DexClassesVector)
    (k1 k2 r : DexString)
    (h1 : assigned (strip_src_strings env dexen).global_src_strings k1 r)
    (h2 : assigned (strip_src_strings env dexen).global_src_strings k2 r) (hne : k1 ≠ k2) :
    (r = k1 ∨ r = k2) ∧ is_source_file dexen r ∧ maybe_file_name r = false ∧
      is_reasonable_string r = true := by
  have inv : StripInv (is_source_file dexen) (strip_src_strings env dexen).global_src_strings
      (strip_src_strings env dexen).shortened_used :=
    strip_dexen_inv env dexen _ (strip_inv_empty _)
      (fun cs hcs c hc s hs => ⟨cs, hcs, c, hc, hs⟩)
  rcases inv.shared k1 k2 r h1 h2 with e | e | e
  · exact absurd e hne
  · have hs : is_source_file dexen r := by
      rw [e]
      exact inv.keys k1 r h1
    rcases inv.own_or_suitable k2 r h2 with e2 | ⟨a, b⟩
    · exact absurd (e.symm.trans e2) hne
    · exact ⟨Or.inl e, hs, a, b⟩
  · have hs : is_source_file dexen r := by
      rw [e]
      exact inv.keys k2 r h2
    rcases inv.own_or_suitable k1 r h1 with e1 | ⟨a, b⟩
    · exact absurd (e1.symm.trans e) hne
    · exact ⟨Or.inr e, hs, a, b⟩

theorem shared_replacement_is_original_witness :
    ("Foo.kt" = "B.java" ∨ "Foo.kt" = "Foo.kt") ∧
    is_source_file [[{ name := "LA;", source_file := some "B.java" },
        { name := "LB;", source_file := some "Foo.kt" }]] "Foo.kt" ∧
    maybe_file_name "Foo.kt" = false ∧ is_reasonable_string "Foo.kt" = true :=
  shared_replacement_is_original sample_env
    [[{ name := "LA;", source_file := some "B.java" },
      { name := "LB;", source_file := some "Foo.kt" }]]
    "B.java" "Foo.kt" "Foo.kt" ⟨["Foo.kt"], by decide, by decide⟩
    ⟨["Foo.kt"], by decide, by decide⟩ (by decide)

end Shorten
